import Mathlib

/-!
# Visplane engine of `src/doom/r_plane.c`

A shallow embedding of the plane registry (`R_ClearPlanes`, `R_RaiseVisplanes`,
`R_FindPlane`, `R_CheckPlane`), of the span sweep (`R_MakeSpans`, the flat
branch of `R_DrawPlanes`), of the rasterizer entry `R_MapPlane`, of the whole
of `R_DrawPlanes` and of `R_DistortedFlat`; then of the chat queue of
`src/doom/hu_stuff.c` and of `WritePCXfile` and `V_DrawPatch` of
`src/v_video.c`; followed by the properties proved about them.

Conventions of the embedding:

* `int` values are `Int`; `unsigned int` values are `Nat`, and every `++`/`--`
  on an unsigned counter is written with its reduction modulo `2^32`.
* A C array is a function from the index to the element.  The arrays `top` and
  `bottom` of a visplane are indexed by `Int` because the code addresses the
  padding words `top[-1]`, `top[MAXWIDTH]` (`pl->top[pl->minx-1]`).
* A `visplane_t*` is an `Int` address counted in elements; the block that
  `visplanes` points to is a function from the element offset to the element.
* An access outside an array or outside the block is not an error of the
  model: the index bounds are stated and proved as properties.
* `while` loops take a fuel argument and return `none` when it runs out; a
  `for` loop whose trip count is fixed on entry recurses on that count.
-/

namespace Doom

/-! ## Data model -/

/-- The value `0xffffffffu` that marks a column of `top[]` as not claimed. -/
def UNCLAIMED : Nat := 0xffffffff

/-- The macro `MAXVISPLANES` of `r_plane.c`. -/
def MAXVISPLANES : Int := 128

/-- Record `visplane_t` (declared in `r_defs.h`): the surface identity, the
claimed column range and the per-column occlusion bounds. -/
structure visplane_t where
  height : Int
  picnum : Int
  lightlevel : Int
  minx : Int
  maxx : Int
  top : Int → Nat
  bottom : Int → Nat

/-- One call `R_MapPlane (y, x1, x2)`: the row and the inclusive column run. -/
structure MapPlaneCall where
  y : Int
  x1 : Int
  x2 : Int
deriving DecidableEq, Repr

/-- Conversion of an `unsigned int` argument to the `int` parameter `y` of
`R_MapPlane` (two's complement). -/
def toInt32 (u : Nat) : Int :=
  if u < 2 ^ 31 then (u : Int) else (u : Int) - 2 ^ 32

/-! ## `R_MakeSpans` -/

/-- First loop of `R_MakeSpans`:
`while (t1 < t2 && t1<=b1) { R_MapPlane (t1,spanstart[t1],x-1); t1++; }`.
Returns the final `t1` and the calls made, in order. -/
def R_MakeSpans_loop1 (x : Int) (spanstart : Nat → Int) (b1 t2 : Nat) :
    Nat → Nat → Option (Nat × List MapPlaneCall)
  | 0, _ => none
  | fuel + 1, t1 =>
    if t1 < t2 ∧ t1 ≤ b1 then
      (R_MakeSpans_loop1 x spanstart b1 t2 fuel ((t1 + 1) % 2 ^ 32)).map
        fun r => (r.1, ⟨toInt32 t1, spanstart t1, x - 1⟩ :: r.2)
    else some (t1, [])

/-- Second loop of `R_MakeSpans`:
`while (b1 > b2 && b1>=t1) { R_MapPlane (b1,spanstart[b1],x-1); b1--; }`.
Returns the final `b1` and the calls made, in order. -/
def R_MakeSpans_loop2 (x : Int) (spanstart : Nat → Int) (t1 b2 : Nat) :
    Nat → Nat → Option (Nat × List MapPlaneCall)
  | 0, _ => none
  | fuel + 1, b1 =>
    if b1 > b2 ∧ b1 ≥ t1 then
      (R_MakeSpans_loop2 x spanstart t1 b2 fuel ((b1 + 2 ^ 32 - 1) % 2 ^ 32)).map
        fun r => (r.1, ⟨toInt32 b1, spanstart b1, x - 1⟩ :: r.2)
    else some (b1, [])

/-- Third loop of `R_MakeSpans`:
`while (t2 < t1 && t2<=b2) { spanstart[t2] = x; t2++; }`.
Returns the final `t2` and the updated `spanstart`. -/
def R_MakeSpans_loop3 (x : Int) (t1 b2 : Nat) :
    Nat → Nat → (Nat → Int) → Option (Nat × (Nat → Int))
  | 0, _, _ => none
  | fuel + 1, t2, spanstart =>
    if t2 < t1 ∧ t2 ≤ b2 then
      R_MakeSpans_loop3 x t1 b2 fuel ((t2 + 1) % 2 ^ 32)
        (fun r => if r = t2 then x else spanstart r)
    else some (t2, spanstart)

/-- Fourth loop of `R_MakeSpans`:
`while (b2 > b1 && b2>=t2) { spanstart[b2] = x; b2--; }`.
Returns the final `b2` and the updated `spanstart`. -/
def R_MakeSpans_loop4 (x : Int) (b1 t2 : Nat) :
    Nat → Nat → (Nat → Int) → Option (Nat × (Nat → Int))
  | 0, _, _ => none
  | fuel + 1, b2, spanstart =>
    if b2 > b1 ∧ b2 ≥ t2 then
      R_MakeSpans_loop4 x b1 t2 fuel ((b2 + 2 ^ 32 - 1) % 2 ^ 32)
        (fun r => if r = b2 then x else spanstart r)
    else some (b2, spanstart)

/-- Function `R_MakeSpans (x, t1, b1, t2, b2)`.  The result is the new
`spanstart` table and the `R_MapPlane` calls made, in the order of the calls.
`R_MapPlane` reads and writes nothing that `R_MakeSpans` uses, so recording
the calls keeps everything the sweep depends on. -/
def R_MakeSpans (fuel : Nat) (x : Int) (t1 b1 t2 b2 : Nat) (spanstart : Nat → Int) :
    Option ((Nat → Int) × List MapPlaneCall) :=
  match R_MakeSpans_loop1 x spanstart b1 t2 fuel t1 with
  | none => none
  | some (t1a, calls1) =>
    match R_MakeSpans_loop2 x spanstart t1a b2 fuel b1 with
    | none => none
    | some (b1a, calls2) =>
      match R_MakeSpans_loop3 x t1a b2 fuel t2 spanstart with
      | none => none
      | some (t2a, spanstart3) =>
        match R_MakeSpans_loop4 x b1a t2a fuel b2 spanstart3 with
        | none => none
        | some (_, spanstart4) => some (spanstart4, calls1 ++ calls2)

/-! ## The flat branch of `R_DrawPlanes` -/

/-- The loop `for (x=pl->minx ; x<= stop ; x++) R_MakeSpans(x, pl->top[x-1],
pl->bottom[x-1], pl->top[x], pl->bottom[x]);` of `R_DrawPlanes`; the argument
after `fuel` counts the iterations that remain (`stop + 1 - x`), and `fuel` is
handed to each `R_MakeSpans` call. -/
def R_DrawPlanes_loop (top bottom : Int → Nat) (stop : Int) (fuel : Nat) :
    Nat → Int → (Nat → Int) → Option ((Nat → Int) × List MapPlaneCall)
  | 0, _, spanstart => some (spanstart, [])
  | n + 1, x, spanstart =>
    if x ≤ stop then
      match R_MakeSpans fuel x (top (x - 1)) (bottom (x - 1)) (top x) (bottom x) spanstart with
      | none => none
      | some (spanstart1, calls) =>
        (R_DrawPlanes_loop top bottom stop fuel n (x + 1) spanstart1).map
          fun r => (r.1, calls ++ r.2)
    else some (spanstart, [])

/-- Constants and globals that `r_plane.c` reads and that are declared
elsewhere (`doomdef.h`, `r_defs.h`, `r_sky.c`, `r_main.c`). -/
structure Env where
  SCREENWIDTH : Int
  MAXWIDTH : Int
  skyflatnum : Int
  PL_SKYFLAT : Nat
  viewwidth : Int
  viewheight : Int

/-- The test `picnum == skyflatnum || picnum & PL_SKYFLAT` of `R_FindPlane`
and `R_DrawPlanes`; the bitwise and is taken on the 32-bit pattern of
`picnum`. -/
def isSky (env : Env) (picnum : Int) : Bool :=
  picnum == env.skyflatnum || ((picnum % 2 ^ 32).toNat &&& env.PL_SKYFLAT) != 0

/-- Body of the plane loop of `R_DrawPlanes` for one visplane, as far as
`R_MapPlane` is concerned: a plane with `minx > maxx` is skipped, a sky plane
is drawn by columns and makes no `R_MapPlane` call, and a regular flat forces
`top[maxx+1]` and `top[minx-1]` to the sentinel and runs the sweep.  The result
is the plane as left in the registry, the new `spanstart` and the `R_MapPlane`
calls in order. -/
def R_DrawPlanes_plane (env : Env) (fuel : Nat) (pl : visplane_t) (spanstart : Nat → Int) :
    Option (visplane_t × (Nat → Int) × List MapPlaneCall) :=
  if pl.minx > pl.maxx then some (pl, spanstart, [])
  else if isSky env pl.picnum then some (pl, spanstart, [])
  else
    let top1 : Int → Nat := fun i => if i = pl.maxx + 1 then 0xffffffff else pl.top i
    let top2 : Int → Nat := fun i => if i = pl.minx - 1 then 0xffffffff else top1 i
    let stop := pl.maxx + 1
    (R_DrawPlanes_loop top2 pl.bottom stop fuel (stop + 1 - pl.minx).toNat pl.minx spanstart).map
      fun r => ({ pl with top := top2 }, r.1, r.2)

/-- The call that a flush loop of `R_MakeSpans` makes for row `r`. -/
def mapCall (x : Int) (spanstart : Nat → Int) (r : Nat) : MapPlaneCall :=
  ⟨toInt32 r, spanstart r, x - 1⟩

/-- Rows for which one `R_MakeSpans` call flushes a span, in the order of the
calls: the first loop walks up from `t1`, the second walks down from `b1`. -/
def flushRows (t1 b1 t2 b2 : Nat) : List Nat :=
  List.range' t1 (min t2 (b1 + 1) - t1) ++
    (List.range' (max (b2 + 1) (t1 + (min t2 (b1 + 1) - t1)))
      (b1 + 1 - max (b2 + 1) (t1 + (min t2 (b1 + 1) - t1)))).reverse

/-- Whether the span of call `s` covers the pixel at row `row`, column `col`. -/
def covers (row col : Int) (s : MapPlaneCall) : Bool :=
  decide (s.y = row ∧ s.x1 ≤ col ∧ col ≤ s.x2)

/-- Environment of the witnesses: a 320x200 screen with the full-size view. -/
def envW : Env := ⟨320, 1280, 7, 0x80000000, 320, 200⟩

/-- Plane of the span witness: columns 10..80 with top 0 and bottom 100. -/
def planeW : visplane_t := ⟨0, 5, 3, 10, 80, fun _ => 0, fun _ => 100⟩

/-! ## The visplane registry -/

/-- Globals of `r_plane.c` (and `markceiling` of `r_segs.c`, which
`R_CheckPlane` reads).  `visplanes`, `lastvisplane`, `floorplane` and
`ceilingplane` are addresses counted in elements, `NULL` being `0`; `store i`
is the element `visplanes[i]` of the block that `visplanes` points to;
`lastopening` is the offset `lastopening - openings`; the four `cached...`
arrays are the per-row cache of `R_MapPlane`. -/
structure PlaneState where
  visplanes : Int
  store : Int → visplane_t
  lastvisplane : Int
  floorplane : Int
  ceilingplane : Int
  numvisplanes : Int
  markceiling : Bool
  floorclip : Int → Int
  ceilingclip : Int → Int
  lastopening : Int
  cachedheight : Int → Int
  cacheddistance : Int → Int
  cachedxstep : Int → Int
  cachedystep : Int → Int

/-- A visplane whose bytes are all zero, as `memset (..., 0, ...)` leaves it. -/
def zeroPlane : visplane_t :=
  { height := 0, picnum := 0, lightlevel := 0, minx := 0, maxx := 0,
    top := fun _ => 0, bottom := fun _ => 0 }

/-- State at program start: every global is zero (`visplanes = NULL`,
`numvisplanes = 0`). -/
def initialState : PlaneState :=
  { visplanes := 0, store := fun _ => zeroPlane, lastvisplane := 0, floorplane := 0,
    ceilingplane := 0, numvisplanes := 0, markceiling := false, floorclip := fun _ => 0,
    ceilingclip := fun _ => 0, lastopening := 0, cachedheight := fun _ => 0,
    cacheddistance := fun _ => 0, cachedxstep := fun _ => 0, cachedystep := fun _ => 0 }

/-- The element `*p` for a `visplane_t* p` into the block. -/
def deref (st : PlaneState) (p : Int) : visplane_t :=
  st.store (p - st.visplanes)

/-- Handle of a pointer: its index `p - visplanes` in the block. -/
def handleOf (st : PlaneState) (p : Int) : Int :=
  p - st.visplanes

/-- Number of live entries, `lastvisplane - visplanes`. -/
def liveCount (st : PlaneState) : Int :=
  st.lastvisplane - st.visplanes

/-- Store `v` into `*p`. -/
def assign (st : PlaneState) (p : Int) (v : visplane_t) : PlaneState :=
  { st with store := fun i => if i = p - st.visplanes then v else st.store i }

/-- Effect of `memset (pl->top,0xff,sizeof(pl->top))` on the array `top`: the
`MAXWIDTH` words `top[0] .. top[MAXWIDTH-1]` become `0xffffffff`, the padding
words around them are not touched. -/
def memsetTop (MAXWIDTH : Int) (top : Int → Nat) : Int → Nat :=
  fun i => if 0 ≤ i ∧ i < MAXWIDTH then 0xffffffff else top i

/-- The loop `for (i=0 ; i<viewwidth ; i++) { floorclip[i] = viewheight;
ceilingclip[i] = -1; }` of `R_ClearPlanes`; the first argument counts the
iterations that remain (`viewwidth - i`). -/
def R_ClearPlanes_loop (viewheight : Int) :
    Nat → Int → (Int → Int) → (Int → Int) → (Int → Int) × (Int → Int)
  | 0, _, floorclip, ceilingclip => (floorclip, ceilingclip)
  | k + 1, i, floorclip, ceilingclip =>
    R_ClearPlanes_loop viewheight k (i + 1)
      (fun j => if j = i then viewheight else floorclip j)
      (fun j => if j = i then -1 else ceilingclip j)

/-- Function `R_ClearPlanes`.  The assignments to `basexscale` and
`baseyscale` are left out: no embedded function reads them. -/
def R_ClearPlanes (env : Env) (st : PlaneState) : PlaneState :=
  let clip := R_ClearPlanes_loop env.viewheight env.viewwidth.toNat 0 st.floorclip st.ceilingclip
  { st with
    floorclip := clip.1
    ceilingclip := clip.2
    lastvisplane := st.visplanes
    lastopening := 0
    cachedheight := fun _ => 0 }

/-- Function `R_RaiseVisplanes (vp)`.  `vp` is `none` for a null argument and
`some p` when `*vp = p`; the second component of the result is `*vp` on
return.  `newblock` is the address that `I_Realloc` returns (it does not
return when the allocation fails): the first `numvisplanes_old` elements are
carried over and the `memset` zeroes the elements added.  `numvisplanes` is not
reduced modulo `2^32`: `2 * numvisplanes` leaves the range of `int` only from
`2^30` entries on, a block that no `I_Realloc` call can return. -/
def R_RaiseVisplanes (st : PlaneState) (vp : Option Int) (newblock : Int) :
    PlaneState × Option Int :=
  if st.lastvisplane - st.visplanes = st.numvisplanes then
    let numvisplanes_old := st.numvisplanes
    let visplanes_old := st.visplanes
    let numvisplanes := if st.numvisplanes ≠ 0 then 2 * st.numvisplanes else MAXVISPLANES
    let visplanes := newblock
    ({ st with
        numvisplanes := numvisplanes
        visplanes := visplanes
        store := fun i =>
          if numvisplanes_old ≤ i ∧ i < numvisplanes then zeroPlane else st.store i
        lastvisplane := visplanes + numvisplanes_old
        floorplane := visplanes + (st.floorplane - visplanes_old)
        ceilingplane := visplanes + (st.ceilingplane - visplanes_old) },
      vp.map fun p => visplanes + (p - visplanes_old))
  else (st, vp)

/-- The test `height == check->height && picnum == check->picnum &&
lightlevel == check->lightlevel` of `R_FindPlane`. -/
def samePlane (height picnum lightlevel : Int) (v : visplane_t) : Bool :=
  height == v.height && picnum == v.picnum && lightlevel == v.lightlevel

/-- The search loop `for (check=visplanes; check<lastvisplane; check++)` of
`R_FindPlane`, leaving by `break` at the first entry that passes the test; the
first argument counts the entries not yet looked at (`lastvisplane - check`).
The result is `check` after the loop. -/
def R_FindPlane_loop (st : PlaneState) (height picnum lightlevel : Int) : Nat → Int → Int
  | 0, check => check
  | k + 1, check =>
    if check < st.lastvisplane then
      if samePlane height picnum lightlevel (deref st check) then check
      else R_FindPlane_loop st height picnum lightlevel k (check + 1)
    else check

/-- Function `R_FindPlane (height, picnum, lightlevel)`: the new state and the
pointer returned.  `newblock` is what `I_Realloc` returns if the call has to
grow the registry. -/
def R_FindPlane (env : Env) (st : PlaneState) (height picnum lightlevel newblock : Int) :
    PlaneState × Int :=
  let sky := isSky env picnum
  let height := if sky then 0 else height
  let lightlevel := if sky then 0 else lightlevel
  let check := R_FindPlane_loop st height picnum lightlevel
    (st.lastvisplane - st.visplanes).toNat st.visplanes
  if check < st.lastvisplane then (st, check)
  else
    let r := R_RaiseVisplanes st (some check) newblock
    let st1 := r.1
    let check := r.2.getD check
    let st2 := { st1 with lastvisplane := st1.lastvisplane + 1 }
    (assign st2 check
      { deref st2 check with
        height := height
        picnum := picnum
        lightlevel := lightlevel
        minx := env.SCREENWIDTH
        maxx := -1
        top := memsetTop env.MAXWIDTH (deref st2 check).top },
      check)

/-- The scan `for (x=intrl ; x<= intrh ; x++) if (pl->top[x] != 0xffffffffu)
break;` of `R_CheckPlane`; the first argument counts the columns not yet
looked at (`intrh + 1 - x`).  The result is `x` after the loop. -/
def R_CheckPlane_loop (top : Int → Nat) (intrh : Int) : Nat → Int → Int
  | 0, x => x
  | k + 1, x =>
    if x ≤ intrh then
      if top x ≠ 0xffffffff then x
      else R_CheckPlane_loop top intrh k (x + 1)
    else x

/-- Function `R_CheckPlane (pl, start, stop)`: the new state and the pointer
returned.  `newblock` is what `I_Realloc` returns if the call has to grow the
registry. -/
def R_CheckPlane (env : Env) (st : PlaneState) (pl start stop newblock : Int) :
    PlaneState × Int :=
  let intrl := if start < (deref st pl).minx then (deref st pl).minx else start
  let unionl := if start < (deref st pl).minx then start else (deref st pl).minx
  let intrh := if stop > (deref st pl).maxx then (deref st pl).maxx else stop
  let unionh := if stop > (deref st pl).maxx then stop else (deref st pl).maxx
  let x := R_CheckPlane_loop (deref st pl).top intrh (intrh + 1 - intrl).toNat intrl
  if !(pl == st.floorplane && st.markceiling && st.floorplane == st.ceilingplane)
      && decide (x > intrh) then
    (assign st pl { deref st pl with minx := unionl, maxx := unionh }, pl)
  else
    let r := R_RaiseVisplanes st (some pl) newblock
    let st1 := r.1
    let pl := r.2.getD pl
    let st2 := assign st1 st1.lastvisplane
      { deref st1 st1.lastvisplane with
        height := (deref st1 pl).height
        picnum := (deref st1 pl).picnum
        lightlevel := (deref st1 pl).lightlevel }
    let pl := st2.lastvisplane
    let st3 := { st2 with lastvisplane := st2.lastvisplane + 1 }
    (assign st3 pl
      { deref st3 pl with
        minx := start
        maxx := stop
        top := memsetTop env.MAXWIDTH (deref st3 pl).top },
      pl)

/-- The check `lastvisplane - visplanes > numvisplanes` that makes
`R_DrawPlanes` stop with "visplane overflow" when range checking is compiled
in. -/
def R_DrawPlanes_overflow (st : PlaneState) : Bool :=
  decide (st.lastvisplane - st.visplanes > st.numvisplanes)

/-- One call on the registry.  `find` and `check` carry the address that
`I_Realloc` returns if the call grows the registry; `check` names its plane
by the handle `h`, the pointer passed being `visplanes + h`. -/
inductive PlaneCall where
  | clear
  | find (height picnum lightlevel newblock : Int)
  | check (h start stop newblock : Int)

/-- State after one call. -/
def PlaneCall.apply (env : Env) (st : PlaneState) : PlaneCall → PlaneState
  | .clear => R_ClearPlanes env st
  | .find height picnum lightlevel newblock =>
    (R_FindPlane env st height picnum lightlevel newblock).1
  | .check h start stop newblock =>
    (R_CheckPlane env st (st.visplanes + h) start stop newblock).1

/-- State after a sequence of calls, made in order. -/
def runCalls (env : Env) (st : PlaneState) (calls : List PlaneCall) : PlaneState :=
  calls.foldl (PlaneCall.apply env) st

/-! ## `R_MapPlane` -/

/-- Globals, tables and functions of the renderer that `R_MapPlane` and
`R_DrawPlanes` read and that are declared outside `r_plane.c` (`r_main.c`,
`r_draw.c`, `r_data.c`, `r_sky.c`, `m_fixed.c`, `tables.c`, `p_setup.c`).
Pointers to light tables, columns and textures are `Int` values; the record
fields of `lines[]` and `sides[]` that the code reads are one table each.
`RANGECHECK` tells whether the diagnostic checks are compiled in, and
`drawsegsOverflow` is the value of `ds_p - drawsegs > numdrawsegs`. -/
structure View where
  RANGECHECK : Bool
  FixedMul : Int → Int → Int
  FRACBITS : Nat
  centerx : Int
  centery : Int
  yslope : Int → Int
  viewsin : Int
  viewcos : Int
  viewx : Int
  viewy : Int
  viewz : Int
  viewangle : Nat
  detailshift : Nat
  extralight : Int
  fixedcolormap : Option Int
  fullcolormap : Int
  cm_zlight : Int → Nat → Int
  LIGHTLEVELS : Int
  LIGHTSEGSHIFT : Nat
  LIGHTBRIGHT : Int
  MAXLIGHTZ : Nat
  LIGHTZSHIFT : Nat
  ANGLETOSKYSHIFT : Nat
  xtoviewangle : Int → Nat
  skytexture : Int
  skytexturemid : Int
  pspriteiscale : Int
  texturetranslation : Int → Int
  textureheight : Int → Int
  R_GetColumn : Int → Int → Int
  lineSidenum : Nat → Int
  lineSpecial : Nat → Int
  sideToptexture : Int → Int
  sideRowoffset : Int → Int
  sideTextureoffset : Int → Int
  flattranslation : Int → Int
  firstflat : Int
  drawsegsOverflow : Bool

/-- A value of type `int` or `fixed_t` after an arithmetic step: the result
taken modulo `2^32` in two's complement. -/
def wrap32 (a : Int) : Int :=
  (a + 2 ^ 31) % 2 ^ 32 - 2 ^ 31

/-- Conversion of an `int` to `unsigned int`. -/
def toUInt32 (a : Int) : Nat :=
  (a % 2 ^ 32).toNat

/-- The `ds_` globals as `spanfunc ()` finds them when `R_MapPlane` calls
it, and the local `distance` they were computed from. -/
structure SpanDraw where
  ds_y : Int
  ds_x1 : Int
  ds_x2 : Int
  ds_xfrac : Int
  ds_yfrac : Int
  ds_xstep : Int
  ds_ystep : Int
  ds_colormap0 : Int
  ds_colormap1 : Int
  distance : Int
deriving DecidableEq, Repr

/-- Function `R_MapPlane (y, x1, x2)`, with the globals `planeheight` and
`planezlight` that `R_DrawPlanes` sets as arguments.  The result is
`.error` where the code calls `I_Error`; otherwise the new state (the row
cache) and what `spanfunc` was called with, `none` when the function returns
before the call (`dy == 0`). -/
def R_MapPlane (env : Env) (view : View) (planeheight : Int) (planezlight : Nat → Int)
    (st : PlaneState) (y x1 x2 : Int) : Except String (PlaneState × Option SpanDraw) :=
  if view.RANGECHECK && (decide (x2 < x1) || decide (x1 < 0) || decide (x2 ≥ env.viewwidth)
      || decide (y > env.viewheight)) then
    .error "R_MapPlane: %i, %i at %i"
  else
    let dy := |view.centery - y|
    if dy = 0 then .ok (st, none)
    else
      let miss := planeheight ≠ st.cachedheight y
      let distance :=
        if miss then view.FixedMul planeheight (view.yslope y) else st.cacheddistance y
      let ds_xstep :=
        if miss then
          wrap32 ((view.FixedMul view.viewsin planeheight).tdiv dy * 2 ^ view.detailshift)
        else st.cachedxstep y
      let ds_ystep :=
        if miss then
          wrap32 ((view.FixedMul view.viewcos planeheight).tdiv dy * 2 ^ view.detailshift)
        else st.cachedystep y
      let st1 :=
        if miss then
          { st with
            cachedheight := fun r => if r = y then planeheight else st.cachedheight r
            cacheddistance := fun r => if r = y then distance else st.cacheddistance r
            cachedxstep := fun r => if r = y then ds_xstep else st.cachedxstep r
            cachedystep := fun r => if r = y then ds_ystep else st.cachedystep r }
        else st
      let dx := x1 - view.centerx
      let ds_xfrac := wrap32 (view.viewx + view.FixedMul view.viewcos distance + dx * ds_xstep)
      let ds_yfrac := wrap32 (-view.viewy - view.FixedMul view.viewsin distance + dx * ds_ystep)
      let index := toUInt32 (distance >>> view.LIGHTZSHIFT)
      let index := if index ≥ view.MAXLIGHTZ then view.MAXLIGHTZ - 1 else index
      let ds_colormap0 :=
        match view.fixedcolormap with
        | some c => c
        | none => planezlight index
      let ds_colormap1 :=
        match view.fixedcolormap with
        | some c => c
        | none => view.cm_zlight (view.LIGHTLEVELS - 1) (view.MAXLIGHTZ - 1)
      .ok (st1, some
        { ds_y := y, ds_x1 := x1, ds_x2 := x2, ds_xfrac := ds_xfrac, ds_yfrac := ds_yfrac,
          ds_xstep := ds_xstep, ds_ystep := ds_ystep, ds_colormap0 := ds_colormap0,
          ds_colormap1 := ds_colormap1, distance := distance })

/-- One `R_MapPlane` call of a sequence: the values of `planeheight` and
`planezlight` at the call and the arguments. -/
structure MapPlaneArgs where
  planeheight : Int
  planezlight : Nat → Int
  y : Int
  x1 : Int
  x2 : Int

/-- A sequence of `R_MapPlane` calls made in order: the final state and what
each call handed to `spanfunc`; `.error` as soon as one call ends in
`I_Error`. -/
def R_MapPlane_calls (env : Env) (view : View) :
    PlaneState → List MapPlaneArgs → Except String (PlaneState × List (Option SpanDraw))
  | st, [] => .ok (st, [])
  | st, a :: rest =>
    match R_MapPlane env view a.planeheight a.planezlight st a.y a.x1 a.x2 with
    | .error e => .error e
    | .ok (st1, d) =>
      match R_MapPlane_calls env view st1 rest with
      | .error e => .error e
      | .ok (st2, ds) => .ok (st2, d :: ds)

/-! ## `R_DrawPlanes` -/

/-- The `dc_` globals as `colfunc ()` finds them in the sky branch of
`R_DrawPlanes`, with the locals `texture`, `angle` and `flip` that
`dc_source = R_GetColumn(texture, angle, false)` was computed from. -/
structure ColumnDraw where
  dc_x : Int
  dc_yl : Int
  dc_yh : Int
  dc_texturemid : Int
  dc_iscale : Int
  dc_colormap0 : Int
  dc_colormap1 : Int
  dc_texheight : Int
  dc_source : Int
  texture : Int
  angle : Int
  flip : Nat
deriving DecidableEq, Repr

/-- What `R_DrawPlanes` does with one visplane: nothing (`minx > maxx`), the
sky branch with one item for each `x` of its column loop (the `colfunc` call
made there, if any), or the flat branch with its setup and one item for each
`x` of the sweep (the `R_MapPlane` calls that `R_MakeSpans (x, ...)` makes, each
with what it handed to `spanfunc`). -/
inductive PlaneDraw where
  | skipped
  | sky (cols : List (Int × Option ColumnDraw))
  | flat (lumpnum : Int) (swirling : Bool) (planeheight light : Int)
      (cols : List (Int × List (MapPlaneCall × Option SpanDraw)))
deriving DecidableEq, Repr

/-- One pass of the plane loop of `R_DrawPlanes`: the index `pl - visplanes`
of the visplane, the index at which `flattranslation[]` is read for
`swirling`, and what was drawn. -/
structure PlaneVisit where
  index : Int
  flatRead : Int
  draw : PlaneDraw
deriving DecidableEq, Repr

/-- The sky loop `for (x=pl->minx ; x <= pl->maxx ; x++)` of `R_DrawPlanes`;
the first argument counts the iterations that remain. -/
def R_DrawPlanes_skyLoop (view : View) (pl : visplane_t) (texture : Int) (an flip : Nat)
    (dc_texturemid dc_iscale dc_texheight : Int) : Nat → Int → List (Int × Option ColumnDraw)
  | 0, _ => []
  | k + 1, x =>
    if x ≤ pl.maxx then
      let dc_yl := toInt32 (pl.top x)
      let dc_yh := toInt32 (pl.bottom x)
      (x,
        if toUInt32 dc_yl ≤ toUInt32 dc_yh then
          let angle := toInt32 ((((an + view.xtoviewangle x) % 2 ^ 32) ^^^ flip) >>>
            view.ANGLETOSKYSHIFT)
          some
            { dc_x := x, dc_yl := dc_yl, dc_yh := dc_yh, dc_texturemid := dc_texturemid,
              dc_iscale := dc_iscale, dc_colormap0 := view.fullcolormap,
              dc_colormap1 := view.fullcolormap, dc_texheight := dc_texheight,
              dc_source := view.R_GetColumn texture angle, texture := texture,
              angle := angle, flip := flip }
        else none) ::
        R_DrawPlanes_skyLoop view pl texture an flip dc_texturemid dc_iscale dc_texheight k (x + 1)
    else []

/-- The sweep loop of `R_DrawPlanes` as `R_DrawPlanes_loop`, keeping the
calls of each `R_MakeSpans (x, ...)` apart: one item `(x, calls)` for each
iteration. -/
def R_DrawPlanes_sweep (top bottom : Int → Nat) (stop : Int) (fuel : Nat) :
    Nat → Int → (Nat → Int) → Option ((Nat → Int) × List (Int × List MapPlaneCall))
  | 0, _, spanstart => some (spanstart, [])
  | n + 1, x, spanstart =>
    if x ≤ stop then
      match R_MakeSpans fuel x (top (x - 1)) (bottom (x - 1)) (top x) (bottom x) spanstart with
      | none => none
      | some (spanstart1, calls) =>
        (R_DrawPlanes_sweep top bottom stop fuel n (x + 1) spanstart1).map
          fun r => (r.1, (x, calls) :: r.2)
    else some (spanstart, [])

/-- The `R_MapPlane` calls of a sweep, run in order on the state: each call
is paired with what it handed to `spanfunc`. -/
def R_DrawPlanes_spans (env : Env) (view : View) (planeheight : Int) (planezlight : Nat → Int) :
    PlaneState → List (Int × List MapPlaneCall) →
      Except String (PlaneState × List (Int × List (MapPlaneCall × Option SpanDraw)))
  | st, [] => .ok (st, [])
  | st, (x, calls) :: rest =>
    match R_MapPlane_calls env view st
      (calls.map fun c => ⟨planeheight, planezlight, c.y, c.x1, c.x2⟩) with
    | .error e => .error e
    | .ok (st1, ds) =>
      match R_DrawPlanes_spans env view planeheight planezlight st1 rest with
      | .error e => .error e
      | .ok (st2, cols) => .ok (st2, (x, calls.zip ds) :: cols)

/-- The sky branch of the plane loop of `R_DrawPlanes` for the visplane `p`:
the setup for a sky transfer (`picnum & PL_SKYFLAT`) or for the default sky,
then the column loop. -/
def R_DrawPlanes_sky (env : Env) (view : View) (p : visplane_t) :
    List (Int × Option ColumnDraw) :=
  let transfer := (toUInt32 p.picnum &&& env.PL_SKYFLAT) != 0
  let l := toUInt32 p.picnum &&& (0xffffffff ^^^ env.PL_SKYFLAT)
  let s := view.lineSidenum l
  let texture :=
    if transfer then view.texturetranslation (view.sideToptexture s) else view.skytexture
  let dc_texturemid :=
    if transfer then wrap32 (view.sideRowoffset s - 28 * 2 ^ view.FRACBITS)
    else view.skytexturemid
  let flip : Nat :=
    if transfer then (if view.lineSpecial l = 272 then 0 else 0xffffffff) else 0
  let an : Nat :=
    if transfer then toUInt32 (view.viewangle + view.sideTextureoffset s) else view.viewangle
  let dc_iscale := view.pspriteiscale >>> view.detailshift
  let dc_texheight := view.textureheight texture >>> view.FRACBITS
  R_DrawPlanes_skyLoop view p texture an flip dc_texturemid dc_iscale dc_texheight
    (p.maxx + 1 - p.minx).toNat p.minx

/-- Body of the plane loop of `R_DrawPlanes` for the visplane `*pl`.  The
result is `none` when the fuel of a `R_MakeSpans` call runs out and `.error`
when a `R_MapPlane` call ends in `I_Error`.  The texture data that the flat
branch fetches (`R_DistortedFlat`, `W_CacheLumpNum`, `R_BrightmapForFlatNum`)
and releases is not part of the state; the visit records `lumpnum` and
`swirling`, which decide what is fetched. -/
def R_DrawPlanes_body (env : Env) (view : View) (fuel : Nat) (st : PlaneState)
    (spanstart : Nat → Int) (pl : Int) :
    Option (Except String (PlaneState × (Nat → Int) × PlaneVisit)) :=
  let p := deref st pl
  let swirling := view.flattranslation p.picnum == -1
  if p.minx > p.maxx then
    some (.ok (st, spanstart, ⟨pl - st.visplanes, p.picnum, .skipped⟩))
  else if isSky env p.picnum then
    some (.ok (st, spanstart, ⟨pl - st.visplanes, p.picnum, .sky (R_DrawPlanes_sky env view p)⟩))
  else
    let lumpnum := view.firstflat + (if swirling then p.picnum else view.flattranslation p.picnum)
    let planeheight := |p.height - view.viewz|
    let light := (p.lightlevel >>> view.LIGHTSEGSHIFT) + view.extralight * view.LIGHTBRIGHT
    let light := if light ≥ view.LIGHTLEVELS then view.LIGHTLEVELS - 1 else light
    let light := if light < 0 then 0 else light
    let planezlight := view.cm_zlight light
    let top1 : Int → Nat := fun i => if i = p.maxx + 1 then 0xffffffff else p.top i
    let top2 : Int → Nat := fun i => if i = p.minx - 1 then 0xffffffff else top1 i
    let st1 := assign st pl { p with top := top2 }
    let stop := p.maxx + 1
    match R_DrawPlanes_sweep top2 p.bottom stop fuel (stop + 1 - p.minx).toNat p.minx
      spanstart with
    | none => none
    | some (spanstart1, cols) =>
      match R_DrawPlanes_spans env view planeheight planezlight st1 cols with
      | .error e => some (.error e)
      | .ok (st2, drawn) =>
        some (.ok (st2, spanstart1,
          ⟨pl - st.visplanes, p.picnum, .flat lumpnum swirling planeheight light drawn⟩))

/-- The plane loop `for (pl = visplanes ; pl < lastvisplane ; pl++)` of
`R_DrawPlanes`; the argument after `fuel` counts the planes not yet visited
(`lastvisplane - pl`). -/
def R_DrawPlanes_planes (env : Env) (view : View) (fuel : Nat) :
    Nat → Int → PlaneState → (Nat → Int) →
      Option (Except String (PlaneState × (Nat → Int) × List PlaneVisit))
  | 0, _, st, spanstart => some (.ok (st, spanstart, []))
  | k + 1, pl, st, spanstart =>
    if pl < st.lastvisplane then
      match R_DrawPlanes_body env view fuel st spanstart pl with
      | none => none
      | some (.error e) => some (.error e)
      | some (.ok (st1, spanstart1, v)) =>
        match R_DrawPlanes_planes env view fuel k (pl + 1) st1 spanstart1 with
        | none => none
        | some (.error e) => some (.error e)
        | some (.ok (st2, spanstart2, vs)) => some (.ok (st2, spanstart2, v :: vs))
    else some (.ok (st, spanstart, []))

/-- Function `R_DrawPlanes`: the three diagnostic checks, then the plane
loop.  The result is the final state, the final `spanstart` and one visit for
each pass of the plane loop, in order. -/
def R_DrawPlanes (env : Env) (view : View) (fuel : Nat) (st : PlaneState)
    (spanstart : Nat → Int) :
    Option (Except String (PlaneState × (Nat → Int) × List PlaneVisit)) :=
  if view.RANGECHECK && view.drawsegsOverflow then
    some (.error "R_DrawPlanes: drawsegs overflow")
  else if view.RANGECHECK && R_DrawPlanes_overflow st then
    some (.error "R_DrawPlanes: visplane overflow")
  else if view.RANGECHECK && decide (st.lastopening > env.MAXWIDTH * 64 * 4) then
    some (.error "R_DrawPlanes: opening overflow")
  else
    R_DrawPlanes_planes env view fuel (st.lastvisplane - st.visplanes).toNat st.visplanes st
      spanstart

/-- The columns `x` that a visit processed, in order: the iterations of the
sky loop or of the sweep. -/
def PlaneDraw.columns : PlaneDraw → List Int
  | .skipped => []
  | .sky cols => cols.map Prod.fst
  | .flat _ _ _ _ cols => cols.map Prod.fst

/-- The `R_MapPlane` calls of a visit, in order. -/
def PlaneDraw.mapCalls : PlaneDraw → List MapPlaneCall
  | .flat _ _ _ _ cols => (cols.map fun c => c.2.map Prod.fst).flatten
  | _ => []

/-- Tables and functions that `R_DistortedFlat` reads and that are declared
outside `r_plane.c`: the sine table `finesine[]` (`tables.c`), the macro
`FRACBITS` (`m_fixed.h`) and the lump data that `W_CacheLumpNum` returns, as a
function from the lump number and the byte offset to the byte. -/
structure SwirlEnv where
  finesine : Nat → Int
  FRACBITS : Nat
  W_CacheLumpNum : Int → Int → Int

/-- The statics of `R_DistortedFlat`: `swirltic`, the remap table `offset[]`
and the buffer `distortedflat[]` that the function returns. -/
structure SwirlState where
  swirltic : Int
  offset : Nat → Int
  distortedflat : Nat → Int

/-- The statics at program start: all zero. -/
def swirlInitial : SwirlState :=
  { swirltic := 0, offset := fun _ => 0, distortedflat := fun _ => 0 }

/-- The local `x1` of the loop body of `R_DistortedFlat` for the texel `(x,
y)` after `x1 &= 63`; the sums are `int` values and `&` acts on their 32-bit
pattern. -/
def swirlX1 (se : SwirlEnv) (leveltime : Int) (x y : Nat) : Nat :=
  let swirlfactor : Int := 8192 / 64
  let swirlfactor2 : Int := 8192 / 32
  let amp : Int := 2
  let amp2 : Int := 2
  let speed : Int := 40
  let sinvalue := toUInt32 ((y : Int) * swirlfactor + leveltime * speed * 5 + 900) &&& 8191
  let sinvalue2 := toUInt32 ((x : Int) * swirlfactor2 + leveltime * speed * 4 + 300) &&& 8191
  let x1 := (x : Int) + 128 + (wrap32 (se.finesine sinvalue * amp) >>> se.FRACBITS) +
    (wrap32 (se.finesine sinvalue2 * amp2) >>> se.FRACBITS)
  toUInt32 x1 &&& 63

/-- The local `y1` of the loop body of `R_DistortedFlat` for the texel `(x,
y)` after `y1 &= 63`. -/
def swirlY1 (se : SwirlEnv) (leveltime : Int) (x y : Nat) : Nat :=
  let swirlfactor : Int := 8192 / 64
  let swirlfactor2 : Int := 8192 / 32
  let amp : Int := 2
  let amp2 : Int := 2
  let speed : Int := 40
  let sinvalue := toUInt32 ((x : Int) * swirlfactor + leveltime * speed * 3 + 700) &&& 8191
  let sinvalue2 := toUInt32 ((y : Int) * swirlfactor2 + leveltime * speed * 4 + 1200) &&& 8191
  let y1 := (y : Int) + 128 + (wrap32 (se.finesine sinvalue * amp) >>> se.FRACBITS) +
    (wrap32 (se.finesine sinvalue2 * amp2) >>> se.FRACBITS)
  toUInt32 y1 &&& 63

/-- The inner loop `for (y = 0; y < 64; y++)` of `R_DistortedFlat` with its
store `offset[(y << 6) + x] = (y1 << 6) + x1`; the first argument counts the
iterations that remain (`64 - y`). -/
def R_DistortedFlat_loopY (se : SwirlEnv) (leveltime : Int) (x : Nat) :
    Nat → Nat → (Nat → Int) → (Nat → Int)
  | 0, _, offset => offset
  | k + 1, y, offset =>
    R_DistortedFlat_loopY se leveltime x k (y + 1)
      (fun i =>
        if i = (y <<< 6) + x then
          (((swirlY1 se leveltime x y <<< 6) + swirlX1 se leveltime x y : Nat) : Int)
        else offset i)

/-- The outer loop `for (x = 0; x < 64; x++)` of `R_DistortedFlat`; the first
argument counts the iterations that remain (`64 - x`). -/
def R_DistortedFlat_loopX (se : SwirlEnv) (leveltime : Int) :
    Nat → Nat → (Nat → Int) → (Nat → Int)
  | 0, _, offset => offset
  | k + 1, x, offset =>
    R_DistortedFlat_loopX se leveltime k (x + 1) (R_DistortedFlat_loopY se leveltime x 64 0 offset)

/-- The loop `for (i = 0; i < 4096; i++) distortedflat[i] =
normalflat[offset[i]];` of `R_DistortedFlat`; the first argument counts the
iterations that remain (`4096 - i`). -/
def R_DistortedFlat_copy (normalflat : Int → Int) (offset : Nat → Int) :
    Nat → Nat → (Nat → Int) → (Nat → Int)
  | 0, _, distortedflat => distortedflat
  | k + 1, i, distortedflat =>
    R_DistortedFlat_copy normalflat offset k (i + 1)
      (fun j => if j = i then normalflat (offset i) else distortedflat j)

/-- Function `R_DistortedFlat (flatnum)`, with the globals `gametic` and
`leveltime` as arguments.  The result is the statics after the call, whose
`distortedflat` is the buffer returned, and whether the call took the branch
`swirltic != gametic` that computes the remap table. -/
def R_DistortedFlat (se : SwirlEnv) (gametic leveltime : Int) (st : SwirlState)
    (flatnum : Int) : SwirlState × Bool :=
  let st1 :=
    if st.swirltic ≠ gametic then
      { st with
        offset := R_DistortedFlat_loopX se leveltime 64 0 st.offset
        swirltic := gametic }
    else st
  let normalflat := se.W_CacheLumpNum flatnum
  ({ st1 with distortedflat := R_DistortedFlat_copy normalflat st1.offset 4096 0 st1.distortedflat },
    decide (st.swirltic ≠ gametic))

/-- The calls `R_DistortedFlat (flatnum)` for the flats of a list, made in
order within one tick: the statics after the last call and, for each call,
whether it computed the remap table. -/
def R_DistortedFlat_calls (se : SwirlEnv) (gametic leveltime : Int) :
    SwirlState → List Int → SwirlState × List Bool
  | st, [] => (st, [])
  | st, flatnum :: rest =>
    let r := R_DistortedFlat se gametic leveltime st flatnum
    let rs := R_DistortedFlat_calls se gametic leveltime r.1 rest
    (rs.1, r.2 :: rs.2)

/-! ## The chat queue of `hu_stuff.c` -/

/-- The macro `QUEUESIZE` of `hu_stuff.c`. -/
def QUEUESIZE : Nat := 128

/-- The statics `chatchars[]`, `head` and `tail` of the chat queue, and the
field `plr->message` that `HU_queueChatChar` sets.  `head` and `tail` are `int`
variables that start at 0 and are only ever assigned a value of the form `v &
(QUEUESIZE-1)`, so they are natural numbers here; a `char` is an `Int` and the
message is the address of its string. -/
structure ChatQueue where
  chatchars : Nat → Int
  head : Nat
  tail : Nat
  message : Int

/-- The chat queue at program start: `head = tail = 0`. -/
def chatInitial : ChatQueue :=
  { chatchars := fun _ => 0, head := 0, tail := 0, message := 0 }

/-- Function `HU_queueChatChar (c)`; `HUSTR_MSGU` is the address that
`DEH_String(HUSTR_MSGU)` returns. -/
def HU_queueChatChar (HUSTR_MSGU : Int) (q : ChatQueue) (c : Int) : ChatQueue :=
  if ((q.head + 1) &&& (QUEUESIZE - 1)) = q.tail then
    { q with message := HUSTR_MSGU }
  else
    { q with
      chatchars := fun i => if i = q.head then c else q.chatchars i
      head := (q.head + 1) &&& (QUEUESIZE - 1) }

/-- Function `HU_dequeueChatChar ()`: the new state and the character
returned. -/
def HU_dequeueChatChar (q : ChatQueue) : ChatQueue × Int :=
  if q.head ≠ q.tail then
    ({ q with tail := (q.tail + 1) &&& (QUEUESIZE - 1) }, q.chatchars q.tail)
  else (q, 0)

/-- One call on the chat queue. -/
inductive ChatCall where
  | queue (c : Int)
  | dequeue

/-- A sequence of calls on the chat queue, made in order: the final state and
the characters that the `HU_dequeueChatChar` calls returned. -/
def runChat (HUSTR_MSGU : Int) : ChatQueue → List ChatCall → ChatQueue × List Int
  | q, [] => (q, [])
  | q, .queue c :: rest => runChat HUSTR_MSGU (HU_queueChatChar HUSTR_MSGU q c) rest
  | q, .dequeue :: rest =>
    let r := runChat HUSTR_MSGU (HU_dequeueChatChar q).1 rest
    (r.1, (HU_dequeueChatChar q).2 :: r.2)

/-! ## `WritePCXfile` of `v_video.c` -/

/-- The two bytes of an `unsigned short` field of `pcx_t` as they stand in
the file: `SHORT()` makes the value little-endian. -/
def shortBytes (v : Int) : List Nat :=
  [(v % 256).toNat, ((v / 256) % 256).toNat]

/-- The header that `WritePCXfile` fills in: the 128 bytes of the packed
record `pcx_t` before its member `data`. -/
def WritePCXfile_header (width height : Int) : List Nat :=
  [0x0a, 5, 1, 8] ++ shortBytes 0 ++ shortBytes 0 ++ shortBytes (width - 1) ++
    shortBytes (height - 1) ++ shortBytes 1 ++ shortBytes 1 ++ List.replicate 48 0 ++
    [0, 1] ++ shortBytes width ++ shortBytes 2 ++ List.replicate 58 0

/-- The loop `for (i=0 ; i<width*height ; i++)` of `WritePCXfile` that packs
the image: the bytes stored through `pack`, in order.  The first argument
counts the iterations that remain and the second is the offset of `data`. -/
def WritePCXfile_pack (data : Nat → Nat) : Nat → Nat → List Nat
  | 0, _ => []
  | k + 1, i =>
    (if data i &&& 0xc0 ≠ 0xc0 then [data i] else [0xc1, data i]) ++
      WritePCXfile_pack data k (i + 1)

/-- What `WritePCXfile` allocates and writes: the size passed to `Z_Malloc`
and the bytes `pcx[0 .. length-1]` passed to `M_WriteFile`. -/
structure PcxWrite where
  allocated : Int
  bytes : List Nat

/-- Function `WritePCXfile (filename, data, width, height, palette)`; `data`
and `palette` are the byte arrays that the two pointers point to. -/
def WritePCXfile (data : Nat → Nat) (width height : Int) (palette : Nat → Nat) : PcxWrite :=
  { allocated := width * height * 2 + 1000
    bytes := WritePCXfile_header width height ++
      WritePCXfile_pack data (width * height).toNat 0 ++ [0x0c] ++
      (List.range 768).map palette }

/-! ## `V_DrawPatch` of `v_video.c` -/

/-- The macros `SCREENWIDTH` and `SCREENHEIGHT` (`i_video.h`). -/
structure VideoEnv where
  SCREENWIDTH : Int
  SCREENHEIGHT : Int

/-- Record `patch_t` (`v_patch.h`) with the lump it heads: the four header
fields after `SHORT()`, the table `columnofs[]` after `LONG()`, and `bytes i`,
the byte at `(byte *)patch + i`.  A `column_t` at offset `c` has its fields
`topdelta` at `c`, `length` at `c + 1` and its pixels from `c + 3` on. -/
structure patch_t where
  width : Int
  height : Int
  leftoffset : Int
  topoffset : Int
  columnofs : Int → Int
  bytes : Int → Nat

/-- Globals of `v_video.c` that the patch functions use: the buffer
`dest_screen` as a function from the pixel offset to the pixel, the tables
`tinttable`, `tranmap` and `dp_translation` (`none` for a null pointer), the
flag `dp_translucent` and the callback `patchclip_callback`. -/
structure VideoState where
  dest_screen : Int → Nat
  tinttable : Nat → Nat
  tranmap : Nat → Nat
  dp_translation : Option (Nat → Nat)
  dp_translucent : Bool
  patchclip_callback : Option (patch_t → Int → Int → Bool)

/-- One store into the screen buffer made by `V_DrawPatchCrispy`, with the
locals at that point: `shadow` tells the store `*dest2 = tinttable[*dest2]`
from the store `*dest = drawpatchpx (*dest, source[srccol])`; `offset` is the
address stored to, relative to `dest_screen`; `old` is the pixel read there and
`value` the pixel stored; `column` is `(byte *)column - (byte *)patch`, and
`top` is the value that `top++ >= 0` tested. -/
structure PatchWrite where
  shadow : Bool
  offset : Int
  old : Nat
  value : Nat
  x : Int
  col : Int
  column : Int
  topdelta : Int
  top : Int
  srccol : Int
deriving DecidableEq, Repr

/-- The rendering function `drawpatchpx` that `V_DrawPatchCrispy` selects
from `dp_translucent` and `dp_translation`: one of `drawpatchpx00`,
`drawpatchpx01`, `drawpatchpx10`, `drawpatchpx11`. -/
def drawpatchpx (vs : VideoState) (dest source : Nat) : Nat :=
  match vs.dp_translucent, vs.dp_translation with
  | false, none => source
  | false, some translation => translation source
  | true, none => vs.tranmap ((dest <<< 8) + source)
  | true, some translation => vs.tranmap ((dest <<< 8) + translation source)

/-- The update of `topdelta` at the head of a post, which supports tall
patches: `if (column->topdelta <= topdelta) topdelta += column->topdelta; else
topdelta = column->topdelta;`. -/
def nextTopdelta (topdelta : Int) (b : Nat) : Int :=
  if (b : Int) ≤ topdelta then topdelta + b else b

/-- The loop `while (count--)` of `V_DrawPatchCrispy` over the pixels of one
post; the first argument counts the iterations that remain.  The result is the
buffer after the loop and the stores made, in order. -/
def V_DrawPatchCrispy_pixels (ve : VideoEnv) (vs : VideoState) (patch : patch_t) (r x col : Int)
    (column topdelta source : Int) :
    Nat → Int → Int → Int → Int → (Int → Nat) → (Int → Nat) × List PatchWrite
  | 0, _, _, _, _, screen => (screen, [])
  | k + 1, top, srccol, dest, dest2, screen =>
    let shadowed := r ≠ 0
    let screen1 : Int → Nat :=
      if shadowed then fun i => if i = dest2 then vs.tinttable (screen dest2) else screen i
      else screen
    let writes1 : List PatchWrite :=
      if shadowed then
        [{ shadow := true, offset := dest2, old := screen dest2,
           value := vs.tinttable (screen dest2), x := x, col := col, column := column,
           topdelta := topdelta, top := top, srccol := srccol }]
      else []
    let dest2a := if shadowed then dest2 + ve.SCREENWIDTH else dest2
    let drawn := top ≥ 0
    let screen2 : Int → Nat :=
      if drawn then
        fun i =>
          if i = dest then drawpatchpx vs (screen1 dest) (patch.bytes (source + srccol))
          else screen1 i
      else screen1
    let writes2 : List PatchWrite :=
      if drawn then
        [{ shadow := false, offset := dest, old := screen1 dest,
           value := drawpatchpx vs (screen1 dest) (patch.bytes (source + srccol)), x := x,
           col := col, column := column, topdelta := topdelta, top := top, srccol := srccol }]
      else []
    let rest := V_DrawPatchCrispy_pixels ve vs patch r x col column topdelta source k (top + 1)
      (srccol + 1) (dest + ve.SCREENWIDTH) dest2a screen2
    (rest.1, writes1 ++ writes2 ++ rest.2)

/-- The loop `while (column->topdelta != 0xff)` of `V_DrawPatchCrispy` over
the posts of one column, from the post at offset `column` with the running
`topdelta`.  The result is `none` when the fuel runs out. -/
def V_DrawPatchCrispy_posts (ve : VideoEnv) (vs : VideoState) (patch : patch_t) (r x y col : Int)
    (desttop desttop2 : Int) :
    Nat → Int → Int → (Int → Nat) → Option ((Int → Nat) × List PatchWrite)
  | 0, _, _, _ => none
  | fuel + 1, column, topdelta, screen =>
    if patch.bytes column ≠ 0xff then
      let topdelta := nextTopdelta topdelta (patch.bytes column)
      let top := y + topdelta
      let source := column + 3
      let dest := desttop + topdelta * ve.SCREENWIDTH
      let dest2 := desttop2 + topdelta * ve.SCREENWIDTH
      let count : Int := patch.bytes (column + 1)
      let count := if top + count > ve.SCREENHEIGHT then ve.SCREENHEIGHT - top else count
      if count < 1 then some (screen, [])
      else
        let drawn := V_DrawPatchCrispy_pixels ve vs patch r x col column topdelta source
          count.toNat top 0 dest dest2 screen
        match V_DrawPatchCrispy_posts ve vs patch r x y col desttop desttop2 fuel
            (column + patch.bytes (column + 1) + 4) topdelta drawn.1 with
        | none => none
        | some rest => some (rest.1, drawn.2 ++ rest.2)
    else some (screen, [])

/-- The loop `for ( ; col<w ; x++, col++, desttop++, desttop2++)` of
`V_DrawPatchCrispy` over the columns of the patch; the argument after `fuel`
counts the iterations that remain (`w - col`). -/
def V_DrawPatchCrispy_columns (ve : VideoEnv) (vs : VideoState) (patch : patch_t) (r y : Int)
    (fuel : Nat) :
    Nat → Int → Int → Int → Int → (Int → Nat) → Option ((Int → Nat) × List PatchWrite)
  | 0, _, _, _, _, screen => some (screen, [])
  | k + 1, col, x, desttop, desttop2, screen =>
    if col < patch.width then
      if x < 0 then
        V_DrawPatchCrispy_columns ve vs patch r y fuel k (col + 1) (x + 1) (desttop + 1)
          (desttop2 + 1) screen
      else if x ≥ ve.SCREENWIDTH then some (screen, [])
      else
        match V_DrawPatchCrispy_posts ve vs patch r x y col desttop desttop2 fuel
            (patch.columnofs col) (-1) screen with
        | none => none
        | some drawn =>
          match V_DrawPatchCrispy_columns ve vs patch r y fuel k (col + 1) (x + 1) (desttop + 1)
              (desttop2 + 1) drawn.1 with
          | none => none
          | some rest => some (rest.1, drawn.2 ++ rest.2)
    else some (screen, [])

/-- Function `V_DrawPatchCrispy (x, y, patch, r)`: the state after the call
and the stores into the screen buffer, in order; `none` when the fuel of a
post loop runs out.  The call of `V_MarkRect` is left out: the dirty box is not
part of the state. -/
def V_DrawPatchCrispy (ve : VideoEnv) (fuel : Nat) (vs : VideoState) (x y : Int)
    (patch : patch_t) (r : Int) : Option (VideoState × List PatchWrite) :=
  let y := y - patch.topoffset
  let x := x - patch.leftoffset
  let rejected :=
    match vs.patchclip_callback with
    | some callback => !callback patch x y
    | none => false
  if rejected then some (vs, [])
  else
    let desttop := y * ve.SCREENWIDTH + x
    let desttop2 := (y + r) * ve.SCREENWIDTH + (x + r)
    let w := patch.width
    (V_DrawPatchCrispy_columns ve vs patch r y fuel (w - 0).toNat 0 x desttop desttop2
      vs.dest_screen).map fun drawn => ({ vs with dest_screen := drawn.1 }, drawn.2)

/-- Function `V_DrawPatch (x, y, patch)`. -/
def V_DrawPatch (ve : VideoEnv) (fuel : Nat) (vs : VideoState) (x y : Int) (patch : patch_t) :
    Option (VideoState × List PatchWrite) :=
  V_DrawPatchCrispy ve fuel vs x y patch 0

/-! ## Vocabulary of the registry properties -/

/-- Height that `R_FindPlane` searches for and stores: `0` for a sky picnum,
the argument otherwise. -/
def canonHeight (env : Env) (picnum height : Int) : Int :=
  if isSky env picnum then 0 else height

/-- Light level that `R_FindPlane` searches for and stores: `0` for a sky
picnum, the argument otherwise. -/
def canonLight (env : Env) (picnum lightlevel : Int) : Int :=
  if isSky env picnum then 0 else lightlevel

/-- Entry `i` is live and is the first live entry that holds the triple. -/
def firstMatch (st : PlaneState) (height picnum lightlevel i : Int) : Prop :=
  0 ≤ i ∧ i < liveCount st ∧ samePlane height picnum lightlevel (st.store i) = true ∧
    ∀ j, 0 ≤ j → j < i → samePlane height picnum lightlevel (st.store j) = false

/-- No live entry holds the triple. -/
def noMatch (st : PlaneState) (height picnum lightlevel : Int) : Prop :=
  ∀ j, 0 ≤ j → j < liveCount st → samePlane height picnum lightlevel (st.store j) = false

/-- Every column of the intersection of `[start, stop]` with the range of
`*pl` still holds the sentinel in `top[]`. -/
def intersectionFree (st : PlaneState) (pl start stop : Int) : Prop :=
  ∀ x, max (deref st pl).minx start ≤ x → x ≤ min (deref st pl).maxx stop →
    (deref st pl).top x = UNCLAIMED

/-- The configuration `pl == floorplane && markceiling && floorplane ==
ceilingplane` that `R_CheckPlane` tests. -/
def samePlaneConfig (st : PlaneState) (pl : Int) : Prop :=
  pl = st.floorplane ∧ st.markceiling = true ∧ st.floorplane = st.ceilingplane

/-- The identity `(height, picnum, lightlevel)` of an entry. -/
def tripleOf (v : visplane_t) : Int × Int × Int :=
  (v.height, v.picnum, v.lightlevel)

/-! ## States and environments used by the witnesses -/

/-- An environment whose view is narrower than the screen (`viewwidth = 160`,
`SCREENWIDTH = 320`), as after a reduction of the view size. -/
def envSmall : Env := ⟨320, 1280, 7, 0x80000000, 160, 100⟩

/-- A registry that is full: 128 live entries in a block of 128 at address
`1000`; entry `i` has height `i` and the range `[0, 10]` with `top = 5`. -/
def fullState : PlaneState :=
  { initialState with
    visplanes := 1000
    lastvisplane := 1128
    numvisplanes := 128
    floorplane := 1003
    ceilingplane := 1004
    store := fun i =>
      { height := i, picnum := 5, lightlevel := 3, minx := 0, maxx := 10,
        top := fun _ => 5, bottom := fun _ => 9 } }

/-- The registry after `R_FindPlane (0, 5, 3)` on the empty registry. -/
def oneState : PlaneState :=
  (R_FindPlane envW initialState 0 5 3 1000).1

/-- Whether no `R_CheckPlane` call of the sequence, run from `st`, takes the
branch that appends an entry: each such call leaves the live count as it
was. -/
def noSplit (env : Env) (st : PlaneState) : List PlaneCall → Bool
  | [] => true
  | c :: cs =>
    (match c with
      | .check _ _ _ _ => decide (liveCount (PlaneCall.apply env st c) = liveCount st)
      | _ => true) && noSplit env (PlaneCall.apply env st c) cs

/-- Whether the call is `R_ClearPlanes`, which starts a new frame. -/
def PlaneCall.isClear : PlaneCall → Bool
  | .clear => true
  | _ => false

/-- The calls of the sequence all belong to one frame: none is
`R_ClearPlanes`. -/
def inFrame (calls : List PlaneCall) : Bool :=
  calls.all fun c => !c.isClear

/-- Shape of the registry counters: the live count is between 0 and the
capacity, and the capacity is 0 or `128 * 2^k`. -/
def RegistryOk (st : PlaneState) : Prop :=
  0 ≤ liveCount st ∧ liveCount st ≤ st.numvisplanes ∧
    (st.numvisplanes = 0 ∨ ∃ k : Nat, st.numvisplanes = 128 * 2 ^ k)

/-- No two live entries hold the same `(height, picnum, lightlevel)`. -/
def distinctLive (st : PlaneState) : Prop :=
  ∀ i j, 0 ≤ i → i < j → j < liveCount st → tripleOf (st.store i) ≠ tripleOf (st.store j)


/-! ## Vocabulary and witness data of the range and frame properties -/

/-- The column ranges `[minx, maxx]` of two entries have no column in
common. -/
def rangesDisjoint (a b : visplane_t) : Prop :=
  ∀ x, ¬((a.minx ≤ x ∧ x ≤ a.maxx) ∧ (b.minx ≤ x ∧ x ≤ b.maxx))

/-- The registry `oneState` at the moment its entry is both the floor and
the ceiling plane and `markceiling` is set. -/
def samePlaneState : PlaneState :=
  { oneState with floorplane := 1000, ceilingplane := 1000, markceiling := true }

/-- The `(distance, xstep, ystep)` that a `R_MapPlane` call used. -/
def SpanDraw.geometry (d : SpanDraw) : Int × Int × Int :=
  (d.distance, d.ds_xstep, d.ds_ystep)

/-- The cache entry `(cachedheight, cacheddistance, cachedxstep,
cachedystep)` of row `y`. -/
def cacheRow (st : PlaneState) (y : Int) : Int × Int × Int × Int :=
  (st.cachedheight y, st.cacheddistance y, st.cachedxstep y, st.cachedystep y)

/-- A view for the witnesses: 320x200, centre row 100, `FixedMul` the 16.16
product, row slopes `65536 * 160 / |y - 100|`, light table pointers `100 *
light + index`. -/
def viewW : View :=
  { RANGECHECK := false
    FixedMul := fun a b => (a * b) / 65536
    FRACBITS := 16
    centerx := 160
    centery := 100
    yslope := fun y => (65536 * 160) / |y - 100|
    viewsin := 0
    viewcos := 65536
    viewx := 0
    viewy := 0
    viewz := 41 * 65536
    viewangle := 0x40000000
    detailshift := 0
    extralight := 0
    fixedcolormap := none
    fullcolormap := 7000
    cm_zlight := fun light index => 100 * light + index
    LIGHTLEVELS := 16
    LIGHTSEGSHIFT := 4
    LIGHTBRIGHT := 1
    MAXLIGHTZ := 128
    LIGHTZSHIFT := 20
    ANGLETOSKYSHIFT := 22
    xtoviewangle := fun x => (0x20000000 + (160 - x).toNat * 0x400000) % 2 ^ 32
    skytexture := 9
    skytexturemid := 100 * 65536
    pspriteiscale := 65536
    texturetranslation := fun t => t
    textureheight := fun _ => 128 * 65536
    R_GetColumn := fun texture angle => 1000 * texture + angle
    lineSidenum := fun l => l
    lineSpecial := fun _ => 271
    sideToptexture := fun _ => 11
    sideRowoffset := fun _ => 0
    sideTextureoffset := fun _ => 0
    flattranslation := fun f => f
    firstflat := 500
    drawsegsOverflow := false }

/-- The columns `x1 .. x2` are a maximal run of row `row` in the plane: they
lie in `[minx, maxx]`, the row is inside `[top[c], bottom[c]]` for each of them,
and it is not inside the interval of the column before `x1` nor of the column
after `x2`, unless that column is outside `[minx, maxx]`. -/
def maximalRun (pl : visplane_t) (row : Nat) (x1 x2 : Int) : Prop :=
  pl.minx ≤ x1 ∧ x1 ≤ x2 ∧ x2 ≤ pl.maxx ∧
  (∀ c, x1 ≤ c → c ≤ x2 → pl.top c ≤ row ∧ row ≤ pl.bottom c) ∧
  (x1 = pl.minx ∨ ¬(pl.top (x1 - 1) ≤ row ∧ row ≤ pl.bottom (x1 - 1))) ∧
  (x2 = pl.maxx ∨ ¬(pl.top (x2 + 1) ≤ row ∧ row ≤ pl.bottom (x2 + 1)))

/-- Plane of the run witness: columns 10..14, tops `0 0 0 2 1`, bottom 3. -/
def planeRuns : visplane_t :=
  ⟨0, 5, 3, 10, 14,
    fun i => if 10 ≤ i ∧ i ≤ 12 then 0 else if i = 13 then 2 else if i = 14 then 1 else 77,
    fun i => if 10 ≤ i ∧ i ≤ 14 then 3 else 0⟩

/-- A sky plane for the witnesses: the default sky (picnum 7) over the
columns `5 .. 7`, with column 6 not claimed. -/
def planeSky : visplane_t :=
  ⟨0, 7, 0, 5, 7, fun c => if c = 6 then 0xffffffff else 20, fun _ => 90⟩

/-- A registry with three live entries for the witnesses of `R_DrawPlanes`:
the flat `planeRuns`, a fresh entry with the empty range, and `planeSky`. -/
def drawState : PlaneState :=
  { initialState with
    visplanes := 1000
    lastvisplane := 1003
    numvisplanes := 128
    store := fun i =>
      if i = 0 then planeRuns
      else if i = 2 then planeSky
      else ⟨0, 5, 3, 320, -1, fun _ => 0xffffffff, fun _ => 0⟩ }


/-! ## Vocabulary and witness data of the rasterizer properties -/

/-- The texture step that the recompute branch of `R_MapPlane` stores for row
`y`: `(FixedMul (trig, planeheight) / dy) << detailshift` with `dy = abs
(centery - y)`, where `trig` is `viewsin` for `ds_xstep` and `viewcos` for
`ds_ystep`. -/
def rowStep (view : View) (trig planeheight y : Int) : Int :=
  wrap32 ((view.FixedMul trig planeheight).tdiv |view.centery - y| * 2 ^ view.detailshift)

/-- The texture step with the shift taken to the right, the reading under
which the quotient is "right-shifted by the detail factor". -/
def rowStepShiftedRight (view : View) (trig planeheight y : Int) : Int :=
  (view.FixedMul trig planeheight).tdiv |view.centery - y| >>> view.detailshift

/-- The index into `planezlight[]` that `R_MapPlane` computes from `distance`:
`index = distance >> LIGHTZSHIFT` as an `unsigned`, replaced by `MAXLIGHTZ-1`
when it is `>= MAXLIGHTZ`. -/
def lightIndex (view : View) (distance : Int) : Nat :=
  if toUInt32 (distance >>> view.LIGHTZSHIFT) ≥ view.MAXLIGHTZ then view.MAXLIGHTZ - 1
  else toUInt32 (distance >>> view.LIGHTZSHIFT)

/-- The texture coordinate that a span reaches at column `x`: the origin
`(ds_xfrac, ds_yfrac)` of the span advanced by `x - ds_x1` steps, as 32-bit
values. -/
def SpanDraw.coordAt (d : SpanDraw) (x : Int) : Int × Int :=
  (wrap32 (d.ds_xfrac + (x - d.ds_x1) * d.ds_xstep),
    wrap32 (d.ds_yfrac + (x - d.ds_x1) * d.ds_ystep))

/-- The row `y` and the columns `x1 .. x2` lie inside the view. -/
def insideView (env : Env) (y x1 x2 : Int) : Prop :=
  0 ≤ y ∧ y < env.viewheight ∧ 0 ≤ x1 ∧ x1 ≤ x2 ∧ x2 < env.viewwidth

/-- The witness view with the diagnostic checks compiled in. -/
def viewCheck : View := { viewW with RANGECHECK := true }

/-- The witness view in low detail (`detailshift = 1`). -/
def viewLow : View := { viewW with detailshift := 1 }

/-- The witness view with a fixed colormap active. -/
def viewFixed : View := { viewW with fixedcolormap := some 4242 }

/-! ## Vocabulary and witness data of the cache and swirl properties -/

/-- The remap entry that the sinusoidal formula of `R_DistortedFlat` gives
for the index `i = (y << 6) + x` at the level time `leveltime`. -/
def swirlEntry (se : SwirlEnv) (leveltime : Int) (i : Nat) : Int :=
  (((swirlY1 se leveltime (i % 64) (i / 64) <<< 6) + swirlX1 se leveltime (i % 64) (i / 64) : Nat) :
    Int)

/-- Every cache entry of `R_MapPlane` with a non-zero height holds the
distance of that height in the view. -/
def cacheFresh (view : View) (st : PlaneState) : Prop :=
  ∀ r, st.cachedheight r ≠ 0 →
    st.cacheddistance r = view.FixedMul (st.cachedheight r) (view.yslope r)

/-- A swirl environment for the witnesses: a sine table of amplitude 65536
with negative values, `FRACBITS = 16`, and lumps whose byte `i` is `1000 *
lump + i`. -/
def swirlEnvW : SwirlEnv :=
  { finesine := fun s => if s < 4096 then 65536 else -65536
    FRACBITS := 16
    W_CacheLumpNum := fun lump i => 1000 * lump + i }


/-! ## Vocabulary and witness data of the range and bounds invariants -/

/-- The range of an entry is the empty range that `R_FindPlane` stores
(`minx = SCREENWIDTH`, `maxx = -1`) or a non-empty range of screen columns. -/
def rangeValid (env : Env) (v : visplane_t) : Prop :=
  (v.minx = env.SCREENWIDTH ∧ v.maxx = -1) ∨
    (0 ≤ v.minx ∧ v.minx ≤ v.maxx ∧ v.maxx < env.SCREENWIDTH)

/-- The arguments of a registry call are in range: a `R_CheckPlane` call has
`0 <= start <= stop < SCREENWIDTH`; the other calls have no constraint. -/
def argsValid (env : Env) : PlaneCall → Prop
  | .check _ start stop _ => 0 ≤ start ∧ start ≤ stop ∧ stop < env.SCREENWIDTH
  | _ => True

/-- The live count is not negative and every live entry has a valid range. -/
def rangesValid (env : Env) (st : PlaneState) : Prop :=
  0 ≤ liveCount st ∧ ∀ i, 0 ≤ i → i < liveCount st → rangeValid env (st.store i)

/-- A registry whose only live entry is a sky-transfer plane: its picnum is
`PL_SKYFLAT | 5`, the `int` value `-2147483643`, over the columns `5 .. 7`. -/
def transferState : PlaneState :=
  { initialState with
    visplanes := 1000
    lastvisplane := 1001
    numvisplanes := 128
    store := fun _ => ⟨0, -2147483643, 0, 5, 7, fun _ => 20, fun _ => 90⟩ }

/-- Enqueue on a list queue of capacity 127: the character is appended
unless the queue holds 127 characters already. -/
def listEnqueue (l : List Int) (c : Int) : List Int :=
  if l.length < 127 then l ++ [c] else l

/-- Dequeue on a list queue: the rest and the first character, or 0 when the
queue is empty. -/
def listDequeue : List Int → List Int × Int
  | [] => ([], 0)
  | c :: rest => (rest, c)

/-- A sequence of calls on the list queue: the final queue and the characters
that the dequeues returned. -/
def runList : List Int → List ChatCall → List Int × List Int
  | l, [] => (l, [])
  | l, .queue c :: rest => runList (listEnqueue l c) rest
  | l, .dequeue :: rest =>
    let r := runList (listDequeue l).1 rest
    (r.1, (listDequeue l).2 :: r.2)

/-- The characters that the ring buffer holds, oldest first: the entries
`chatchars[tail], chatchars[tail+1], ..` up to `head`, indices taken modulo
`QUEUESIZE`. -/
def ChatQueue.contents (q : ChatQueue) : List Int :=
  (List.range ((q.head + QUEUESIZE - q.tail) % QUEUESIZE)).map
    fun i => q.chatchars ((q.tail + i) % QUEUESIZE)

/-- Both indices of the ring buffer are inside the array. -/
def ChatQueue.inRange (q : ChatQueue) : Prop :=
  q.head < QUEUESIZE ∧ q.tail < QUEUESIZE

/-- The calls that fill the chat queue: 127 times `HU_queueChatChar (7)`. -/
def chatFill : List ChatCall :=
  List.replicate 127 (.queue 7)

/-! ## Vocabulary of the PCX property -/

/-- Run-length decoding of a PCX data section: a byte with its top two bits
set is a run header whose low six bits count the copies of the byte that
follows; any other byte stands for itself. -/
def pcxDecode : List Nat → List Nat
  | [] => []
  | [b] => if b &&& 0xc0 = 0xc0 then [] else [b]
  | b :: v :: rest =>
    if b &&& 0xc0 = 0xc0 then List.replicate (b &&& 0x3f) v ++ pcxDecode rest
    else b :: pcxDecode (v :: rest)

/-! ## Vocabulary and witness data of the patch property -/

/-- The posts of a column as the post loop meets them, at most `n` of them:
each with its offset in the patch and its `topdelta` after the tall-patch
update, starting from the post at `column` with the running `topdelta`. -/
def patchPosts (patch : patch_t) : Nat → Int → Int → List (Int × Int)
  | 0, _, _ => []
  | n + 1, column, topdelta =>
    if patch.bytes column ≠ 0xff then
      (column, nextTopdelta topdelta (patch.bytes column)) ::
        patchPosts patch n (column + patch.bytes (column + 1) + 4)
          (nextTopdelta topdelta (patch.bytes column))
    else []

/-- The column that starts at `column` ends with the byte `0xff` after at
most `n` posts. -/
def columnEnds (patch : patch_t) : Nat → Int → Bool
  | 0, column => patch.bytes column == 0xff
  | n + 1, column =>
    patch.bytes column == 0xff || columnEnds patch n (column + patch.bytes (column + 1) + 4)

/-- The column and post data of the patch are well formed: every column ends
after at most `n` posts, and every post holds at least one pixel. -/
def patchWellFormed (patch : patch_t) (n : Nat) : Prop :=
  ∀ col, 0 ≤ col → col < patch.width →
    columnEnds patch n (patch.columnofs col) = true ∧
    ∀ p ∈ patchPosts patch n (patch.columnofs col) (-1), 1 ≤ patch.bytes (p.1 + 1)

/-- The store is the pixel `srccol` of a post of the patch drawn at `(x0,
y0)`, the position after the offsets of the patch are subtracted: it goes to
column `x0 + col` and row `y0 + topdelta + srccol` of the screen, at the
address of that pixel, and stores `drawpatchpx` of the pixel read and the byte
`srccol` of the post. -/
def PatchWrite.isPixelOf (ve : VideoEnv) (vs : VideoState) (patch : patch_t) (x0 y0 : Int)
    (w : PatchWrite) : Prop :=
  w.shadow = false ∧ 0 ≤ w.col ∧ w.col < patch.width ∧ w.x = x0 + w.col ∧
  0 ≤ w.srccol ∧ w.srccol < patch.bytes (w.column + 1) ∧
  w.top = y0 + w.topdelta + w.srccol ∧
  w.offset = w.top * ve.SCREENWIDTH + w.x ∧
  w.value = drawpatchpx vs w.old (patch.bytes (w.column + 3 + w.srccol))

/-- The store goes to a pixel of the screen. -/
def PatchWrite.onScreen (ve : VideoEnv) (w : PatchWrite) : Prop :=
  0 ≤ w.x ∧ w.x < ve.SCREENWIDTH ∧ 0 ≤ w.top ∧ w.top < ve.SCREENHEIGHT

/-- The screen buffer after the stores of a log are made in order: each
store puts its `value` at its `offset`. -/
def applyWrites (screen : Int → Nat) : List PatchWrite → Int → Nat
  | [] => screen
  | w :: rest => applyWrites (fun i => if i = w.offset then w.value else screen i) rest

/-- The `old` of each store of the log is the pixel that the buffer holds at
its `offset` when the stores before it are made, starting from `screen`. -/
def readsFrom (screen : Int → Nat) : List PatchWrite → Prop
  | [] => True
  | w :: rest =>
    w.old = screen w.offset ∧
      readsFrom (fun i => if i = w.offset then w.value else screen i) rest

/-- A patch for the witnesses: two columns; column 0 has one post with
`topdelta = 1` and the pixels 11, 12, column 1 one post with `topdelta = 0` and
the pixel 21. -/
def patchW : patch_t :=
  { width := 2, height := 3, leftoffset := 0, topoffset := 0
    columnofs := fun col => if col = 0 then 0 else 10
    bytes := fun i =>
      [1, 2, 0, 11, 12, 0, 0xff, 0, 0, 0, 0, 1, 0, 21, 0, 0xff].getD i.toNat 0xff }

/-- A 320x200 screen. -/
def videoEnvW : VideoEnv := ⟨320, 200⟩

/-- A video state for the witnesses: a black buffer, identity tables, no
translation, no translucency, no clip callback. -/
def videoW : VideoState :=
  { dest_screen := fun _ => 0, tinttable := fun p => p, tranmap := fun p => p,
    dp_translation := none, dp_translucent := false, patchclip_callback := none }

/-- A patch of one column whose first post is empty (`topdelta = 0`, length
0) and whose second post has `topdelta = 2` and the pixel 33. -/
def patchGap : patch_t :=
  { width := 1, height := 3, leftoffset := 0, topoffset := 0
    columnofs := fun _ => 0
    bytes := fun i => [0, 0, 0, 0, 2, 1, 0, 33, 0, 0xff].getD i.toNat 0xff }

/-- The witness video state with a translation table, `p -> p + 100`. -/
def videoTranslated : VideoState :=
  { videoW with dp_translation := some fun p => p + 100 }

/-- The witness video state with a clip callback that rejects every patch. -/
def videoRejecting : VideoState :=
  { videoW with patchclip_callback := some fun _ _ _ => false }

/-! # Properties

## The span sweep -/

set_option maxRecDepth 100000

theorem R_MakeSpans_loop1_eq (x : Int) (ss : Nat → Int) (b1 t2 : Nat) (ht2 : t2 < 2 ^ 32) :
    ∀ fuel t1, min t2 (b1 + 1) - t1 < fuel →
      R_MakeSpans_loop1 x ss b1 t2 fuel t1 =
        some (t1 + (min t2 (b1 + 1) - t1),
          (List.range' t1 (min t2 (b1 + 1) - t1)).map (mapCall x ss)) := by
  intro fuel
  induction fuel with
  | zero => intro t1 h; omega
  | succ n ih =>
    intro t1 h
    unfold R_MakeSpans_loop1
    by_cases hc : t1 < t2 ∧ t1 ≤ b1
    · have hm : (t1 + 1) % 2 ^ 32 = t1 + 1 := Nat.mod_eq_of_lt (by omega)
      have hk : min t2 (b1 + 1) - t1 = (min t2 (b1 + 1) - (t1 + 1)) + 1 := by omega
      rw [if_pos hc, hm, ih (t1 + 1) (by omega), hk]
      simp [List.range'_succ, mapCall]
      omega
    · have hk : min t2 (b1 + 1) - t1 = 0 := by omega
      rw [if_neg hc, hk]
      simp

theorem R_MakeSpans_loop2_eq (x : Int) (ss : Nat → Int) (t1 b2 : Nat) :
    ∀ fuel b1, b1 < 2 ^ 32 → b1 + 1 - max (b2 + 1) t1 < fuel →
      R_MakeSpans_loop2 x ss t1 b2 fuel b1 =
        some (b1 - (b1 + 1 - max (b2 + 1) t1),
          ((List.range' (max (b2 + 1) t1) (b1 + 1 - max (b2 + 1) t1)).reverse).map
            (mapCall x ss)) := by
  intro fuel
  induction fuel with
  | zero => intro b1 _ h; omega
  | succ n ih =>
    intro b1 hb h
    unfold R_MakeSpans_loop2
    by_cases hc : b1 > b2 ∧ b1 ≥ t1
    · have hm : (b1 + 2 ^ 32 - 1) % 2 ^ 32 = b1 - 1 := by omega
      have hk : b1 + 1 - max (b2 + 1) t1 = (b1 - 1 + 1 - max (b2 + 1) t1) + 1 := by omega
      rw [if_pos hc, hm, ih (b1 - 1) (by omega) (by omega), hk, List.range'_concat]
      simp [mapCall]
      constructor
      · omega
      · have : max (b2 + 1) t1 + (b1 - 1 + 1 - max (b2 + 1) t1) = b1 := by omega
        simp [this]
    · have hk : b1 + 1 - max (b2 + 1) t1 = 0 := by omega
      rw [if_neg hc, hk]
      simp

theorem R_MakeSpans_loop3_eq (x : Int) (t1 b2 : Nat) (ht1 : t1 < 2 ^ 32) :
    ∀ fuel t2 (ss : Nat → Int), min t1 (b2 + 1) - t2 < fuel →
      R_MakeSpans_loop3 x t1 b2 fuel t2 ss =
        some (t2 + (min t1 (b2 + 1) - t2),
          fun r => if t2 ≤ r ∧ r < t1 ∧ r ≤ b2 then x else ss r) := by
  intro fuel
  induction fuel with
  | zero => intro t2 _ h; omega
  | succ n ih =>
    intro t2 ss h
    unfold R_MakeSpans_loop3
    by_cases hc : t2 < t1 ∧ t2 ≤ b2
    · have hm : (t2 + 1) % 2 ^ 32 = t2 + 1 := Nat.mod_eq_of_lt (by omega)
      rw [if_pos hc, hm, ih (t2 + 1) _ (by omega)]
      simp only [Option.some.injEq, Prod.mk.injEq]
      refine ⟨by omega, ?_⟩
      funext r
      by_cases h1 : r = t2
      · subst h1; simp [hc]
      · by_cases h2 : t2 + 1 ≤ r ∧ r < t1 ∧ r ≤ b2
        · rw [if_pos h2, if_pos (by omega)]
        · rw [if_neg h2, if_neg h1, if_neg (by omega)]
    · rw [if_neg hc]
      simp only [Option.some.injEq, Prod.mk.injEq]
      refine ⟨by omega, ?_⟩
      funext r
      rw [if_neg (by omega)]

theorem R_MakeSpans_loop4_eq (x : Int) (b1 t2 : Nat) :
    ∀ fuel b2 (ss : Nat → Int), b2 < 2 ^ 32 → b2 + 1 - max (b1 + 1) t2 < fuel →
      R_MakeSpans_loop4 x b1 t2 fuel b2 ss =
        some (b2 - (b2 + 1 - max (b1 + 1) t2),
          fun r => if b1 < r ∧ t2 ≤ r ∧ r ≤ b2 then x else ss r) := by
  intro fuel
  induction fuel with
  | zero => intro b2 _ _ h; omega
  | succ n ih =>
    intro b2 ss hb h
    unfold R_MakeSpans_loop4
    by_cases hc : b2 > b1 ∧ b2 ≥ t2
    · have hm : (b2 + 2 ^ 32 - 1) % 2 ^ 32 = b2 - 1 := by omega
      rw [if_pos hc, hm, ih (b2 - 1) _ (by omega) (by omega)]
      simp only [Option.some.injEq, Prod.mk.injEq]
      refine ⟨by omega, ?_⟩
      funext r
      by_cases h1 : r = b2
      · subst h1; simp [hc]
      · by_cases h2 : b1 < r ∧ t2 ≤ r ∧ r ≤ b2 - 1
        · rw [if_pos h2, if_pos (by omega)]
        · rw [if_neg h2, if_neg h1, if_neg (by omega)]
    · rw [if_neg hc]
      simp only [Option.some.injEq, Prod.mk.injEq]
      refine ⟨by omega, ?_⟩
      funext r
      rw [if_neg (by omega)]

theorem flushRows_count (t1 b1 t2 b2 r : Nat) :
    (flushRows t1 b1 t2 b2).count r =
      if t1 ≤ r ∧ r ≤ b1 ∧ ¬(t2 ≤ r ∧ r ≤ b2) then 1 else 0 := by
  unfold flushRows
  rw [List.count_append, List.count_reverse,
    List.count_eq_of_nodup (List.nodup_range' _ _),
    List.count_eq_of_nodup (List.nodup_range' _ _)]
  simp only [List.mem_range'_1]
  split_ifs <;> omega

theorem R_MakeSpans_eq (fuel : Nat) (x : Int) (t1 b1 t2 b2 : Nat) (ss : Nat → Int)
    (ht1 : t1 < 2 ^ 32) (hb1 : b1 < 2 ^ 32) (ht2 : t2 < 2 ^ 32) (hb2 : b2 < 2 ^ 32)
    (hf1 : b1 + 1 - t1 < fuel) (hf2 : b2 + 1 - t2 < fuel) :
    R_MakeSpans fuel x t1 b1 t2 b2 ss =
      some (fun r => if t2 ≤ r ∧ r ≤ b2 ∧ ¬(t1 ≤ r ∧ r ≤ b1) then x else ss r,
        (flushRows t1 b1 t2 b2).map (mapCall x ss)) := by
  unfold R_MakeSpans
  rw [R_MakeSpans_loop1_eq x ss b1 t2 ht2 fuel t1 (by omega)]
  simp only
  rw [R_MakeSpans_loop2_eq x ss _ b2 fuel b1 hb1 (by omega)]
  simp only
  rw [R_MakeSpans_loop3_eq x _ b2 (by omega) fuel t2 ss (by omega)]
  simp only
  rw [R_MakeSpans_loop4_eq x _ _ fuel b2 _ hb2 (by omega)]
  simp only [Option.some.injEq, Prod.mk.injEq, flushRows, List.map_append, and_true]
  funext r
  split_ifs <;> first | rfl | omega

theorem mem_flushRows {t1 b1 t2 b2 r : Nat} (h : r ∈ flushRows t1 b1 t2 b2) :
    t1 ≤ r ∧ r ≤ b1 ∧ ¬(t2 ≤ r ∧ r ≤ b2) := by
  have h1 := List.count_pos_iff.mpr h
  rw [flushRows_count] at h1
  by_contra hc
  rw [if_neg hc] at h1
  omega

theorem countP_covers_flush (x : Int) (ss : Nat → Int) (t1 b1 t2 b2 row : Nat) (col : Int)
    (hb1 : b1 < 2 ^ 31) :
    ((flushRows t1 b1 t2 b2).map (mapCall x ss)).countP (covers row col) =
      if t1 ≤ row ∧ row ≤ b1 ∧ ¬(t2 ≤ row ∧ row ≤ b2) ∧ ss row ≤ col ∧ col ≤ x - 1
      then 1 else 0 := by
  rw [List.countP_map]
  by_cases hQ : ss row ≤ col ∧ col ≤ x - 1
  · have h1 : (flushRows t1 b1 t2 b2).countP (covers row col ∘ mapCall x ss) =
        (flushRows t1 b1 t2 b2).count row := by
      rw [List.count_eq_countP]
      apply List.countP_congr
      intro r hr
      have hr1 := (mem_flushRows hr).2.1
      have hr2 : r < 2 ^ 31 := by omega
      simp only [Function.comp, covers, mapCall, toInt32, if_pos hr2, decide_eq_true_eq,
        beq_iff_eq]
      constructor
      · rintro ⟨h, _⟩; exact_mod_cast h
      · rintro rfl; exact ⟨rfl, hQ⟩
    rw [h1, flushRows_count]
    by_cases h2 : t1 ≤ row ∧ row ≤ b1 ∧ ¬(t2 ≤ row ∧ row ≤ b2)
    · rw [if_pos h2, if_pos ⟨h2.1, h2.2.1, h2.2.2, hQ⟩]
    · rw [if_neg h2, if_neg (fun h => h2 ⟨h.1, h.2.1, h.2.2.1⟩)]
  · rw [if_neg (fun h => hQ h.2.2.2)]
    rw [List.countP_eq_zero]
    intro r hr
    have hr1 := (mem_flushRows hr).2.1
    have hr2 : r < 2 ^ 31 := by omega
    simp only [Function.comp, covers, mapCall, toInt32, if_pos hr2, decide_eq_true_eq]
    rintro ⟨h, h3⟩
    have : r = row := by exact_mod_cast h
    subst this
    exact hQ h3

theorem R_DrawPlanes_loop_count (T B : Int → Nat) (stop : Int) (fuel : Nat)
    (hstop : B stop < T stop) :
    ∀ n x (ss : Nat → Int), x ≤ stop + 1 → (stop + 1 - x).toNat ≤ n →
      (∀ c, x - 1 ≤ c → c ≤ stop → T c < 2 ^ 32 ∧ B c < 2 ^ 31 ∧ B c + 1 < fuel) →
      (∀ r, T (x - 1) ≤ r → r ≤ B (x - 1) → ss r ≤ x - 1) →
      ∃ ss1 calls, R_DrawPlanes_loop T B stop fuel n x ss = some (ss1, calls) ∧
        (∀ s ∈ calls, 0 ≤ s.y) ∧
        ∀ (row : Nat) (col : Int), calls.countP (covers row col) =
          if (T (x - 1) ≤ row ∧ row ≤ B (x - 1) ∧ ss row ≤ col ∧ col ≤ x - 1) ∨
              (x ≤ col ∧ col ≤ stop ∧ T col ≤ row ∧ row ≤ B col)
          then 1 else 0 := by
  intro n
  induction n with
  | zero =>
    intro x ss hx hn _ _
    refine ⟨ss, [], rfl, fun s hs => absurd hs (List.not_mem_nil s), ?_⟩
    intro row col
    have hx1 : x - 1 = stop := by omega
    rw [hx1, if_neg]
    · rfl
    · rintro (h6 | h6)
      · omega
      · omega
  | succ n ih =>
    intro x ss hx hn hbd hss
    unfold R_DrawPlanes_loop
    by_cases hc : x ≤ stop
    · have b0 := hbd (x - 1) (le_refl _) (by omega)
      have b1 := hbd x (by omega) hc
      rw [if_pos hc, R_MakeSpans_eq fuel x _ _ _ _ ss b0.1 (by omega) b1.1 (by omega)
        (by omega) (by omega)]
      simp only
      obtain ⟨ss1, calls, he, hy, hcnt⟩ := ih (x + 1)
        (fun r => if T x ≤ r ∧ r ≤ B x ∧ ¬(T (x - 1) ≤ r ∧ r ≤ B (x - 1)) then x else ss r)
        (by omega) (by omega)
        (fun c h1 h2 => hbd c (by omega) h2)
        (by
          intro r h1 h2
          simp only [add_sub_cancel_right] at h1 h2 ⊢
          have := hss r
          split_ifs <;> omega)
      rw [he]
      refine ⟨ss1, _, rfl, ?_, ?_⟩
      · intro s hs
        rcases List.mem_append.mp hs with h1 | h1
        · obtain ⟨r, hr, rfl⟩ := List.mem_map.mp h1
          have hr1 := (mem_flushRows hr).2.1
          have hr2 : r < 2 ^ 31 := by omega
          simp only [mapCall, toInt32, if_pos hr2]
          omega
        · exact hy s h1
      · intro row col
        rw [List.countP_append, countP_covers_flush _ _ _ _ _ _ _ _ b0.2.1, hcnt row col]
        simp only [add_sub_cancel_right]
        have hs := hss row
        by_cases hcx : col = x
        · subst hcx
          split_ifs <;> omega
        · split_ifs <;> omega
    · rw [if_neg hc]
      refine ⟨ss, [], rfl, fun s hs => absurd hs (List.not_mem_nil s), ?_⟩
      intro row col
      have hx1 : x - 1 = stop := by omega
      rw [hx1, if_neg]
      · rfl
      · rintro (h6 | h6)
        · omega
        · omega

/-- C1 (span completeness).  For every non-sky surface with `0 <= minx <=
maxx` in which each column of `[minx, maxx]` is either unclaimed (`top =
0xffffffff`) or has `top[col] <= bottom[col]`, and whose stored bottoms
(columns `minx-1 .. maxx+1`) are below the view height, the sweep of
`R_DrawPlanes` returns (given fuel above the view height) and the spans it
dispatches to `R_MapPlane` cover exactly the pairs `(row, col)` with `minx <=
col <= maxx` and `top[col] <= row <= bottom[col]`: such a pair lies in exactly
one span, any other pair in none. -/
theorem span_completeness (env : Env) (pl : visplane_t) (spanstart : Nat → Int) (fuel : Nat)
    (hsky : isSky env pl.picnum = false)
    (h0 : 0 ≤ pl.minx) (hmm : pl.minx ≤ pl.maxx)
    (hcol : ∀ c, pl.minx ≤ c → c ≤ pl.maxx → pl.top c = UNCLAIMED ∨ pl.top c ≤ pl.bottom c)
    (hbot : ∀ c, pl.minx - 1 ≤ c → c ≤ pl.maxx + 1 → (pl.bottom c : Int) < env.viewheight)
    (hvh : env.viewheight < 2 ^ 31) (hfuel : env.viewheight < fuel) :
    ∃ pl1 ss1 calls, R_DrawPlanes_plane env fuel pl spanstart = some (pl1, ss1, calls) ∧
      ∀ row col : Int, calls.countP (covers row col) =
        if pl.minx ≤ col ∧ col ≤ pl.maxx ∧ (pl.top col : Int) ≤ row ∧ row ≤ pl.bottom col
        then 1 else 0 := by
  have _ := h0
  unfold R_DrawPlanes_plane
  rw [if_neg (by omega), hsky]
  simp only [Bool.false_eq_true, if_false]
  obtain ⟨ss1, calls, he, hy, hcnt⟩ := R_DrawPlanes_loop_count
    (fun i => if i = pl.minx - 1 then 0xffffffff else
      if i = pl.maxx + 1 then 0xffffffff else pl.top i) pl.bottom (pl.maxx + 1) fuel
    (by
      have := hbot (pl.maxx + 1) (by omega) (le_refl _)
      simp only
      split_ifs <;> omega)
    (pl.maxx + 1 + 1 - pl.minx).toNat pl.minx spanstart (by omega) (le_refl _)
    (by
      intro c h1 h2
      have hb := hbot c h1 h2
      refine ⟨?_, by omega, by omega⟩
      simp only
      split_ifs with h3 h4
      · norm_num
      · norm_num
      · rcases hcol c (by omega) (by omega) with h5 | h5
        · rw [h5]; norm_num [UNCLAIMED]
        · omega)
    (by
      intro r h1 h2
      have := hbot (pl.minx - 1) (le_refl _) (by omega)
      simp only [if_true] at h1
      omega)
  rw [he]
  refine ⟨_, ss1, calls, rfl, ?_⟩
  intro row col
  have hb1 := hbot (pl.minx - 1) (le_refl _) (by omega)
  have hb2 := hbot (pl.maxx + 1) (by omega) (le_refl _)
  by_cases hrow : 0 ≤ row
  · obtain ⟨n, rfl⟩ := Int.eq_ofNat_of_zero_le hrow
    rw [hcnt n col]
    simp only [if_true]
    by_cases h1 : pl.minx ≤ col ∧ col ≤ pl.maxx
    · rw [if_neg (by omega : ¬ col = pl.minx - 1), if_neg (by omega : ¬ col = pl.maxx + 1)]
      split_ifs <;> omega
    · by_cases h2 : col = pl.maxx + 1
      · subst h2
        rw [if_neg (by omega : ¬ pl.maxx + 1 = pl.minx - 1), if_pos rfl]
        split_ifs <;> omega
      · split_ifs <;> omega
  · rw [if_neg (by omega), List.countP_eq_zero]
    intro s hs
    have := hy s hs
    simp only [covers, decide_eq_true_eq]
    omega

/-- Witness of C1: uniform `top = 0`, `bottom = 100` over the columns
`10 .. 80`.  The theorem applies, and evaluating the sweep gives exactly the
101 calls `R_MapPlane (row, 10, 80)` for `row = 0 .. 100`. -/
theorem span_completeness_witness :
    (∃ pl1 ss1 calls, R_DrawPlanes_plane envW 201 planeW (fun _ => 0) = some (pl1, ss1, calls) ∧
      ∀ row col : Int, calls.countP (covers row col) =
        if (10 : Int) ≤ col ∧ col ≤ 80 ∧ 0 ≤ row ∧ row ≤ 100 then 1 else 0) ∧
    (R_DrawPlanes_plane envW 201 planeW (fun _ => 0)).map (fun r => r.2.2) =
      some ((List.range 101).map fun r => ⟨(r : Int), 10, 80⟩) :=
  ⟨span_completeness envW planeW (fun _ => 0) 201 (by decide) (by decide) (by decide)
    (fun _ _ _ => Or.inr (le_of_eq_of_le rfl (Nat.zero_le _)))
    (fun _ _ _ => by simp [planeW, envW]) (by decide) (by decide), by rfl⟩

/-! ## Registry: basic facts -/

theorem deref_assign_same (st : PlaneState) (p : Int) (v : visplane_t) :
    deref (assign st p v) p = v := by
  simp [deref, assign]

theorem assign_store_ne (st : PlaneState) (p : Int) (v : visplane_t) (i : Int)
    (h : i ≠ p - st.visplanes) : (assign st p v).store i = st.store i := by
  simp [assign, h]

theorem R_RaiseVisplanes_liveCount (st : PlaneState) (vp : Option Int) (nb : Int) :
    liveCount (R_RaiseVisplanes st vp nb).1 = liveCount st := by
  unfold R_RaiseVisplanes liveCount
  by_cases h : st.lastvisplane - st.visplanes = st.numvisplanes
  · rw [if_pos h]; simp only; omega
  · rw [if_neg h]

theorem R_RaiseVisplanes_store (st : PlaneState) (vp : Option Int) (nb : Int) (i : Int)
    (hi : i < liveCount st) : (R_RaiseVisplanes st vp nb).1.store i = st.store i := by
  unfold R_RaiseVisplanes
  unfold liveCount at hi
  by_cases h : st.lastvisplane - st.visplanes = st.numvisplanes
  · rw [if_pos h]; simp only
    rw [if_neg (by omega)]
  · rw [if_neg h]

theorem R_RaiseVisplanes_ptr (st : PlaneState) (p nb : Int) :
    ∃ q, (R_RaiseVisplanes st (some p) nb).2 = some q ∧
      q - (R_RaiseVisplanes st (some p) nb).1.visplanes = p - st.visplanes := by
  unfold R_RaiseVisplanes
  by_cases h : st.lastvisplane - st.visplanes = st.numvisplanes
  · rw [if_pos h]; exact ⟨_, rfl, by simp⟩
  · rw [if_neg h]; exact ⟨_, rfl, rfl⟩

theorem R_RaiseVisplanes_last (st : PlaneState) (vp : Option Int) (nb : Int) :
    (R_RaiseVisplanes st vp nb).1.lastvisplane =
      (R_RaiseVisplanes st vp nb).1.visplanes + liveCount st := by
  unfold R_RaiseVisplanes liveCount
  by_cases h : st.lastvisplane - st.visplanes = st.numvisplanes
  · rw [if_pos h]; simp only; omega
  · rw [if_neg h]; simp only; omega

theorem R_RaiseVisplanes_cap (st : PlaneState) (vp : Option Int) (nb : Int)
    (h0 : 0 ≤ liveCount st) (h1 : liveCount st ≤ st.numvisplanes) :
    liveCount st < (R_RaiseVisplanes st vp nb).1.numvisplanes := by
  unfold R_RaiseVisplanes
  unfold liveCount at h0 h1 ⊢
  by_cases h : st.lastvisplane - st.visplanes = st.numvisplanes
  · rw [if_pos h]; simp only [MAXVISPLANES]
    split_ifs <;> omega
  · rw [if_neg h]; simp only; omega

theorem R_RaiseVisplanes_cap_mono (st : PlaneState) (vp : Option Int) (nb : Int)
    (h0 : 0 ≤ st.numvisplanes) :
    st.numvisplanes ≤ (R_RaiseVisplanes st vp nb).1.numvisplanes := by
  unfold R_RaiseVisplanes
  by_cases h : st.lastvisplane - st.visplanes = st.numvisplanes
  · rw [if_pos h]; simp only [MAXVISPLANES]
    split_ifs <;> omega
  · rw [if_neg h]

theorem R_RaiseVisplanes_flags (st : PlaneState) (vp : Option Int) (nb : Int) :
    (R_RaiseVisplanes st vp nb).1.markceiling = st.markceiling ∧
    (R_RaiseVisplanes st vp nb).1.floorplane - (R_RaiseVisplanes st vp nb).1.visplanes =
      st.floorplane - st.visplanes ∧
    (R_RaiseVisplanes st vp nb).1.ceilingplane - (R_RaiseVisplanes st vp nb).1.visplanes =
      st.ceilingplane - st.visplanes := by
  unfold R_RaiseVisplanes
  by_cases h : st.lastvisplane - st.visplanes = st.numvisplanes
  · rw [if_pos h]; simp
  · rw [if_neg h]; simp

/-! ## Registry: the two scans -/

theorem R_FindPlane_loop_spec (st : PlaneState) (height picnum lightlevel : Int) :
    ∀ k check, (st.lastvisplane - check).toNat ≤ k →
      check ≤ R_FindPlane_loop st height picnum lightlevel k check ∧
      (R_FindPlane_loop st height picnum lightlevel k check < st.lastvisplane →
        samePlane height picnum lightlevel
          (deref st (R_FindPlane_loop st height picnum lightlevel k check)) = true) ∧
      (∀ j, check ≤ j → j < R_FindPlane_loop st height picnum lightlevel k check →
        j < st.lastvisplane ∧ samePlane height picnum lightlevel (deref st j) = false) := by
  intro k
  induction k with
  | zero =>
    intro check hk
    simp only [R_FindPlane_loop]
    refine ⟨le_refl _, fun h => by omega, fun j h1 h2 => by omega⟩
  | succ k ih =>
    intro check hk
    simp only [R_FindPlane_loop]
    split_ifs with h1 h2
    · exact ⟨le_refl _, fun _ => h2, fun j h3 h4 => by omega⟩
    · obtain ⟨i1, i2, i3⟩ := ih (check + 1) (by omega)
      refine ⟨by omega, i2, ?_⟩
      intro j h3 h4
      by_cases hj : j = check
      · subst hj; exact ⟨h1, by simpa using h2⟩
      · exact i3 j (by omega) h4
    · exact ⟨le_refl _, fun h => by omega, fun j h3 h4 => by omega⟩

theorem R_CheckPlane_loop_spec (top : Int → Nat) (intrh : Int) :
    ∀ k x, (intrh + 1 - x).toNat ≤ k →
      (R_CheckPlane_loop top intrh k x > intrh ↔
        ∀ c, x ≤ c → c ≤ intrh → top c = UNCLAIMED) := by
  intro k
  induction k with
  | zero =>
    intro x hk
    simp only [R_CheckPlane_loop]
    constructor
    · intro _ c h1 h2; omega
    · intro _; omega
  | succ k ih =>
    intro x hk
    simp only [R_CheckPlane_loop]
    split_ifs with h1 h2
    · constructor
      · intro h; omega
      · intro h; exact absurd (h x (le_refl _) h1) h2
    · rw [ih (x + 1) (by omega)]
      have h3 : top x = UNCLAIMED := by simpa [UNCLAIMED] using h2
      constructor
      · intro h c h4 h5
        by_cases hc : c = x
        · subst hc; exact h3
        · exact h c (by omega) h5
      · intro h c h4 h5
        exact h c (by omega) h5
    · constructor
      · intro _ c h3 h4; omega
      · intro _; omega


/-! ## `R_FindPlane` -/

theorem R_FindPlane_loop_hit (st : PlaneState) (height picnum lightlevel i : Int)
    (h : firstMatch st height picnum lightlevel i) :
    R_FindPlane_loop st height picnum lightlevel (st.lastvisplane - st.visplanes).toNat
      st.visplanes = st.visplanes + i := by
  obtain ⟨h0, h1, h2, h3⟩ := h
  unfold liveCount at h1
  obtain ⟨s1, s2, s3⟩ := R_FindPlane_loop_spec st height picnum lightlevel
    (st.lastvisplane - st.visplanes).toNat st.visplanes (le_refl _)
  generalize R_FindPlane_loop st height picnum lightlevel
    (st.lastvisplane - st.visplanes).toNat st.visplanes = c at s1 s2 s3
  have hc1 : c ≤ st.visplanes + i := by
    by_contra hlt
    have := (s3 (st.visplanes + i) (by omega) (by omega)).2
    simp only [deref, add_sub_cancel_left] at this
    rw [h2] at this
    exact Bool.noConfusion this
  have hc2 := s2 (by omega)
  by_contra hne
  have := h3 (c - st.visplanes) (by omega) (by omega)
  simp only [deref] at hc2
  rw [hc2] at this
  exact Bool.noConfusion this

theorem R_FindPlane_loop_miss (st : PlaneState) (height picnum lightlevel : Int)
    (h0 : 0 ≤ liveCount st) (h : noMatch st height picnum lightlevel) :
    R_FindPlane_loop st height picnum lightlevel (st.lastvisplane - st.visplanes).toNat
      st.visplanes = st.lastvisplane := by
  unfold liveCount at h0
  obtain ⟨s1, s2, s3⟩ := R_FindPlane_loop_spec st height picnum lightlevel
    (st.lastvisplane - st.visplanes).toNat st.visplanes (le_refl _)
  generalize R_FindPlane_loop st height picnum lightlevel
    (st.lastvisplane - st.visplanes).toNat st.visplanes = c at s1 s2 s3
  have hc1 : ¬ c < st.lastvisplane := by
    intro hlt
    have h1 := s2 hlt
    have h2 := h (c - st.visplanes) (by omega) (by unfold liveCount; omega)
    simp only [deref] at h1
    rw [h1] at h2
    exact Bool.noConfusion h2
  by_contra hne
  have := (s3 st.lastvisplane (by omega) (by omega)).1
  omega

theorem firstMatch_or_noMatch (st : PlaneState) (height picnum lightlevel : Int) :
    (∃ i, firstMatch st height picnum lightlevel i) ∨ noMatch st height picnum lightlevel := by
  obtain ⟨s1, s2, s3⟩ := R_FindPlane_loop_spec st height picnum lightlevel
    (st.lastvisplane - st.visplanes).toNat st.visplanes (le_refl _)
  generalize R_FindPlane_loop st height picnum lightlevel
    (st.lastvisplane - st.visplanes).toNat st.visplanes = c at s1 s2 s3
  by_cases hc : c < st.lastvisplane
  · left
    refine ⟨c - st.visplanes, by omega, by unfold liveCount; omega, s2 hc, ?_⟩
    intro j hj1 hj2
    have := (s3 (st.visplanes + j) (by omega) (by omega)).2
    simpa [deref] using this
  · right
    intro j hj1 hj2
    unfold liveCount at hj2
    have := (s3 (st.visplanes + j) (by omega) (by omega)).2
    simpa [deref] using this

theorem R_FindPlane_hit (env : Env) (st : PlaneState) (height picnum lightlevel nb i : Int)
    (h : firstMatch st (canonHeight env picnum height) picnum
      (canonLight env picnum lightlevel) i) :
    R_FindPlane env st height picnum lightlevel nb = (st, st.visplanes + i) := by
  have hl := R_FindPlane_loop_hit st _ _ _ i h
  unfold canonHeight canonLight at hl
  unfold R_FindPlane
  simp only [hl]
  have := h.2.1
  unfold liveCount at this
  rw [if_pos (by omega)]

/-- Entry that `R_FindPlane` writes when it appends. -/
theorem R_FindPlane_miss (env : Env) (st : PlaneState) (height picnum lightlevel nb : Int)
    (h0 : 0 ≤ liveCount st)
    (h : noMatch st (canonHeight env picnum height) picnum (canonLight env picnum lightlevel)) :
    handleOf (R_FindPlane env st height picnum lightlevel nb).1
        (R_FindPlane env st height picnum lightlevel nb).2 = liveCount st ∧
    liveCount (R_FindPlane env st height picnum lightlevel nb).1 = liveCount st + 1 ∧
    (R_FindPlane env st height picnum lightlevel nb).1.numvisplanes =
      (R_RaiseVisplanes st (some st.lastvisplane) nb).1.numvisplanes ∧
    (∀ i, i < liveCount st →
      (R_FindPlane env st height picnum lightlevel nb).1.store i = st.store i) ∧
    (R_FindPlane env st height picnum lightlevel nb).1.store (liveCount st) =
      { (R_RaiseVisplanes st (some st.lastvisplane) nb).1.store (liveCount st) with
        height := canonHeight env picnum height
        picnum := picnum
        lightlevel := canonLight env picnum lightlevel
        minx := env.SCREENWIDTH
        maxx := -1
        top := memsetTop env.MAXWIDTH
          ((R_RaiseVisplanes st (some st.lastvisplane) nb).1.store (liveCount st)).top } := by
  have hl := R_FindPlane_loop_miss st _ _ _ h0 h
  unfold canonHeight canonLight at hl
  obtain ⟨q, hq1, hq2⟩ := R_RaiseVisplanes_ptr st st.lastvisplane nb
  have hlast := R_RaiseVisplanes_last st (some st.lastvisplane) nb
  have hq3 : q - (R_RaiseVisplanes st (some st.lastvisplane) nb).1.visplanes = liveCount st := hq2
  unfold R_FindPlane
  simp only [hl, lt_irrefl, if_false, hq1, Option.getD_some]
  refine ⟨?_, ?_, ?_, ?_, ?_⟩
  · simp only [handleOf, assign]; exact hq3
  · simp only [liveCount, assign]; rw [hlast]; unfold liveCount; omega
  · simp only [assign]
  · intro i hi
    simp only [assign]
    rw [if_neg (by omega)]
    exact R_RaiseVisplanes_store st _ nb i hi
  · simp only [assign, deref, canonHeight, canonLight]
    rw [if_pos hq3.symm, hq3]


/-! ## `R_CheckPlane` -/

theorem R_CheckPlane_scan (st : PlaneState) (pl start stop : Int) :
    (R_CheckPlane_loop (deref st pl).top
        (if stop > (deref st pl).maxx then (deref st pl).maxx else stop)
        ((if stop > (deref st pl).maxx then (deref st pl).maxx else stop) + 1 -
          (if start < (deref st pl).minx then (deref st pl).minx else start)).toNat
        (if start < (deref st pl).minx then (deref st pl).minx else start) >
      (if stop > (deref st pl).maxx then (deref st pl).maxx else stop)) ↔
    intersectionFree st pl start stop := by
  rw [R_CheckPlane_loop_spec _ _ _ _ (le_refl _)]
  unfold intersectionFree
  have e1 : (if start < (deref st pl).minx then (deref st pl).minx else start) =
      max (deref st pl).minx start := by
    split_ifs <;> omega
  have e2 : (if stop > (deref st pl).maxx then (deref st pl).maxx else stop) =
      min (deref st pl).maxx stop := by
    split_ifs <;> omega
  rw [e1, e2]

theorem R_CheckPlane_merge (env : Env) (st : PlaneState) (pl start stop nb : Int)
    (hfree : intersectionFree st pl start stop) (hcfg : ¬ samePlaneConfig st pl) :
    R_CheckPlane env st pl start stop nb =
      (assign st pl { deref st pl with
          minx := min (deref st pl).minx start
          maxx := max (deref st pl).maxx stop }, pl) := by
  have hs := (R_CheckPlane_scan st pl start stop).mpr hfree
  have hc : (!(pl == st.floorplane && st.markceiling && st.floorplane == st.ceilingplane)) =
      true := by
    unfold samePlaneConfig at hcfg
    simp only [Bool.not_eq_true', Bool.and_eq_false_imp, Bool.and_eq_true, beq_iff_eq,
      beq_eq_false_iff_ne, ne_eq, and_imp]
    intro h1 h2 h3
    exact hcfg ⟨h1, h2, h3⟩
  have e1 : (if start < (deref st pl).minx then start else (deref st pl).minx) =
      min (deref st pl).minx start := by
    split_ifs <;> omega
  have e2 : (if stop > (deref st pl).maxx then stop else (deref st pl).maxx) =
      max (deref st pl).maxx stop := by
    split_ifs <;> omega
  unfold R_CheckPlane
  simp only [hc, decide_eq_true hs, Bool.and_self, if_true, e1, e2]

theorem R_CheckPlane_split (env : Env) (st : PlaneState) (pl start stop nb : Int)
    (h : ¬ intersectionFree st pl start stop ∨ samePlaneConfig st pl) :
    handleOf (R_CheckPlane env st pl start stop nb).1
        (R_CheckPlane env st pl start stop nb).2 = liveCount st ∧
    liveCount (R_CheckPlane env st pl start stop nb).1 = liveCount st + 1 ∧
    (R_CheckPlane env st pl start stop nb).1.numvisplanes =
      (R_RaiseVisplanes st (some pl) nb).1.numvisplanes ∧
    (∀ i, i < liveCount st →
      (R_CheckPlane env st pl start stop nb).1.store i = st.store i) ∧
    (R_CheckPlane env st pl start stop nb).1.store (liveCount st) =
      { (R_RaiseVisplanes st (some pl) nb).1.store (liveCount st) with
        height := ((R_RaiseVisplanes st (some pl) nb).1.store (pl - st.visplanes)).height
        picnum := ((R_RaiseVisplanes st (some pl) nb).1.store (pl - st.visplanes)).picnum
        lightlevel :=
          ((R_RaiseVisplanes st (some pl) nb).1.store (pl - st.visplanes)).lightlevel
        minx := start
        maxx := stop
        top := memsetTop env.MAXWIDTH
          ((R_RaiseVisplanes st (some pl) nb).1.store (liveCount st)).top } := by
  have hc : ((!(pl == st.floorplane && st.markceiling && st.floorplane == st.ceilingplane)) &&
      decide (R_CheckPlane_loop (deref st pl).top
        (if stop > (deref st pl).maxx then (deref st pl).maxx else stop)
        ((if stop > (deref st pl).maxx then (deref st pl).maxx else stop) + 1 -
          (if start < (deref st pl).minx then (deref st pl).minx else start)).toNat
        (if start < (deref st pl).minx then (deref st pl).minx else start) >
      (if stop > (deref st pl).maxx then (deref st pl).maxx else stop))) = false := by
    rcases h with h | h
    · have := mt (R_CheckPlane_scan st pl start stop).mp h
      simp only [decide_eq_false this, Bool.and_false]
    · obtain ⟨h1, h2, h3⟩ := h
      simp [← h3, ← h1, h2]
  obtain ⟨q, hq1, hq2⟩ := R_RaiseVisplanes_ptr st pl nb
  have hlast := R_RaiseVisplanes_last st (some pl) nb
  have hl2 : (R_RaiseVisplanes st (some pl) nb).1.lastvisplane -
      (R_RaiseVisplanes st (some pl) nb).1.visplanes = liveCount st := by omega
  unfold R_CheckPlane
  simp only [hc, Bool.false_eq_true, if_false, hq1, Option.getD_some]
  refine ⟨?_, ?_, ?_, ?_, ?_⟩
  · simp only [handleOf, assign]; exact hl2
  · simp only [liveCount, assign]; unfold liveCount at hl2; omega
  · simp only [assign]
  · intro i hi
    simp only [assign]
    rw [if_neg (by omega), if_neg (by omega)]
    exact R_RaiseVisplanes_store st _ nb i hi
  · simp only [assign, deref, hl2, hq2, if_true]

theorem R_CheckPlane_merge_or_split (st : PlaneState) (pl start stop : Int) :
    (intersectionFree st pl start stop ∧ ¬ samePlaneConfig st pl) ∨
    (¬ intersectionFree st pl start stop ∨ samePlaneConfig st pl) := by
  by_cases h1 : intersectionFree st pl start stop
  · by_cases h2 : samePlaneConfig st pl
    · exact Or.inr (Or.inr h2)
    · exact Or.inl ⟨h1, h2⟩
  · exact Or.inr (Or.inl h1)


theorem samePlane_iff (height picnum lightlevel : Int) (v : visplane_t) :
    samePlane height picnum lightlevel v = true ↔ tripleOf v = (height, picnum, lightlevel) := by
  simp only [samePlane, tripleOf, Bool.and_eq_true, beq_iff_eq, Prod.mk.injEq]
  constructor
  · rintro ⟨⟨h1, h2⟩, h3⟩; exact ⟨h1.symm, h2.symm, h3.symm⟩
  · rintro ⟨h1, h2, h3⟩; exact ⟨⟨h1.symm, h2.symm⟩, h3.symm⟩

theorem R_FindPlane_firstMatch (env : Env) (st : PlaneState)
    (height picnum lightlevel nb : Int) (h0 : 0 ≤ liveCount st) :
    firstMatch (R_FindPlane env st height picnum lightlevel nb).1
      (canonHeight env picnum height) picnum (canonLight env picnum lightlevel)
      (handleOf (R_FindPlane env st height picnum lightlevel nb).1
        (R_FindPlane env st height picnum lightlevel nb).2) := by
  rcases firstMatch_or_noMatch st (canonHeight env picnum height) picnum
    (canonLight env picnum lightlevel) with ⟨i, hi⟩ | hno
  · rw [R_FindPlane_hit env st height picnum lightlevel nb i hi]
    simpa [handleOf] using hi
  · obtain ⟨m1, m2, _, m4, m5⟩ := R_FindPlane_miss env st height picnum lightlevel nb h0 hno
    rw [m1]
    refine ⟨h0, by omega, ?_, ?_⟩
    · rw [m5, samePlane_iff]; rfl
    · intro j hj1 hj2
      rw [m4 j hj2]
      exact hno j hj1 hj2

/-! ## The claims -/

/-- C2 (ClaimRange merge).  For every entry `pl` and range `[start, stop]`, if
every column of the intersection `[max(minx, start), min(maxx, stop)]` holds
the sentinel in `top[]` and the configuration `pl == floorplane && markceiling
&& floorplane == ceilingplane` is not active, `R_CheckPlane` returns the same
pointer (the same handle), sets `minx = min(minx, start)` and `maxx =
max(maxx, stop)`, and allocates nothing: the live count, the capacity and the
block address are unchanged, and so is every other entry. -/
theorem claimRange_merge (env : Env) (st : PlaneState) (pl start stop nb : Int)
    (hfree : intersectionFree st pl start stop) (hcfg : ¬ samePlaneConfig st pl) :
    (R_CheckPlane env st pl start stop nb).2 = pl ∧
    handleOf (R_CheckPlane env st pl start stop nb).1 (R_CheckPlane env st pl start stop nb).2 =
      handleOf st pl ∧
    (deref (R_CheckPlane env st pl start stop nb).1 pl).minx = min (deref st pl).minx start ∧
    (deref (R_CheckPlane env st pl start stop nb).1 pl).maxx = max (deref st pl).maxx stop ∧
    liveCount (R_CheckPlane env st pl start stop nb).1 = liveCount st ∧
    (R_CheckPlane env st pl start stop nb).1.numvisplanes = st.numvisplanes ∧
    (R_CheckPlane env st pl start stop nb).1.visplanes = st.visplanes ∧
    ∀ i, i ≠ handleOf st pl → (R_CheckPlane env st pl start stop nb).1.store i = st.store i := by
  rw [R_CheckPlane_merge env st pl start stop nb hfree hcfg]
  refine ⟨rfl, rfl, ?_, ?_, rfl, rfl, rfl, ?_⟩
  · simp [deref, assign]
  · simp [deref, assign]
  · intro i hi
    exact assign_store_ne st pl _ i hi

/-- Witness of C2: on the registry holding the fresh entry `(0, 5, 3)`,
`R_CheckPlane (A, 10, 50)` keeps the handle and gives the range `[10, 50]`. -/
theorem claimRange_merge_witness :
    (R_CheckPlane envW oneState 1000 10 50 2000).2 = 1000 ∧
    (deref (R_CheckPlane envW oneState 1000 10 50 2000).1 1000).minx = 10 ∧
    (deref (R_CheckPlane envW oneState 1000 10 50 2000).1 1000).maxx = 50 ∧
    liveCount (R_CheckPlane envW oneState 1000 10 50 2000).1 = 1 := by
  have h := claimRange_merge envW oneState 1000 10 50 2000
    (by intro x h1 h2
        have e1 : (deref oneState 1000).minx = 320 := rfl
        have e2 : (deref oneState 1000).maxx = -1 := rfl
        rw [e1] at h1; rw [e2] at h2
        omega)
    (by rintro ⟨_, h2, _⟩; exact Bool.noConfusion h2)
  exact ⟨h.1, h.2.2.1, h.2.2.2.1, h.2.2.2.2.1⟩

/-- C3 (ClaimRange split).  For every live entry `pl` and range `[start,
stop]`, if some column of the intersection `[max(minx, start), min(maxx,
stop)]` has a non-sentinel `top`, `R_CheckPlane` returns a new handle equal to
the old live count, the live count grows by exactly one, and the new entry has
the height, picnum and lightlevel of `pl`, `minx = start`, `maxx = stop` and
every `top[0 .. MAXWIDTH-1]` equal to the sentinel.  The state is arbitrary, so
this covers the calls that have to grow the registry. -/
theorem claimRange_split (env : Env) (st : PlaneState) (pl start stop nb : Int)
    (hlive : 0 ≤ handleOf st pl ∧ handleOf st pl < liveCount st)
    (hconf : ∃ x, max (deref st pl).minx start ≤ x ∧ x ≤ min (deref st pl).maxx stop ∧
      (deref st pl).top x ≠ UNCLAIMED) :
    handleOf (R_CheckPlane env st pl start stop nb).1 (R_CheckPlane env st pl start stop nb).2 =
      liveCount st ∧
    liveCount (R_CheckPlane env st pl start stop nb).1 = liveCount st + 1 ∧
    (deref (R_CheckPlane env st pl start stop nb).1
      (R_CheckPlane env st pl start stop nb).2).height = (deref st pl).height ∧
    (deref (R_CheckPlane env st pl start stop nb).1
      (R_CheckPlane env st pl start stop nb).2).picnum = (deref st pl).picnum ∧
    (deref (R_CheckPlane env st pl start stop nb).1
      (R_CheckPlane env st pl start stop nb).2).lightlevel = (deref st pl).lightlevel ∧
    (deref (R_CheckPlane env st pl start stop nb).1
      (R_CheckPlane env st pl start stop nb).2).minx = start ∧
    (deref (R_CheckPlane env st pl start stop nb).1
      (R_CheckPlane env st pl start stop nb).2).maxx = stop ∧
    ∀ i, 0 ≤ i → i < env.MAXWIDTH →
      (deref (R_CheckPlane env st pl start stop nb).1
        (R_CheckPlane env st pl start stop nb).2).top i = UNCLAIMED := by
  have hns : ¬ intersectionFree st pl start stop := by
    obtain ⟨x, h1, h2, h3⟩ := hconf
    exact fun hf => h3 (hf x h1 h2)
  obtain ⟨s1, s2, _, _, s5⟩ := R_CheckPlane_split env st pl start stop nb (Or.inl hns)
  have hd : deref (R_CheckPlane env st pl start stop nb).1
      (R_CheckPlane env st pl start stop nb).2 =
      (R_CheckPlane env st pl start stop nb).1.store (liveCount st) := by
    unfold deref; unfold handleOf at s1; rw [s1]
  have hp : (R_RaiseVisplanes st (some pl) nb).1.store (pl - st.visplanes) = deref st pl :=
    R_RaiseVisplanes_store st _ nb _ hlive.2
  rw [hd, s5, hp]
  refine ⟨s1, s2, rfl, rfl, rfl, rfl, rfl, ?_⟩
  intro i hi1 hi2
  simp [memsetTop, hi1, hi2, UNCLAIMED]

/-- Witness of C3: on the full registry (128 entries, capacity 128) the claim
of `[5, 20]` on entry 3, whose columns `0 .. 10` are taken, appends entry 128
with the identity of entry 3, and the capacity becomes 256. -/
theorem claimRange_split_witness :
    handleOf (R_CheckPlane envW fullState 1003 5 20 5000).1
      (R_CheckPlane envW fullState 1003 5 20 5000).2 = 128 ∧
    liveCount (R_CheckPlane envW fullState 1003 5 20 5000).1 = 129 ∧
    (deref (R_CheckPlane envW fullState 1003 5 20 5000).1
      (R_CheckPlane envW fullState 1003 5 20 5000).2).height = 3 ∧
    (deref (R_CheckPlane envW fullState 1003 5 20 5000).1
      (R_CheckPlane envW fullState 1003 5 20 5000).2).minx = 5 ∧
    (deref (R_CheckPlane envW fullState 1003 5 20 5000).1
      (R_CheckPlane envW fullState 1003 5 20 5000).2).maxx = 20 ∧
    (R_CheckPlane envW fullState 1003 5 20 5000).1.numvisplanes = 256 := by
  have h := claimRange_split envW fullState 1003 5 20 5000
    (by decide) ⟨5, by decide, by decide, by decide⟩
  exact ⟨h.1, h.2.1, h.2.2.1, h.2.2.2.2.2.1, h.2.2.2.2.2.2.1, rfl⟩

/-- C4 (FindOrCreate hit).  For every registry state and triple, if some live
entry equals the triple after sky canonicalisation, `R_FindPlane` leaves the
whole state unchanged and returns a live entry that holds the canonical triple
and has the lowest index among the live entries that do. -/
theorem findOrCreate_hit (env : Env) (st : PlaneState) (height picnum lightlevel nb : Int)
    (hex : ∃ i, 0 ≤ i ∧ i < liveCount st ∧
      samePlane (canonHeight env picnum height) picnum (canonLight env picnum lightlevel)
        (st.store i) = true) :
    (R_FindPlane env st height picnum lightlevel nb).1 = st ∧
    0 ≤ handleOf st (R_FindPlane env st height picnum lightlevel nb).2 ∧
    handleOf st (R_FindPlane env st height picnum lightlevel nb).2 < liveCount st ∧
    tripleOf (deref st (R_FindPlane env st height picnum lightlevel nb).2) =
      (canonHeight env picnum height, picnum, canonLight env picnum lightlevel) ∧
    ∀ j, 0 ≤ j → j < handleOf st (R_FindPlane env st height picnum lightlevel nb).2 →
      tripleOf (st.store j) ≠
        (canonHeight env picnum height, picnum, canonLight env picnum lightlevel) := by
  rcases firstMatch_or_noMatch st (canonHeight env picnum height) picnum
    (canonLight env picnum lightlevel) with ⟨i, hi⟩ | hno
  · rw [R_FindPlane_hit env st height picnum lightlevel nb i hi]
    obtain ⟨f1, f2, f3, f4⟩ := hi
    have e : handleOf st (st.visplanes + i) = i := by simp [handleOf]
    simp only [e, deref, add_sub_cancel_left]
    refine ⟨trivial, f1, f2, (samePlane_iff _ _ _ _).mp f3, ?_⟩
    intro j hj1 hj2 hj3
    have := f4 j hj1 hj2
    rw [(samePlane_iff _ _ _ _).mpr hj3] at this
    exact Bool.noConfusion this
  · obtain ⟨i, h1, h2, h3⟩ := hex
    have := hno i h1 h2
    rw [h3] at this
    exact Bool.noConfusion this

/-- Witness of C4: in the full registry the entries 0 .. 127 have the heights
0 .. 127; `R_FindPlane (7, 5, 3)` returns entry 7 and changes nothing. -/
theorem findOrCreate_hit_witness :
    (R_FindPlane envW fullState 7 5 3 5000).1 = fullState ∧
    handleOf fullState (R_FindPlane envW fullState 7 5 3 5000).2 = 7 := by
  have h := findOrCreate_hit envW fullState 7 5 3 5000 ⟨7, by decide, by decide, by decide⟩
  exact ⟨h.1, by decide⟩


/-- C5 as stated fails: with a view narrower than the screen (`viewwidth =
160`, `SCREENWIDTH = 320`) the entry that `R_FindPlane (0, 5, 3)` appends to
the empty registry has `minx = 320`, which is not `viewwidth`. -/
theorem findOrCreate_miss_viewwidth_counterexample :
    noMatch initialState (canonHeight envSmall 5 0) 5 (canonLight envSmall 5 3) ∧
    (deref (R_FindPlane envSmall initialState 0 5 3 1000).1
      (R_FindPlane envSmall initialState 0 5 3 1000).2).minx = 320 ∧
    envSmall.viewwidth = 160 ∧
    (deref (R_FindPlane envSmall initialState 0 5 3 1000).1
      (R_FindPlane envSmall initialState 0 5 3 1000).2).minx ≠ envSmall.viewwidth :=
  ⟨fun j h1 h2 => absurd h2 (by
      have : liveCount initialState = 0 := rfl
      omega), rfl, rfl, by decide⟩

/-- C5, amended (FindOrCreate miss).  For every registry state and triple with
no matching live entry, `R_FindPlane` returns a handle equal to the old live
count, increases the live count by exactly one, and the new entry holds the
canonical triple with `minx = SCREENWIDTH`, `maxx = -1` and every
`top[0 .. MAXWIDTH-1]` equal to the sentinel. -/
theorem findOrCreate_miss (env : Env) (st : PlaneState) (height picnum lightlevel nb : Int)
    (h0 : 0 ≤ liveCount st)
    (hno : noMatch st (canonHeight env picnum height) picnum
      (canonLight env picnum lightlevel)) :
    handleOf (R_FindPlane env st height picnum lightlevel nb).1
      (R_FindPlane env st height picnum lightlevel nb).2 = liveCount st ∧
    liveCount (R_FindPlane env st height picnum lightlevel nb).1 = liveCount st + 1 ∧
    tripleOf (deref (R_FindPlane env st height picnum lightlevel nb).1
      (R_FindPlane env st height picnum lightlevel nb).2) =
      (canonHeight env picnum height, picnum, canonLight env picnum lightlevel) ∧
    (deref (R_FindPlane env st height picnum lightlevel nb).1
      (R_FindPlane env st height picnum lightlevel nb).2).minx = env.SCREENWIDTH ∧
    (deref (R_FindPlane env st height picnum lightlevel nb).1
      (R_FindPlane env st height picnum lightlevel nb).2).maxx = -1 ∧
    ∀ i, 0 ≤ i → i < env.MAXWIDTH →
      (deref (R_FindPlane env st height picnum lightlevel nb).1
        (R_FindPlane env st height picnum lightlevel nb).2).top i = UNCLAIMED := by
  obtain ⟨m1, m2, _, _, m5⟩ := R_FindPlane_miss env st height picnum lightlevel nb h0 hno
  have hd : deref (R_FindPlane env st height picnum lightlevel nb).1
      (R_FindPlane env st height picnum lightlevel nb).2 =
      (R_FindPlane env st height picnum lightlevel nb).1.store (liveCount st) := by
    unfold deref; unfold handleOf at m1; rw [m1]
  rw [hd, m5]
  refine ⟨m1, m2, rfl, rfl, rfl, ?_⟩
  intro i hi1 hi2
  simp [memsetTop, hi1, hi2, UNCLAIMED]

/-- Witness of C5 (amended): with `SCREENWIDTH = 320`, `R_FindPlane (0, 5, 3)`
on the empty registry yields handle 0 with `minx = 320`, `maxx = -1`. -/
theorem findOrCreate_miss_witness :
    handleOf (R_FindPlane envW initialState 0 5 3 1000).1
      (R_FindPlane envW initialState 0 5 3 1000).2 = 0 ∧
    (deref (R_FindPlane envW initialState 0 5 3 1000).1
      (R_FindPlane envW initialState 0 5 3 1000).2).minx = 320 ∧
    (deref (R_FindPlane envW initialState 0 5 3 1000).1
      (R_FindPlane envW initialState 0 5 3 1000).2).maxx = -1 := by
  have h := findOrCreate_miss envW initialState 0 5 3 1000 (by decide)
    (fun j h1 h2 => absurd h2 (by
      have : liveCount initialState = 0 := rfl
      omega))
  exact ⟨h.1, h.2.2.2.1, h.2.2.2.2.1⟩

/-- C7 (sky canonicalisation).  For every `h1`, `l1`, `h2`, `l2` and every
picnum that is the sky flat id or carries `PL_SKYFLAT`, `R_FindPlane (h1,
picnum, l1)` followed by `R_FindPlane (h2, picnum, l2)` returns the same
handle, and the entry returned has height 0 and lightlevel 0. -/
theorem sky_canonicalisation (env : Env) (st : PlaneState)
    (h1 l1 h2 l2 picnum nb1 nb2 : Int) (h0 : 0 ≤ liveCount st)
    (hsky : isSky env picnum = true) :
    handleOf (R_FindPlane env (R_FindPlane env st h1 picnum l1 nb1).1 h2 picnum l2 nb2).1
        (R_FindPlane env (R_FindPlane env st h1 picnum l1 nb1).1 h2 picnum l2 nb2).2 =
      handleOf (R_FindPlane env st h1 picnum l1 nb1).1 (R_FindPlane env st h1 picnum l1 nb1).2 ∧
    (deref (R_FindPlane env st h1 picnum l1 nb1).1
      (R_FindPlane env st h1 picnum l1 nb1).2).height = 0 ∧
    (deref (R_FindPlane env st h1 picnum l1 nb1).1
      (R_FindPlane env st h1 picnum l1 nb1).2).lightlevel = 0 ∧
    (deref (R_FindPlane env (R_FindPlane env st h1 picnum l1 nb1).1 h2 picnum l2 nb2).1
      (R_FindPlane env (R_FindPlane env st h1 picnum l1 nb1).1 h2 picnum l2 nb2).2).height = 0 ∧
    (deref (R_FindPlane env (R_FindPlane env st h1 picnum l1 nb1).1 h2 picnum l2 nb2).1
      (R_FindPlane env (R_FindPlane env st h1 picnum l1 nb1).1 h2 picnum l2 nb2).2).lightlevel
      = 0 := by
  have f1 := R_FindPlane_firstMatch env st h1 picnum l1 nb1 h0
  have e1 : canonHeight env picnum h1 = 0 := by simp [canonHeight, hsky]
  have e2 : canonLight env picnum l1 = 0 := by simp [canonLight, hsky]
  have e3 : canonHeight env picnum h2 = 0 := by simp [canonHeight, hsky]
  have e4 : canonLight env picnum l2 = 0 := by simp [canonLight, hsky]
  rw [e1, e2] at f1
  have f2 : firstMatch (R_FindPlane env st h1 picnum l1 nb1).1 (canonHeight env picnum h2)
      picnum (canonLight env picnum l2)
      (handleOf (R_FindPlane env st h1 picnum l1 nb1).1
        (R_FindPlane env st h1 picnum l1 nb1).2) := by
    rw [e3, e4]; exact f1
  have hit := R_FindPlane_hit env (R_FindPlane env st h1 picnum l1 nb1).1 h2 picnum l2 nb2 _ f2
  have t := (samePlane_iff _ _ _ _).mp f1.2.2.1
  simp only [tripleOf, Prod.mk.injEq] at t
  rw [hit]
  simp only [handleOf, deref, add_sub_cancel_left] at t ⊢
  exact ⟨trivial, t.1, t.2.2, t.1, t.2.2⟩

/-- Witness of C7: with sky flat 7, `R_FindPlane (9, 7, 3)` then `R_FindPlane
(4, 7, 1)` on the empty registry both return handle 0. -/
theorem sky_canonicalisation_witness :
    handleOf (R_FindPlane envW (R_FindPlane envW initialState 9 7 3 1000).1 4 7 1 2000).1
        (R_FindPlane envW (R_FindPlane envW initialState 9 7 3 1000).1 4 7 1 2000).2 =
      handleOf (R_FindPlane envW initialState 9 7 3 1000).1
        (R_FindPlane envW initialState 9 7 3 1000).2 ∧
    (deref (R_FindPlane envW initialState 9 7 3 1000).1
      (R_FindPlane envW initialState 9 7 3 1000).2).height = 0 :=
  have h := sky_canonicalisation envW initialState 9 3 4 1 7 1000 2000 (by decide) (by decide)
  ⟨h.1, h.2.1⟩

/-- C8 (growth preserves identity).  Whenever `R_RaiseVisplanes` grows the
registry (the live count equals the capacity), the live count is unchanged,
every previously live entry is unchanged as a whole (height, picnum,
lightlevel, minx, maxx, `top[]` and `bottom[]`), and the floor handle, the
ceiling handle and the handle passed as argument keep their index although the
block has moved to the new address. -/
theorem growth_preserves_identity (st : PlaneState) (p nb : Int)
    (hgrow : liveCount st = st.numvisplanes) :
    (R_RaiseVisplanes st (some p) nb).1.visplanes = nb ∧
    liveCount (R_RaiseVisplanes st (some p) nb).1 = liveCount st ∧
    (∀ i, 0 ≤ i → i < liveCount st →
      (R_RaiseVisplanes st (some p) nb).1.store i = st.store i) ∧
    handleOf (R_RaiseVisplanes st (some p) nb).1 (R_RaiseVisplanes st (some p) nb).1.floorplane =
      handleOf st st.floorplane ∧
    handleOf (R_RaiseVisplanes st (some p) nb).1
      (R_RaiseVisplanes st (some p) nb).1.ceilingplane = handleOf st st.ceilingplane ∧
    ∃ q, (R_RaiseVisplanes st (some p) nb).2 = some q ∧
      handleOf (R_RaiseVisplanes st (some p) nb).1 q = handleOf st p := by
  have hf := R_RaiseVisplanes_flags st (some p) nb
  refine ⟨?_, R_RaiseVisplanes_liveCount st _ nb,
    fun i _ hi => R_RaiseVisplanes_store st _ nb i hi, hf.2.1, hf.2.2,
    R_RaiseVisplanes_ptr st p nb⟩
  unfold liveCount at hgrow
  unfold R_RaiseVisplanes
  rw [if_pos hgrow]

/-- Witness of C8: growing the full registry (128 entries at address 1000)
into a block at address 5000 keeps entry 3 and the handles 3 and 4 of the
floor and ceiling planes. -/
theorem growth_preserves_identity_witness :
    (R_RaiseVisplanes fullState (some 1007) 5000).1.visplanes = 5000 ∧
    liveCount (R_RaiseVisplanes fullState (some 1007) 5000).1 = 128 ∧
    (R_RaiseVisplanes fullState (some 1007) 5000).1.store 3 = fullState.store 3 ∧
    (R_RaiseVisplanes fullState (some 1007) 5000).1.floorplane = 5003 ∧
    (R_RaiseVisplanes fullState (some 1007) 5000).2 = some 5007 := by
  have h := growth_preserves_identity fullState 1007 5000 (by decide)
  exact ⟨h.1, h.2.1, h.2.2.1 3 (by decide) (by decide), rfl, rfl⟩


/-! ## Sequences of calls -/

theorem R_RaiseVisplanes_numvisplanes (st : PlaneState) (vp : Option Int) (nb : Int) :
    (R_RaiseVisplanes st vp nb).1.numvisplanes =
      if liveCount st = st.numvisplanes then
        (if st.numvisplanes = 0 then 128 else 2 * st.numvisplanes)
      else st.numvisplanes := by
  unfold R_RaiseVisplanes liveCount
  by_cases h : st.lastvisplane - st.visplanes = st.numvisplanes
  · rw [if_pos h, if_pos h]
    simp only [MAXVISPLANES, ne_eq, ite_not]
  · rw [if_neg h, if_neg h]

theorem R_ClearPlanes_counts (env : Env) (st : PlaneState) :
    liveCount (R_ClearPlanes env st) = 0 ∧
    (R_ClearPlanes env st).numvisplanes = st.numvisplanes := by
  simp [R_ClearPlanes, liveCount]

/-- Effect of one call on the live count and on the capacity. -/
theorem apply_counts (env : Env) (st : PlaneState) (c : PlaneCall) (h0 : 0 ≤ liveCount st) :
    (c.isClear = true ∧ liveCount (c.apply env st) = 0 ∧
      (c.apply env st).numvisplanes = st.numvisplanes) ∨
    (c.isClear = false ∧ liveCount (c.apply env st) = liveCount st ∧
      (c.apply env st).numvisplanes = st.numvisplanes) ∨
    (c.isClear = false ∧ liveCount (c.apply env st) = liveCount st + 1 ∧
      (c.apply env st).numvisplanes =
        if liveCount st = st.numvisplanes then
          (if st.numvisplanes = 0 then 128 else 2 * st.numvisplanes)
        else st.numvisplanes) := by
  cases c with
  | clear =>
    left
    exact ⟨rfl, R_ClearPlanes_counts env st⟩
  | find height picnum lightlevel nb =>
    right
    simp only [PlaneCall.apply]
    rcases firstMatch_or_noMatch st (canonHeight env picnum height) picnum
      (canonLight env picnum lightlevel) with ⟨i, hi⟩ | hno
    · left
      rw [R_FindPlane_hit env st height picnum lightlevel nb i hi]
      exact ⟨rfl, rfl, rfl⟩
    · right
      obtain ⟨_, m2, m3, _, _⟩ := R_FindPlane_miss env st height picnum lightlevel nb h0 hno
      rw [R_RaiseVisplanes_numvisplanes] at m3
      exact ⟨rfl, m2, m3⟩
  | check h start stop nb =>
    right
    simp only [PlaneCall.apply]
    rcases R_CheckPlane_merge_or_split st (st.visplanes + h) start stop with ⟨m1, m2⟩ | hs
    · left
      rw [R_CheckPlane_merge env st _ start stop nb m1 m2]
      exact ⟨rfl, rfl, rfl⟩
    · right
      obtain ⟨_, s2, s3, _, _⟩ := R_CheckPlane_split env st _ start stop nb hs
      rw [R_RaiseVisplanes_numvisplanes] at s3
      exact ⟨rfl, s2, s3⟩

theorem apply_RegistryOk (env : Env) (st : PlaneState) (c : PlaneCall) (h : RegistryOk st) :
    RegistryOk (c.apply env st) ∧ st.numvisplanes ≤ (c.apply env st).numvisplanes := by
  obtain ⟨h0, h1, h2⟩ := h
  unfold RegistryOk
  rcases apply_counts env st c h0 with ⟨_, a1, a2⟩ | ⟨_, a1, a2⟩ | ⟨_, a1, a2⟩
  · rw [a1, a2]; exact ⟨⟨le_refl _, by omega, h2⟩, le_refl _⟩
  · rw [a1, a2]; exact ⟨⟨h0, h1, h2⟩, le_refl _⟩
  · rw [a1, a2]
    by_cases hc : liveCount st = st.numvisplanes
    · rw [if_pos hc]
      rcases h2 with h2 | ⟨k, hk⟩
      · rw [if_pos h2]
        exact ⟨⟨by omega, by omega, Or.inr ⟨0, by norm_num⟩⟩, by omega⟩
      · have hpos : (0 : Int) < 128 * 2 ^ k := by positivity
        rw [if_neg (by omega)]
        refine ⟨⟨by omega, by omega, Or.inr ⟨k + 1, ?_⟩⟩, by omega⟩
        rw [hk, pow_succ]; ring
    · rw [if_neg hc]
      exact ⟨⟨by omega, by omega, h2⟩, le_refl _⟩

theorem runCalls_RegistryOk (env : Env) (calls : List PlaneCall) :
    ∀ st, RegistryOk st →
      RegistryOk (runCalls env st calls) ∧
        st.numvisplanes ≤ (runCalls env st calls).numvisplanes := by
  induction calls with
  | nil => intro st h; exact ⟨h, le_refl _⟩
  | cons c cs ih =>
    intro st h
    have h1 := apply_RegistryOk env st c h
    have h2 := ih (c.apply env st) h1.1
    simp only [runCalls, List.foldl_cons] at h2 ⊢
    exact ⟨h2.1, le_trans h1.2 h2.2⟩

theorem initialState_RegistryOk : RegistryOk initialState :=
  ⟨by decide, by decide, Or.inl rfl⟩

theorem runCalls_append (env : Env) (st : PlaneState) (calls1 calls2 : List PlaneCall) :
    runCalls env st (calls1 ++ calls2) = runCalls env (runCalls env st calls1) calls2 := by
  simp [runCalls, List.foldl_append]

/-- C9 (growth policy).  `R_RaiseVisplanes` changes the capacity only when the
live count equals the capacity, and then the new capacity is 128 if the old one
was 0 and twice the old one otherwise; in every state reached from the initial
registry by calls of `R_ClearPlanes`, `R_FindPlane` and `R_CheckPlane` the
capacity is 0 or `128 * 2^k`, and further calls never decrease it. -/
theorem growth_policy (env : Env) :
    (∀ (st : PlaneState) (vp : Option Int) (nb : Int),
      (R_RaiseVisplanes st vp nb).1.numvisplanes =
        if liveCount st = st.numvisplanes then
          (if st.numvisplanes = 0 then 128 else 2 * st.numvisplanes)
        else st.numvisplanes) ∧
    (∀ calls : List PlaneCall,
      (runCalls env initialState calls).numvisplanes = 0 ∨
        ∃ k : Nat, (runCalls env initialState calls).numvisplanes = 128 * 2 ^ k) ∧
    (∀ calls1 calls2 : List PlaneCall,
      (runCalls env initialState calls1).numvisplanes ≤
        (runCalls env initialState (calls1 ++ calls2)).numvisplanes) := by
  refine ⟨R_RaiseVisplanes_numvisplanes, ?_, ?_⟩
  · intro calls
    exact (runCalls_RegistryOk env calls initialState initialState_RegistryOk).1.2.2
  · intro calls1 calls2
    rw [runCalls_append]
    exact (runCalls_RegistryOk env calls2 _
      (runCalls_RegistryOk env calls1 initialState initialState_RegistryOk).1).2

/-- C10 (no registry overflow).  In every state reached from the initial
(empty, capacity 0) registry by calls of `R_ClearPlanes`, `R_FindPlane` and
`R_CheckPlane`, the live count is between 0 and the capacity, so the "visplane
overflow" check of `R_DrawPlanes` does not fire; and a further `R_FindPlane` or
`R_CheckPlane` either appends nothing or appends at the index of the old live
count, which is strictly below the capacity the call leaves. -/
theorem no_registry_overflow (env : Env) (calls : List PlaneCall) :
    0 ≤ liveCount (runCalls env initialState calls) ∧
    liveCount (runCalls env initialState calls) ≤
      (runCalls env initialState calls).numvisplanes ∧
    R_DrawPlanes_overflow (runCalls env initialState calls) = false ∧
    (∀ height picnum lightlevel nb : Int,
      liveCount (R_FindPlane env (runCalls env initialState calls)
          height picnum lightlevel nb).1 = liveCount (runCalls env initialState calls) ∨
      (handleOf (R_FindPlane env (runCalls env initialState calls) height picnum lightlevel nb).1
          (R_FindPlane env (runCalls env initialState calls) height picnum lightlevel nb).2 =
          liveCount (runCalls env initialState calls) ∧
        liveCount (R_FindPlane env (runCalls env initialState calls)
          height picnum lightlevel nb).1 = liveCount (runCalls env initialState calls) + 1 ∧
        liveCount (runCalls env initialState calls) <
          (R_FindPlane env (runCalls env initialState calls)
            height picnum lightlevel nb).1.numvisplanes)) ∧
    (∀ pl start stop nb : Int,
      liveCount (R_CheckPlane env (runCalls env initialState calls) pl start stop nb).1 =
          liveCount (runCalls env initialState calls) ∨
      (handleOf (R_CheckPlane env (runCalls env initialState calls) pl start stop nb).1
          (R_CheckPlane env (runCalls env initialState calls) pl start stop nb).2 =
          liveCount (runCalls env initialState calls) ∧
        liveCount (R_CheckPlane env (runCalls env initialState calls) pl start stop nb).1 =
          liveCount (runCalls env initialState calls) + 1 ∧
        liveCount (runCalls env initialState calls) <
          (R_CheckPlane env (runCalls env initialState calls)
            pl start stop nb).1.numvisplanes)) := by
  obtain ⟨h0, h1, _⟩ := (runCalls_RegistryOk env calls initialState initialState_RegistryOk).1
  generalize runCalls env initialState calls = s at h0 h1
  refine ⟨h0, h1, ?_, ?_, ?_⟩
  · unfold liveCount at h1
    simp only [R_DrawPlanes_overflow, decide_eq_false_iff_not, not_lt]
    omega
  · intro height picnum lightlevel nb
    rcases firstMatch_or_noMatch s (canonHeight env picnum height) picnum
      (canonLight env picnum lightlevel) with ⟨i, hi⟩ | hno
    · left
      rw [R_FindPlane_hit env s height picnum lightlevel nb i hi]
    · right
      obtain ⟨m1, m2, m3, _, _⟩ := R_FindPlane_miss env s height picnum lightlevel nb h0 hno
      refine ⟨m1, m2, ?_⟩
      rw [m3]
      exact R_RaiseVisplanes_cap s _ nb h0 h1
  · intro pl start stop nb
    rcases R_CheckPlane_merge_or_split s pl start stop with ⟨m1, m2⟩ | hs
    · left
      rw [R_CheckPlane_merge env s pl start stop nb m1 m2]
      rfl
    · right
      obtain ⟨s1, s2, s3, _, _⟩ := R_CheckPlane_split env s pl start stop nb hs
      refine ⟨s1, s2, ?_⟩
      rw [s3]
      exact R_RaiseVisplanes_cap s _ nb h0 h1


/-- A call other than `R_ClearPlanes` keeps every live entry's identity and
does not lower the live count. -/
theorem apply_frame (env : Env) (st : PlaneState) (c : PlaneCall) (hc : c.isClear = false)
    (h0 : 0 ≤ liveCount st) :
    liveCount st ≤ liveCount (c.apply env st) ∧
    ∀ i, 0 ≤ i → i < liveCount st →
      tripleOf ((c.apply env st).store i) = tripleOf (st.store i) := by
  cases c with
  | clear => exact Bool.noConfusion hc
  | find height picnum lightlevel nb =>
    simp only [PlaneCall.apply]
    rcases firstMatch_or_noMatch st (canonHeight env picnum height) picnum
      (canonLight env picnum lightlevel) with ⟨i, hi⟩ | hno
    · rw [R_FindPlane_hit env st height picnum lightlevel nb i hi]
      exact ⟨le_refl _, fun _ _ _ => rfl⟩
    · obtain ⟨_, m2, _, m4, _⟩ := R_FindPlane_miss env st height picnum lightlevel nb h0 hno
      exact ⟨by omega, fun i _ hi => by rw [m4 i hi]⟩
  | check h start stop nb =>
    simp only [PlaneCall.apply]
    rcases R_CheckPlane_merge_or_split st (st.visplanes + h) start stop with ⟨m1, m2⟩ | hs
    · rw [R_CheckPlane_merge env st _ start stop nb m1 m2]
      refine ⟨le_refl _, fun i _ _ => ?_⟩
      simp only [assign, deref]
      split_ifs with hi
      · rw [hi]; rfl
      · rfl
    · obtain ⟨_, s2, _, s4, _⟩ := R_CheckPlane_split env st _ start stop nb hs
      exact ⟨by omega, fun i _ hi => by rw [s4 i hi]⟩

theorem firstMatch_apply (env : Env) (st : PlaneState) (c : PlaneCall)
    (hc : c.isClear = false) (h0 : 0 ≤ liveCount st) (height picnum lightlevel i : Int)
    (h : firstMatch st height picnum lightlevel i) :
    firstMatch (c.apply env st) height picnum lightlevel i := by
  obtain ⟨f1, f2⟩ := apply_frame env st c hc h0
  obtain ⟨g1, g2, g3, g4⟩ := h
  refine ⟨g1, by omega, ?_, ?_⟩
  · rw [samePlane_iff, f2 i g1 g2, ← samePlane_iff]; exact g3
  · intro j hj1 hj2
    have := g4 j hj1 hj2
    rw [Bool.eq_false_iff, ne_eq, samePlane_iff] at this ⊢
    rw [f2 j hj1 (by omega)]
    exact this

theorem firstMatch_runCalls (env : Env) (calls : List PlaneCall) (hin : inFrame calls = true) :
    ∀ st, 0 ≤ liveCount st →
      0 ≤ liveCount (runCalls env st calls) ∧
      ∀ height picnum lightlevel i, firstMatch st height picnum lightlevel i →
        firstMatch (runCalls env st calls) height picnum lightlevel i := by
  induction calls with
  | nil => intro st h0; exact ⟨h0, fun _ _ _ _ h => h⟩
  | cons c cs ih =>
    intro st h0
    simp only [inFrame, List.all_cons, Bool.and_eq_true, Bool.not_eq_true'] at hin
    have hcs : inFrame cs = true := hin.2
    have h1 := apply_frame env st c hin.1 h0
    obtain ⟨i1, i2⟩ := ih hcs (c.apply env st) (by omega)
    simp only [runCalls, List.foldl_cons] at i1 i2 ⊢
    exact ⟨i1, fun height picnum lightlevel i h =>
      i2 _ _ _ _ (firstMatch_apply env st c hin.1 h0 _ _ _ _ h)⟩

theorem distinctLive_apply (env : Env) (st : PlaneState) (c : PlaneCall) (cs : List PlaneCall)
    (hc : c.isClear = false) (hns : noSplit env st (c :: cs) = true)
    (h0 : 0 ≤ liveCount st) (hd : distinctLive st) :
    distinctLive (c.apply env st) := by
  cases c with
  | clear => exact Bool.noConfusion hc
  | find height picnum lightlevel nb =>
    simp only [PlaneCall.apply]
    rcases firstMatch_or_noMatch st (canonHeight env picnum height) picnum
      (canonLight env picnum lightlevel) with ⟨i, hi⟩ | hno
    · rw [R_FindPlane_hit env st height picnum lightlevel nb i hi]
      exact hd
    · obtain ⟨_, m2, _, m4, m5⟩ := R_FindPlane_miss env st height picnum lightlevel nb h0 hno
      intro i j hi hij hj
      rw [m2] at hj
      rw [m4 i (by omega)]
      by_cases hjc : j = liveCount st
      · rw [hjc, m5]
        intro heq
        have := hno i hi (by omega)
        rw [(samePlane_iff _ _ _ _).mpr heq] at this
        exact Bool.noConfusion this
      · rw [m4 j (by omega)]
        exact hd i j hi hij (by omega)
  | check h start stop nb =>
    simp only [noSplit, PlaneCall.apply, Bool.and_eq_true, decide_eq_true_eq] at hns
    simp only [PlaneCall.apply]
    rcases R_CheckPlane_merge_or_split st (st.visplanes + h) start stop with ⟨m1, m2⟩ | hs
    · have hf := apply_frame env st (.check h start stop nb) rfl h0
      simp only [PlaneCall.apply] at hf
      intro i j hi hij hj
      rw [hns.1] at hj
      rw [hf.2 i hi (by omega), hf.2 j (by omega) hj]
      exact hd i j hi hij hj
    · have := (R_CheckPlane_split env st _ start stop nb hs).2.1
      omega

theorem distinctLive_runCalls (env : Env) (calls : List PlaneCall) :
    ∀ st, inFrame calls = true → noSplit env st calls = true → 0 ≤ liveCount st →
      distinctLive st → distinctLive (runCalls env st calls) := by
  induction calls with
  | nil => intro st _ _ _ hd; exact hd
  | cons c cs ih =>
    intro st hin hns h0 hd
    simp only [inFrame, List.all_cons, Bool.and_eq_true, Bool.not_eq_true'] at hin
    have h1 := distinctLive_apply env st c cs hin.1 hns h0 hd
    have h2 := (apply_frame env st c hin.1 h0).1
    have hns2 : noSplit env (c.apply env st) cs = true := by
      simp only [noSplit, Bool.and_eq_true] at hns
      exact hns.2
    have := ih (c.apply env st) hin.2 hns2 (by omega) h1
    simpa only [runCalls, List.foldl_cons] using this

/-- C6 (dedup invariant).  Within one frame, that is after `R_ClearPlanes` and
through any calls of `R_FindPlane` and `R_CheckPlane`, two `R_FindPlane` calls
whose triples are equal after sky canonicalisation return the same handle; and
as long as no `R_CheckPlane` call has taken the split branch, no two live
entries hold the same `(height, picnum, lightlevel)`. -/
theorem dedup_invariant (env : Env) (st : PlaneState) :
    (∀ (calls1 calls2 : List PlaneCall) (h1 p1 l1 nb1 h2 p2 l2 nb2 : Int),
      inFrame calls1 = true → inFrame calls2 = true →
      (canonHeight env p1 h1, p1, canonLight env p1 l1) =
        (canonHeight env p2 h2, p2, canonLight env p2 l2) →
      handleOf
          (R_FindPlane env (runCalls env
            (R_FindPlane env (runCalls env (R_ClearPlanes env st) calls1) h1 p1 l1 nb1).1
            calls2) h2 p2 l2 nb2).1
          (R_FindPlane env (runCalls env
            (R_FindPlane env (runCalls env (R_ClearPlanes env st) calls1) h1 p1 l1 nb1).1
            calls2) h2 p2 l2 nb2).2 =
        handleOf
          (R_FindPlane env (runCalls env (R_ClearPlanes env st) calls1) h1 p1 l1 nb1).1
          (R_FindPlane env (runCalls env (R_ClearPlanes env st) calls1) h1 p1 l1 nb1).2) ∧
    (∀ calls : List PlaneCall,
      inFrame calls = true → noSplit env (R_ClearPlanes env st) calls = true →
      ∀ i j, 0 ≤ i → i < j → j < liveCount (runCalls env (R_ClearPlanes env st) calls) →
        tripleOf ((runCalls env (R_ClearPlanes env st) calls).store i) ≠
          tripleOf ((runCalls env (R_ClearPlanes env st) calls).store j)) := by
  have hc0 : liveCount (R_ClearPlanes env st) = 0 := (R_ClearPlanes_counts env st).1
  constructor
  · intro calls1 calls2 h1 p1 l1 nb1 h2 p2 l2 nb2 hin1 hin2 hcanon
    simp only [Prod.mk.injEq] at hcanon
    obtain ⟨e1, e2, e3⟩ := hcanon
    subst e2
    have a0 := (firstMatch_runCalls env calls1 hin1 (R_ClearPlanes env st) (by omega)).1
    generalize runCalls env (R_ClearPlanes env st) calls1 = s1 at a0 ⊢
    have f1 := R_FindPlane_firstMatch env s1 h1 p1 l1 nb1 a0
    have a1 : 0 ≤ liveCount (R_FindPlane env s1 h1 p1 l1 nb1).1 := by
      have := f1.1; have := f1.2.1; omega
    have f2 := (firstMatch_runCalls env calls2 hin2 _ a1).2 _ _ _ _ f1
    rw [e1, e3] at f2
    rw [R_FindPlane_hit env _ h2 p1 l2 nb2 _ f2]
    simp [handleOf]
  · intro calls hin hns
    exact distinctLive_runCalls env calls _ hin hns (by omega)
      (fun i j hi hij hj => by omega)

/-- Witness of C6: in one frame, `R_FindPlane (0, 5, 3)`, a merging
`R_CheckPlane` on it and a second `R_FindPlane (0, 5, 3)` give the same handle;
and after `R_FindPlane (0, 5, 3)`, that `R_CheckPlane` and `R_FindPlane (1, 5,
3)` the entries 0 and 1 hold different triples. -/
theorem dedup_invariant_witness :
    handleOf
        (R_FindPlane envW (runCalls envW
          (R_FindPlane envW (runCalls envW (R_ClearPlanes envW initialState) []) 0 5 3 1000).1
          [PlaneCall.check 0 10 50 2000]) 0 5 3 3000).1
        (R_FindPlane envW (runCalls envW
          (R_FindPlane envW (runCalls envW (R_ClearPlanes envW initialState) []) 0 5 3 1000).1
          [PlaneCall.check 0 10 50 2000]) 0 5 3 3000).2 =
      handleOf
        (R_FindPlane envW (runCalls envW (R_ClearPlanes envW initialState) []) 0 5 3 1000).1
        (R_FindPlane envW (runCalls envW (R_ClearPlanes envW initialState) []) 0 5 3 1000).2 ∧
    tripleOf ((runCalls envW (R_ClearPlanes envW initialState)
        [PlaneCall.find 0 5 3 1000, PlaneCall.check 0 10 50 2000,
          PlaneCall.find 1 5 3 3000]).store 0) ≠
      tripleOf ((runCalls envW (R_ClearPlanes envW initialState)
        [PlaneCall.find 0 5 3 1000, PlaneCall.check 0 10 50 2000,
          PlaneCall.find 1 5 3 3000]).store 1) :=
  ⟨(dedup_invariant envW initialState).1 [] [PlaneCall.check 0 10 50 2000]
      0 5 3 1000 0 5 3 3000 rfl rfl rfl,
    (dedup_invariant envW initialState).2
      [PlaneCall.find 0 5 3 1000, PlaneCall.check 0 10 50 2000, PlaneCall.find 1 5 3 3000]
      rfl (by decide) 0 1 (by decide) (by decide) (by decide)⟩


/-! ## Ranges of entries -/

/-- C11 as stated fails: on the full registry, entry 3 has the range
`[0, 10]` with every `top` taken; claiming `[5, 20]` overlaps it in `[5, 10]`
and gives a new entry with the range `[5, 20]`, while entry 3 keeps
`[0, 10]`: the two ranges share the column 5. -/
theorem claimRange_conflict_disjoint_counterexample :
    (∃ x, max (deref fullState 1003).minx 5 ≤ x ∧ x ≤ min (deref fullState 1003).maxx 20 ∧
      (deref fullState 1003).top x ≠ UNCLAIMED) ∧
    ¬ rangesDisjoint
      ((R_CheckPlane envW fullState 1003 5 20 5000).1.store 3)
      (deref (R_CheckPlane envW fullState 1003 5 20 5000).1
        (R_CheckPlane envW fullState 1003 5 20 5000).2) := by
  refine ⟨⟨5, by decide, by decide, by decide⟩, ?_⟩
  intro h
  exact h 5 (by decide)

/-- C11, amended (conflicting overlap).  When `R_CheckPlane` is called on a
live entry with a range whose overlap with the entry's `[minx, maxx]` holds a
column with a non-sentinel `top`, it returns a handle distinct from the
original; the original entry keeps its range, the new entry has exactly the
range `[start, stop]` and no taken column, and the two ranges have that
column of the overlap in common. -/
theorem claimRange_conflict (env : Env) (st : PlaneState) (pl start stop nb : Int)
    (hlive : 0 ≤ handleOf st pl ∧ handleOf st pl < liveCount st)
    (hconf : ∃ x, max (deref st pl).minx start ≤ x ∧ x ≤ min (deref st pl).maxx stop ∧
      (deref st pl).top x ≠ UNCLAIMED) :
    handleOf (R_CheckPlane env st pl start stop nb).1 (R_CheckPlane env st pl start stop nb).2 ≠
      handleOf st pl ∧
    (R_CheckPlane env st pl start stop nb).1.store (handleOf st pl) = deref st pl ∧
    (deref (R_CheckPlane env st pl start stop nb).1
      (R_CheckPlane env st pl start stop nb).2).minx = start ∧
    (deref (R_CheckPlane env st pl start stop nb).1
      (R_CheckPlane env st pl start stop nb).2).maxx = stop ∧
    (∀ i, 0 ≤ i → i < env.MAXWIDTH →
      (deref (R_CheckPlane env st pl start stop nb).1
        (R_CheckPlane env st pl start stop nb).2).top i = UNCLAIMED) ∧
    ¬ rangesDisjoint ((R_CheckPlane env st pl start stop nb).1.store (handleOf st pl))
      (deref (R_CheckPlane env st pl start stop nb).1
        (R_CheckPlane env st pl start stop nb).2) := by
  have hns : ¬ intersectionFree st pl start stop := by
    obtain ⟨x, h1, h2, h3⟩ := hconf
    exact fun hf => h3 (hf x h1 h2)
  obtain ⟨s1, _, _, s4, s5⟩ := R_CheckPlane_split env st pl start stop nb (Or.inl hns)
  have hd : deref (R_CheckPlane env st pl start stop nb).1
      (R_CheckPlane env st pl start stop nb).2 =
      (R_CheckPlane env st pl start stop nb).1.store (liveCount st) := by
    unfold deref; unfold handleOf at s1; rw [s1]
  have ho : (R_CheckPlane env st pl start stop nb).1.store (handleOf st pl) = deref st pl :=
    s4 _ hlive.2
  rw [hd, s5, ho]
  refine ⟨by rw [s1]; omega, rfl, rfl, rfl, ?_, ?_⟩
  · intro i hi1 hi2
    simp [memsetTop, hi1, hi2, UNCLAIMED]
  · obtain ⟨x, h1, h2, _⟩ := hconf
    intro h
    exact h x ⟨⟨by omega, by omega⟩, ⟨by simp only; omega, by simp only; omega⟩⟩

/-- Witness of C11 (amended): the call of the counterexample returns handle
128, not 3, with the range `[5, 20]`, and entry 3 is as before. -/
theorem claimRange_conflict_witness :
    handleOf (R_CheckPlane envW fullState 1003 5 20 5000).1
      (R_CheckPlane envW fullState 1003 5 20 5000).2 ≠ 3 ∧
    (R_CheckPlane envW fullState 1003 5 20 5000).1.store 3 = fullState.store 3 ∧
    (deref (R_CheckPlane envW fullState 1003 5 20 5000).1
      (R_CheckPlane envW fullState 1003 5 20 5000).2).minx = 5 ∧
    (deref (R_CheckPlane envW fullState 1003 5 20 5000).1
      (R_CheckPlane envW fullState 1003 5 20 5000).2).maxx = 20 := by
  have h := claimRange_conflict envW fullState 1003 5 20 5000
    (by decide) ⟨5, by decide, by decide, by decide⟩
  exact ⟨h.1, h.2.1, h.2.2.1, h.2.2.2.1⟩

/-- C12 as stated fails: the fresh entry is the floor plane and the ceiling
plane and `markceiling` is set; `R_CheckPlane (A, 10, 50)` does not return
that entry (handle 0) but appends a second one and returns handle 1. -/
theorem claimRange_samePlane_reuse_counterexample :
    samePlaneConfig samePlaneState 1000 ∧
    handleOf samePlaneState 1000 = 0 ∧
    handleOf (R_CheckPlane envW samePlaneState 1000 10 50 2000).1
      (R_CheckPlane envW samePlaneState 1000 10 50 2000).2 = 1 ∧
    liveCount samePlaneState = 1 ∧
    liveCount (R_CheckPlane envW samePlaneState 1000 10 50 2000).1 = 2 :=
  ⟨⟨rfl, rfl, rfl⟩, by decide, by decide, by decide, by decide⟩

/-- C12, amended (same-plane edge case).  When the entry passed to
`R_CheckPlane` is the floor plane, `markceiling` is set and the floor and
ceiling planes are the same entry, `R_CheckPlane` never reuses the entry: for
every range `[start, stop]` and every content of `top[]` it appends a new entry
with the identity of the one passed, the range `[start, stop]` and every
`top[0 .. MAXWIDTH-1]` equal to the sentinel, and returns the new handle (the
old live count). -/
theorem claimRange_samePlane (env : Env) (st : PlaneState) (pl start stop nb : Int)
    (hlive : 0 ≤ handleOf st pl ∧ handleOf st pl < liveCount st)
    (hcfg : pl = st.floorplane ∧ st.markceiling = true ∧ st.floorplane = st.ceilingplane) :
    handleOf (R_CheckPlane env st pl start stop nb).1 (R_CheckPlane env st pl start stop nb).2 =
      liveCount st ∧
    handleOf (R_CheckPlane env st pl start stop nb).1 (R_CheckPlane env st pl start stop nb).2 ≠
      handleOf st pl ∧
    liveCount (R_CheckPlane env st pl start stop nb).1 = liveCount st + 1 ∧
    tripleOf (deref (R_CheckPlane env st pl start stop nb).1
      (R_CheckPlane env st pl start stop nb).2) = tripleOf (deref st pl) ∧
    (deref (R_CheckPlane env st pl start stop nb).1
      (R_CheckPlane env st pl start stop nb).2).minx = start ∧
    (deref (R_CheckPlane env st pl start stop nb).1
      (R_CheckPlane env st pl start stop nb).2).maxx = stop ∧
    ∀ i, 0 ≤ i → i < env.MAXWIDTH →
      (deref (R_CheckPlane env st pl start stop nb).1
        (R_CheckPlane env st pl start stop nb).2).top i = UNCLAIMED := by
  obtain ⟨s1, s2, _, _, s5⟩ := R_CheckPlane_split env st pl start stop nb (Or.inr hcfg)
  have hd : deref (R_CheckPlane env st pl start stop nb).1
      (R_CheckPlane env st pl start stop nb).2 =
      (R_CheckPlane env st pl start stop nb).1.store (liveCount st) := by
    unfold deref; unfold handleOf at s1; rw [s1]
  have hp : (R_RaiseVisplanes st (some pl) nb).1.store (pl - st.visplanes) = deref st pl :=
    R_RaiseVisplanes_store st _ nb _ hlive.2
  rw [hd, s5, hp]
  refine ⟨s1, by rw [s1]; omega, s2, rfl, rfl, rfl, ?_⟩
  intro i hi1 hi2
  simp [memsetTop, hi1, hi2, UNCLAIMED]

/-- Witness of C12 (amended): the call of the counterexample returns handle
1 with the identity `(0, 5, 3)` and the range `[10, 50]`. -/
theorem claimRange_samePlane_witness :
    handleOf (R_CheckPlane envW samePlaneState 1000 10 50 2000).1
      (R_CheckPlane envW samePlaneState 1000 10 50 2000).2 = 1 ∧
    tripleOf (deref (R_CheckPlane envW samePlaneState 1000 10 50 2000).1
      (R_CheckPlane envW samePlaneState 1000 10 50 2000).2) = (0, 5, 3) ∧
    (deref (R_CheckPlane envW samePlaneState 1000 10 50 2000).1
      (R_CheckPlane envW samePlaneState 1000 10 50 2000).2).minx = 10 ∧
    (deref (R_CheckPlane envW samePlaneState 1000 10 50 2000).1
      (R_CheckPlane envW samePlaneState 1000 10 50 2000).2).maxx = 50 := by
  have h := claimRange_samePlane envW samePlaneState 1000 10 50 2000
    (by decide) ⟨rfl, rfl, rfl⟩
  exact ⟨h.1, h.2.2.2.1, h.2.2.2.2.1, h.2.2.2.2.2.1⟩

/-- C13 (range monotonicity).  For every `R_CheckPlane` call and every entry
that was live before the call, the range after the call satisfies `minx' <=
minx` and `maxx' >= maxx`, and the entry keeps its identity: a merge widens the
entry passed, a split leaves every live entry as it was. -/
theorem range_monotonicity (env : Env) (st : PlaneState) (pl start stop nb i : Int)
    (hi0 : 0 ≤ i) (hi1 : i < liveCount st) :
    ((R_CheckPlane env st pl start stop nb).1.store i).minx ≤ (st.store i).minx ∧
    (st.store i).maxx ≤ ((R_CheckPlane env st pl start stop nb).1.store i).maxx ∧
    tripleOf ((R_CheckPlane env st pl start stop nb).1.store i) = tripleOf (st.store i) := by
  have _ := hi0
  rcases R_CheckPlane_merge_or_split st pl start stop with ⟨m1, m2⟩ | hs
  · rw [R_CheckPlane_merge env st pl start stop nb m1 m2]
    simp only [assign, deref]
    split_ifs with h
    · subst h
      exact ⟨min_le_left _ _, le_max_left _ _, rfl⟩
    · exact ⟨le_refl _, le_refl _, rfl⟩
  · rw [(R_CheckPlane_split env st pl start stop nb hs).2.2.2.1 i hi1]
    exact ⟨le_refl _, le_refl _, rfl⟩

/-- Witness of C13: entry 3 of the full registry has the range `[0, 10]`;
after the call `R_CheckPlane (entry 3, 5, 20)` its range still contains
it. -/
theorem range_monotonicity_witness :
    ((R_CheckPlane envW fullState 1003 5 20 5000).1.store 3).minx ≤ 0 ∧
    10 ≤ ((R_CheckPlane envW fullState 1003 5 20 5000).1.store 3).maxx :=
  have h := range_monotonicity envW fullState 1003 5 20 5000 3 (by decide) (by decide)
  ⟨h.1, h.2.1⟩

/-- C14 (non-overlapping claims always merge).  For every entry and every
range `[start, stop]` whose intersection with `[minx, maxx]` is empty,
`R_CheckPlane`, outside the floor==ceiling configuration, returns the same
pointer (the same handle) and gives the entry the range `[min(minx, start),
max(maxx, stop)]`, whatever `top[]` holds; nothing is appended. -/
theorem claimRange_disjoint (env : Env) (st : PlaneState) (pl start stop nb : Int)
    (hempty : min (deref st pl).maxx stop < max (deref st pl).minx start)
    (hcfg : ¬ samePlaneConfig st pl) :
    (R_CheckPlane env st pl start stop nb).2 = pl ∧
    handleOf (R_CheckPlane env st pl start stop nb).1 (R_CheckPlane env st pl start stop nb).2 =
      handleOf st pl ∧
    (deref (R_CheckPlane env st pl start stop nb).1 pl).minx = min (deref st pl).minx start ∧
    (deref (R_CheckPlane env st pl start stop nb).1 pl).maxx = max (deref st pl).maxx stop ∧
    liveCount (R_CheckPlane env st pl start stop nb).1 = liveCount st := by
  have hfree : intersectionFree st pl start stop := fun x h1 h2 => by omega
  rw [R_CheckPlane_merge env st pl start stop nb hfree hcfg]
  refine ⟨rfl, rfl, ?_, ?_, rfl⟩
  · simp [deref, assign]
  · simp [deref, assign]

/-- Witness of C14: on the fresh entry `A` (range `minx = 320`, `maxx = -1`)
`R_CheckPlane (A, 10, 50)` gives `[10, 50]`, and then `R_CheckPlane (A, 60, 80)`
returns the same pointer with `[10, 80]`. -/
theorem claimRange_disjoint_witness :
    (R_CheckPlane envW oneState 1000 10 50 2000).2 = 1000 ∧
    (deref (R_CheckPlane envW oneState 1000 10 50 2000).1 1000).minx = 10 ∧
    (deref (R_CheckPlane envW oneState 1000 10 50 2000).1 1000).maxx = 50 ∧
    (R_CheckPlane envW (R_CheckPlane envW oneState 1000 10 50 2000).1 1000 60 80 3000).2 =
      1000 ∧
    (deref (R_CheckPlane envW (R_CheckPlane envW oneState 1000 10 50 2000).1
      1000 60 80 3000).1 1000).minx = 10 ∧
    (deref (R_CheckPlane envW (R_CheckPlane envW oneState 1000 10 50 2000).1
      1000 60 80 3000).1 1000).maxx = 80 := by
  have h1 := claimRange_disjoint envW oneState 1000 10 50 2000 (by decide)
    (by rintro ⟨_, h, _⟩; exact Bool.noConfusion h)
  have h2 := claimRange_disjoint envW (R_CheckPlane envW oneState 1000 10 50 2000).1
    1000 60 80 3000 (by decide) (by rintro ⟨_, h, _⟩; exact Bool.noConfusion h)
  exact ⟨h1.1, by decide, by decide, h2.1, by decide, by decide⟩

/-! ## Frame start -/

theorem R_ClearPlanes_loop_eq (viewheight : Int) :
    ∀ (k : Nat) (i : Int) (floorclip ceilingclip : Int → Int),
      R_ClearPlanes_loop viewheight k i floorclip ceilingclip =
        (fun j => if i ≤ j ∧ j < i + k then viewheight else floorclip j,
          fun j => if i ≤ j ∧ j < i + k then -1 else ceilingclip j) := by
  intro k
  induction k with
  | zero =>
    intro i fc cc
    simp only [R_ClearPlanes_loop, Prod.mk.injEq]
    constructor <;> (funext j; rw [if_neg (by push_cast; omega)])
  | succ k ih =>
    intro i fc cc
    simp only [R_ClearPlanes_loop, ih, Prod.mk.injEq]
    constructor <;> (funext j; push_cast; split_ifs <;> first | rfl | omega)

/-- C16 (BeginFrame clip reset).  After `R_ClearPlanes`, for every column `i`
with `0 <= i < viewwidth`, `floorclip[i] = viewheight` and `ceilingclip[i] =
-1`. -/
theorem clearPlanes_clip_reset (env : Env) (st : PlaneState) (i : Int)
    (h0 : 0 ≤ i) (h1 : i < env.viewwidth) :
    (R_ClearPlanes env st).floorclip i = env.viewheight ∧
    (R_ClearPlanes env st).ceilingclip i = -1 := by
  simp only [R_ClearPlanes, R_ClearPlanes_loop_eq]
  constructor <;> rw [if_pos (by omega)]

/-- Witness of C16: with `viewwidth = 320` and `viewheight = 200`, column 319
is reset to `floorclip = 200`, `ceilingclip = -1`. -/
theorem clearPlanes_clip_reset_witness :
    (R_ClearPlanes envW initialState).floorclip 319 = 200 ∧
    (R_ClearPlanes envW initialState).ceilingclip 319 = -1 :=
  clearPlanes_clip_reset envW initialState 319 (by decide) (by decide)

/-- C17 (BeginFrame registry reset).  For every registry state,
`R_ClearPlanes` sets the live count to 0 and leaves the capacity unchanged, and
a following `R_FindPlane (h, p, l)` matches no entry of the previous frame: it
returns handle 0 with live count 1 and a freshly initialised entry, which holds
the canonical triple, the empty range `minx = SCREENWIDTH`, `maxx = -1` and the
sentinel in every `top[0 .. MAXWIDTH-1]`, whatever the slot held before. -/
theorem clearPlanes_registry_reset (env : Env) (st : PlaneState)
    (height picnum lightlevel nb : Int) (hsw : 0 ≤ env.SCREENWIDTH) :
    liveCount (R_ClearPlanes env st) = 0 ∧
    (R_ClearPlanes env st).numvisplanes = st.numvisplanes ∧
    handleOf (R_FindPlane env (R_ClearPlanes env st) height picnum lightlevel nb).1
      (R_FindPlane env (R_ClearPlanes env st) height picnum lightlevel nb).2 = 0 ∧
    liveCount (R_FindPlane env (R_ClearPlanes env st) height picnum lightlevel nb).1 = 1 ∧
    tripleOf (deref (R_FindPlane env (R_ClearPlanes env st) height picnum lightlevel nb).1
      (R_FindPlane env (R_ClearPlanes env st) height picnum lightlevel nb).2) =
      (canonHeight env picnum height, picnum, canonLight env picnum lightlevel) ∧
    (deref (R_FindPlane env (R_ClearPlanes env st) height picnum lightlevel nb).1
      (R_FindPlane env (R_ClearPlanes env st) height picnum lightlevel nb).2).minx =
      env.SCREENWIDTH ∧
    (deref (R_FindPlane env (R_ClearPlanes env st) height picnum lightlevel nb).1
      (R_FindPlane env (R_ClearPlanes env st) height picnum lightlevel nb).2).maxx = -1 ∧
    (deref (R_FindPlane env (R_ClearPlanes env st) height picnum lightlevel nb).1
      (R_FindPlane env (R_ClearPlanes env st) height picnum lightlevel nb).2).maxx <
      (deref (R_FindPlane env (R_ClearPlanes env st) height picnum lightlevel nb).1
        (R_FindPlane env (R_ClearPlanes env st) height picnum lightlevel nb).2).minx ∧
    ∀ i, 0 ≤ i → i < env.MAXWIDTH →
      (deref (R_FindPlane env (R_ClearPlanes env st) height picnum lightlevel nb).1
        (R_FindPlane env (R_ClearPlanes env st) height picnum lightlevel nb).2).top i =
        UNCLAIMED := by
  obtain ⟨c1, c2⟩ := R_ClearPlanes_counts env st
  have hno : noMatch (R_ClearPlanes env st) (canonHeight env picnum height) picnum
      (canonLight env picnum lightlevel) := fun j h1 h2 => by omega
  obtain ⟨m1, m2, _, _, m5⟩ :=
    R_FindPlane_miss env (R_ClearPlanes env st) height picnum lightlevel nb (by omega) hno
  have hd : deref (R_FindPlane env (R_ClearPlanes env st) height picnum lightlevel nb).1
      (R_FindPlane env (R_ClearPlanes env st) height picnum lightlevel nb).2 =
      (R_FindPlane env (R_ClearPlanes env st) height picnum lightlevel nb).1.store
        (liveCount (R_ClearPlanes env st)) := by
    unfold deref; unfold handleOf at m1; rw [m1]
  rw [hd, m5]
  refine ⟨c1, c2, by rw [m1, c1], by rw [m2, c1]; rfl, rfl, rfl, rfl, ?_, ?_⟩
  · simp only; omega
  · intro i hi1 hi2
    simp [memsetTop, hi1, hi2, UNCLAIMED]

/-- Witness of C17: the full registry of the previous frame holds `(7, 5,
3)` in entry 7; after `R_ClearPlanes`, `R_FindPlane (7, 5, 3)` returns handle 0
with live count 1 and the range `minx = 320`, `maxx = -1`, and the capacity is
still 128. -/
theorem clearPlanes_registry_reset_witness :
    liveCount (R_ClearPlanes envW fullState) = 0 ∧
    (R_ClearPlanes envW fullState).numvisplanes = 128 ∧
    handleOf (R_FindPlane envW (R_ClearPlanes envW fullState) 7 5 3 5000).1
      (R_FindPlane envW (R_ClearPlanes envW fullState) 7 5 3 5000).2 = 0 ∧
    liveCount (R_FindPlane envW (R_ClearPlanes envW fullState) 7 5 3 5000).1 = 1 ∧
    (deref (R_FindPlane envW (R_ClearPlanes envW fullState) 7 5 3 5000).1
      (R_FindPlane envW (R_ClearPlanes envW fullState) 7 5 3 5000).2).minx = 320 := by
  have h := clearPlanes_registry_reset envW fullState 7 5 3 5000 (by decide)
  exact ⟨h.1, h.2.1, h.2.2.1, h.2.2.2.1, h.2.2.2.2.2.1⟩

/-! ## The row cache of `R_MapPlane` -/

/-- What one `R_MapPlane` call that returns does to the row cache: on the
centre row nothing at all; on any other row `spanfunc` is called, and the cache
entry of the row then holds `planeheight` and the geometry used, which is the
cached one if the entry held `planeheight` already; the other rows keep their
entries. -/
theorem R_MapPlane_cache (env : Env) (view : View) (planeheight : Int) (planezlight : Nat → Int)
    (st st1 : PlaneState) (y x1 x2 : Int) (d : Option SpanDraw)
    (h : R_MapPlane env view planeheight planezlight st y x1 x2 = .ok (st1, d)) :
    (view.centery = y → d = none ∧ st1 = st) ∧
    (view.centery ≠ y → ∃ dr, d = some dr ∧
      cacheRow st1 y = (planeheight, dr.distance, dr.ds_xstep, dr.ds_ystep) ∧
      (st.cachedheight y = planeheight →
        dr.geometry = (st.cacheddistance y, st.cachedxstep y, st.cachedystep y))) ∧
    (∀ r, r ≠ y → cacheRow st1 r = cacheRow st r) := by
  unfold R_MapPlane at h
  dsimp only at h
  by_cases hrc : (view.RANGECHECK && (decide (x2 < x1) || decide (x1 < 0) ||
      decide (x2 ≥ env.viewwidth) || decide (y > env.viewheight))) = true
  · rw [if_pos hrc] at h
    exact Except.noConfusion h
  rw [if_neg hrc] at h
  by_cases hdy : |view.centery - y| = 0
  · rw [if_pos hdy] at h
    have hc : view.centery = y := by
      have := abs_eq_zero.mp hdy
      omega
    simp only [Except.ok.injEq, Prod.mk.injEq] at h
    obtain ⟨rfl, rfl⟩ := h
    exact ⟨fun _ => ⟨rfl, rfl⟩, fun hne => absurd hc hne, fun _ _ => rfl⟩
  rw [if_neg hdy] at h
  have hc : view.centery ≠ y := by
    intro hc
    apply hdy
    rw [hc, sub_self, abs_zero]
  simp only [Except.ok.injEq, Prod.mk.injEq] at h
  obtain ⟨rfl, rfl⟩ := h
  by_cases hmiss : planeheight ≠ st.cachedheight y
  · simp only [if_pos hmiss]
    refine ⟨fun h0 => absurd h0 hc, fun _ => ⟨_, rfl, ?_, ?_⟩, ?_⟩
    · simp [cacheRow]
    · intro h1; exact absurd h1.symm hmiss
    · intro r hr
      simp [cacheRow, hr]
  · simp only [if_neg hmiss]
    have hh : planeheight = st.cachedheight y := not_not.mp hmiss
    refine ⟨fun h0 => absurd h0 hc, fun _ => ⟨_, rfl, ?_, ?_⟩, fun _ _ => trivial⟩
    · simp [cacheRow, hh]
    · intro _; rfl

theorem R_MapPlane_calls_cache (env : Env) (view : View) (y : Int) :
    ∀ (calls : List MapPlaneArgs) (st st1 : PlaneState) (ds : List (Option SpanDraw)),
      (∀ a ∈ calls, a.y ≠ y) → R_MapPlane_calls env view st calls = .ok (st1, ds) →
      cacheRow st1 y = cacheRow st y := by
  intro calls
  induction calls with
  | nil =>
    intro st st1 ds _ h
    simp only [R_MapPlane_calls, Except.ok.injEq, Prod.mk.injEq] at h
    rw [h.1]
  | cons a rest ih =>
    intro st st1 ds hrows h
    simp only [R_MapPlane_calls] at h
    split at h
    · exact Except.noConfusion h
    · rename_i st2 d heq
      split at h
      · exact Except.noConfusion h
      · rename_i st3 ds3 heq2
        simp only [Except.ok.injEq, Prod.mk.injEq] at h
        obtain ⟨rfl, _⟩ := h
        have h1 := (R_MapPlane_cache env view _ _ st st2 a.y a.x1 a.x2 d heq).2.2 y
          (fun hy => hrows a (List.mem_cons_self a rest) hy.symm)
        have h2 := ih st2 st3 ds3 (fun b hb => hrows b (List.mem_cons_of_mem a hb)) heq2
        rw [h2, h1]

/-- C15 (cache correctness).  Within one frame (one `view`), for every row
`y` and plane height `h`: if a `R_MapPlane` call with `planeheight = h` and row
`y`, then any `R_MapPlane` calls for other rows with any plane heights, then a
second call with `planeheight = h` and row `y` all return, the two calls use
the same `(distance, xstep, ystep)`; they use none on the centre row, where
`R_MapPlane` draws nothing. -/
theorem cache_correctness (env : Env) (view : View) (st s1 s2 s3 : PlaneState)
    (h y a1 a2 b1 b2 : Int) (pz1 pz2 : Nat → Int) (between : List MapPlaneArgs)
    (d1 d2 : Option SpanDraw) (ds : List (Option SpanDraw))
    (hrows : ∀ a ∈ between, a.y ≠ y)
    (hfirst : R_MapPlane env view h pz1 st y a1 a2 = .ok (s1, d1))
    (hbetween : R_MapPlane_calls env view s1 between = .ok (s2, ds))
    (hsecond : R_MapPlane env view h pz2 s2 y b1 b2 = .ok (s3, d2)) :
    d1.map SpanDraw.geometry = d2.map SpanDraw.geometry ∧
    (view.centery ≠ y → d1.isSome = true ∧ d2.isSome = true) := by
  obtain ⟨f1, f2, _⟩ := R_MapPlane_cache env view h pz1 st s1 y a1 a2 d1 hfirst
  obtain ⟨g1, g2, _⟩ := R_MapPlane_cache env view h pz2 s2 s3 y b1 b2 d2 hsecond
  have hk := R_MapPlane_calls_cache env view y between s1 s2 ds hrows hbetween
  by_cases hc : view.centery = y
  · rw [(f1 hc).1, (g1 hc).1]
    exact ⟨rfl, fun hne => absurd hc hne⟩
  · obtain ⟨dr1, e1, c1, _⟩ := f2 hc
    obtain ⟨dr2, e2, _, c2⟩ := g2 hc
    rw [c1] at hk
    simp only [cacheRow, Prod.mk.injEq] at hk
    have := c2 hk.1
    rw [hk.2.1, hk.2.2.1, hk.2.2.2] at this
    rw [e1, e2]
    exact ⟨by simp only [Option.map_some', this]; rfl, fun _ => ⟨rfl, rfl⟩⟩

/-- Witness of C15: in the witness view, `R_MapPlane (150, 10, 80)` with
plane height 41.0, then calls for the rows 151 and 149 with other heights, then
`R_MapPlane (150, 90, 95)` with plane height 41.0 again: both calls on row 150
use `distance = 8598315`, `xstep = 0`, `ystep = 53739`. -/
theorem cache_correctness_witness :
    ∃ s1 d1 s2 ds s3 d2,
      R_MapPlane envW viewW 2686976 (viewW.cm_zlight 3) initialState 150 10 80 = .ok (s1, d1) ∧
      R_MapPlane_calls envW viewW s1
        [⟨327680, viewW.cm_zlight 3, 151, 10, 80⟩, ⟨65536, viewW.cm_zlight 5, 149, 20, 30⟩] =
        .ok (s2, ds) ∧
      R_MapPlane envW viewW 2686976 (viewW.cm_zlight 4) s2 150 90 95 = .ok (s3, d2) ∧
      d1.map SpanDraw.geometry = d2.map SpanDraw.geometry ∧
      d1.map SpanDraw.geometry = some (8598315, 0, 53739) :=
  ⟨_, _, _, _, _, _, rfl, rfl, rfl,
    (cache_correctness envW viewW initialState _ _ _ 2686976 150 10 80 90 95
      (viewW.cm_zlight 3) (viewW.cm_zlight 4)
      [⟨327680, viewW.cm_zlight 3, 151, 10, 80⟩, ⟨65536, viewW.cm_zlight 5, 149, 20, 30⟩]
      _ _ _ (by decide) rfl rfl rfl).1, by decide⟩

/-! ## Maximal runs -/

/-- Every call of the sweep from column `x` on is a run of its row that
cannot be extended: the row is inside the interval of each of its columns and
outside the intervals of the columns next to its ends. -/
theorem R_DrawPlanes_loop_runs (T B : Int → Nat) (stop lo : Int) (fuel : Nat) :
    ∀ n x (ss : Nat → Int), lo ≤ x → x ≤ stop + 1 → (stop + 1 - x).toNat ≤ n →
      (∀ c, x - 1 ≤ c → c ≤ stop → T c < 2 ^ 32 ∧ B c < 2 ^ 31 ∧ B c + 1 < fuel) →
      (∀ r, T (x - 1) ≤ r → r ≤ B (x - 1) →
        lo ≤ ss r ∧ ss r ≤ x - 1 ∧ (∀ c, ss r ≤ c → c ≤ x - 1 → T c ≤ r ∧ r ≤ B c) ∧
          ¬(T (ss r - 1) ≤ r ∧ r ≤ B (ss r - 1))) →
      ∀ ss1 calls, R_DrawPlanes_loop T B stop fuel n x ss = some (ss1, calls) →
        ∀ s ∈ calls, ∃ r : Nat, s.y = r ∧ lo ≤ s.x1 ∧ s.x1 ≤ s.x2 ∧ s.x2 < stop ∧
          (∀ c, s.x1 ≤ c → c ≤ s.x2 → T c ≤ r ∧ r ≤ B c) ∧
          ¬(T (s.x1 - 1) ≤ r ∧ r ≤ B (s.x1 - 1)) ∧
          ¬(T (s.x2 + 1) ≤ r ∧ r ≤ B (s.x2 + 1)) := by
  intro n
  induction n with
  | zero =>
    intro x ss _ _ _ _ _ ss1 calls h s hs
    simp only [R_DrawPlanes_loop, Option.some.injEq, Prod.mk.injEq] at h
    rw [← h.2] at hs
    exact absurd hs (List.not_mem_nil s)
  | succ n ih =>
    intro x ss hlo hx hn hbd hinv ss1 calls h s hs
    unfold R_DrawPlanes_loop at h
    by_cases hc : x ≤ stop
    · have b0 := hbd (x - 1) (le_refl _) (by omega)
      have b1 := hbd x (by omega) hc
      rw [if_pos hc, R_MakeSpans_eq fuel x _ _ _ _ ss b0.1 (by omega) b1.1 (by omega)
        (by omega) (by omega)] at h
      simp only at h
      cases hrest : R_DrawPlanes_loop T B stop fuel n (x + 1)
        (fun r => if T x ≤ r ∧ r ≤ B x ∧ ¬(T (x - 1) ≤ r ∧ r ≤ B (x - 1)) then x else ss r) with
      | none => rw [hrest] at h; exact Option.noConfusion h
      | some res =>
        rw [hrest] at h
        simp only [Option.map_some', Option.some.injEq, Prod.mk.injEq] at h
        rw [← h.2] at hs
        rcases List.mem_append.mp hs with h1 | h1
        · obtain ⟨r, hr, rfl⟩ := List.mem_map.mp h1
          obtain ⟨r1, r2, r3⟩ := mem_flushRows hr
          obtain ⟨i1, i2, i3, i4⟩ := hinv r r1 r2
          have hr2 : r < 2 ^ 31 := by omega
          refine ⟨r, by simp only [mapCall, toInt32, if_pos hr2], i1, ?_, ?_, ?_, i4, ?_⟩
          · simp only [mapCall]; exact i2
          · simp only [mapCall]; omega
          · simp only [mapCall]; exact i3
          · simp only [mapCall, sub_add_cancel]; exact r3
        · refine ih (x + 1) _ (by omega) (by omega) (by omega)
            (fun c h1 h2 => hbd c (by omega) h2) ?_ res.1 res.2 hrest s h1
          intro r h3 h4
          simp only [add_sub_cancel_right] at h3 h4 ⊢
          by_cases h5 : T (x - 1) ≤ r ∧ r ≤ B (x - 1)
          · obtain ⟨i1, i2, i3, i4⟩ := hinv r h5.1 h5.2
            rw [if_neg (by tauto)]
            refine ⟨i1, by omega, ?_, i4⟩
            intro c hc1 hc2
            by_cases hcx : c = x
            · subst hcx; exact ⟨h3, h4⟩
            · exact i3 c hc1 (by omega)
          · rw [if_pos ⟨h3, h4, h5⟩]
            refine ⟨hlo, le_refl _, ?_, h5⟩
            intro c hc1 hc2
            have : c = x := by omega
            subst this
            exact ⟨h3, h4⟩
    · rw [if_neg hc] at h
      simp only [Option.some.injEq, Prod.mk.injEq] at h
      rw [← h.2] at hs
      exact absurd hs (List.not_mem_nil s)

/-- C19 (maximal runs).  Under the preconditions of span completeness, the
sweep of `R_DrawPlanes` returns, every span `(row, x1, x2)` it dispatches is a
maximal run (`minx <= x1 <= x2 <= maxx`, the row is inside `[top[c],
bottom[c]]` for every column `c` of `[x1, x2]`, and not inside the interval of
column `x1-1` unless `x1 = minx`, nor of column `x2+1` unless `x2 = maxx`), and
every maximal run is dispatched exactly once. -/
theorem maximal_runs (env : Env) (pl : visplane_t) (spanstart : Nat → Int) (fuel : Nat)
    (hsky : isSky env pl.picnum = false)
    (h0 : 0 ≤ pl.minx) (hmm : pl.minx ≤ pl.maxx)
    (hcol : ∀ c, pl.minx ≤ c → c ≤ pl.maxx → pl.top c = UNCLAIMED ∨ pl.top c ≤ pl.bottom c)
    (hbot : ∀ c, pl.minx - 1 ≤ c → c ≤ pl.maxx + 1 → (pl.bottom c : Int) < env.viewheight)
    (hvh : env.viewheight < 2 ^ 31) (hfuel : env.viewheight < fuel) :
    ∃ pl1 ss1 calls, R_DrawPlanes_plane env fuel pl spanstart = some (pl1, ss1, calls) ∧
      (∀ s ∈ calls, ∃ row : Nat, s.y = row ∧ maximalRun pl row s.x1 s.x2) ∧
      ∀ (row : Nat) (x1 x2 : Int), maximalRun pl row x1 x2 →
        calls.count ⟨row, x1, x2⟩ = 1 := by
  have _ := h0
  have hb1 := hbot (pl.minx - 1) (le_refl _) (by omega)
  have hb2 := hbot (pl.maxx + 1) (by omega) (le_refl _)
  have hT : ∀ c, pl.minx ≤ c → c ≤ pl.maxx →
      (if c = pl.minx - 1 then 0xffffffff else
        if c = pl.maxx + 1 then 0xffffffff else pl.top c) = pl.top c := by
    intro c h1 h2
    rw [if_neg (by omega), if_neg (by omega)]
  have hstop : pl.bottom (pl.maxx + 1) <
      (fun i => if i = pl.minx - 1 then 0xffffffff else
        if i = pl.maxx + 1 then 0xffffffff else pl.top i) (pl.maxx + 1) := by
    simp only
    split_ifs <;> omega
  have hbd : ∀ c, pl.minx - 1 ≤ c → c ≤ pl.maxx + 1 →
      (fun i => if i = pl.minx - 1 then 0xffffffff else
        if i = pl.maxx + 1 then 0xffffffff else pl.top i) c < 2 ^ 32 ∧
      pl.bottom c < 2 ^ 31 ∧ pl.bottom c + 1 < fuel := by
    intro c h1 h2
    have hb := hbot c h1 h2
    refine ⟨?_, by omega, by omega⟩
    simp only
    split_ifs with h3 h4
    · norm_num
    · norm_num
    · rcases hcol c (by omega) (by omega) with h5 | h5
      · rw [h5]; norm_num [UNCLAIMED]
      · omega
  have hlo : ∀ r : Nat,
      (fun i => if i = pl.minx - 1 then 0xffffffff else
        if i = pl.maxx + 1 then 0xffffffff else pl.top i) (pl.minx - 1) ≤ r →
      r ≤ pl.bottom (pl.minx - 1) → False := by
    intro r h1 h2
    simp only [if_true] at h1
    omega
  unfold R_DrawPlanes_plane
  rw [if_neg (by omega), hsky]
  simp only [Bool.false_eq_true, if_false]
  obtain ⟨ss1, calls, he, _, hcnt⟩ := R_DrawPlanes_loop_count _ pl.bottom (pl.maxx + 1) fuel
    hstop (pl.maxx + 1 + 1 - pl.minx).toNat pl.minx spanstart (by omega) (le_refl _) hbd
    (fun r h1 h2 => (hlo r h1 h2).elim)
  have hruns := R_DrawPlanes_loop_runs _ pl.bottom (pl.maxx + 1) pl.minx fuel
    (pl.maxx + 1 + 1 - pl.minx).toNat pl.minx spanstart (le_refl _) (by omega) (le_refl _) hbd
    (fun r h1 h2 => (hlo r h1 h2).elim) ss1 calls he
  rw [he]
  have hmax : ∀ s ∈ calls, ∃ row : Nat, s.y = row ∧ maximalRun pl row s.x1 s.x2 := by
    intro s hs
    obtain ⟨r, e1, e2, e3, e4, e5, e6, e7⟩ := hruns s hs
    refine ⟨r, e1, e2, e3, by omega, ?_, ?_, ?_⟩
    · intro c hc1 hc2
      have := e5 c hc1 hc2
      rwa [hT c (by omega) (by omega)] at this
    · by_cases hx : s.x1 = pl.minx
      · exact Or.inl hx
      · right
        rwa [hT (s.x1 - 1) (by omega) (by omega)] at e6
    · by_cases hx : s.x2 = pl.maxx
      · exact Or.inl hx
      · right
        rwa [hT (s.x2 + 1) (by omega) (by omega)] at e7
  refine ⟨_, ss1, calls, rfl, hmax, ?_⟩
  intro row x1 x2 hrun
  obtain ⟨m1, m2, m3, m4, m5, m6⟩ := hrun
  have hc1 := hcnt row x1
  have hin := m4 x1 (le_refl _) m2
  rw [if_pos (Or.inr ⟨m1, by omega, by rw [hT x1 m1 (by omega)]; exact hin⟩)] at hc1
  rw [← hc1, List.count_eq_countP]
  apply List.countP_congr
  intro s hs
  obtain ⟨r, e1, e2, e3, e4, e5, e6, e7⟩ := hmax s hs
  simp only [covers, decide_eq_true_eq, beq_iff_eq]
  constructor
  · rintro rfl
    exact ⟨rfl, le_refl _, m2⟩
  · rintro ⟨c1, c2, c3⟩
    have hr : r = row := by
      have := e1.symm.trans c1
      exact_mod_cast this
    subst hr
    have hx1 : s.x1 = x1 := by
      by_contra hne
      have hlt : s.x1 < x1 := by omega
      have := e5 (x1 - 1) (by omega) (by omega)
      rcases m5 with m5 | m5
      · omega
      · exact m5 this
    have hx2 : s.x2 = x2 := by
      by_contra hne
      rcases lt_or_gt_of_ne hne with hlt | hgt
      · have := m4 (s.x2 + 1) (by omega) (by omega)
        rcases e7 with e7 | e7
        · omega
        · exact e7 this
      · have := e5 (x2 + 1) (by omega) (by omega)
        rcases m6 with m6 | m6
        · omega
        · exact m6 this
    cases s
    simp only at c1 hx1 hx2
    simp only [c1, hx1, hx2]

/-! ## The plane loop of `R_DrawPlanes` -/

/-- The sweep loop with the calls of each column kept apart makes the same
calls, in the same order, as `R_DrawPlanes_loop`. -/
theorem R_DrawPlanes_loop_eq_sweep (T B : Int → Nat) (stop : Int) (fuel : Nat) :
    ∀ (n : Nat) (x : Int) (ss : Nat → Int),
      R_DrawPlanes_loop T B stop fuel n x ss =
        (R_DrawPlanes_sweep T B stop fuel n x ss).map
          fun r => (r.1, (r.2.map Prod.snd).flatten) := by
  intro n
  induction n with
  | zero => intro x ss; rfl
  | succ n ih =>
    intro x ss
    rw [R_DrawPlanes_loop, R_DrawPlanes_sweep]
    by_cases hc : x ≤ stop
    · rw [if_pos hc, if_pos hc]
      cases R_MakeSpans fuel x (T (x - 1)) (B (x - 1)) (T x) (B x) ss with
      | none => rfl
      | some r =>
        simp only [ih]
        cases R_DrawPlanes_sweep T B stop fuel n (x + 1) r.1 with
        | none => rfl
        | some res => rfl
    · rw [if_neg hc, if_neg hc]; rfl

/-- Witness of C19: for the plane with the tops `0 0 0 2 1` and bottom 3
over the columns `10 .. 14`, the sweep dispatches five maximal runs; row 1 has
the two runs `10 .. 12` and `14 .. 14`. -/
theorem maximal_runs_witness :
    (∃ pl1 ss1 calls, R_DrawPlanes_plane envW 201 planeRuns (fun _ => 0) =
        some (pl1, ss1, calls) ∧
      (∀ s ∈ calls, ∃ row : Nat, s.y = row ∧ maximalRun planeRuns row s.x1 s.x2) ∧
      ∀ (row : Nat) (x1 x2 : Int), maximalRun planeRuns row x1 x2 →
        calls.count ⟨row, x1, x2⟩ = 1) ∧
    (R_DrawPlanes_plane envW 201 planeRuns (fun _ => 0)).map (fun r => r.2.2) =
      some [⟨0, 10, 12⟩, ⟨1, 10, 12⟩, ⟨1, 14, 14⟩, ⟨2, 10, 14⟩, ⟨3, 10, 14⟩] :=
  ⟨maximal_runs envW planeRuns (fun _ => 0) 201 (by decide) (by decide) (by decide)
    (fun c h1 h2 => Or.inr (by
      simp only [planeRuns] at h1 h2 ⊢
      split_ifs <;> omega))
    (fun c _ _ => by
      simp only [planeRuns, envW]
      split_ifs <;> norm_num)
    (by decide) (by decide), by rfl⟩

theorem R_MapPlane_span (env : Env) (view : View) (planeheight : Int) (planezlight : Nat → Int)
    (st : PlaneState) (y x1 x2 : Int)
    (hok : view.RANGECHECK = false ∨
      (x1 ≤ x2 ∧ 0 ≤ x1 ∧ x2 < env.viewwidth ∧ y ≤ env.viewheight))
    (hy : view.centery ≠ y) :
    ∃ st1 dr, R_MapPlane env view planeheight planezlight st y x1 x2 = .ok (st1, some dr) ∧
      dr.ds_y = y ∧ dr.ds_x1 = x1 ∧ dr.ds_x2 = x2 ∧
      (planeheight ≠ st.cachedheight y →
        dr.geometry = (view.FixedMul planeheight (view.yslope y),
          rowStep view view.viewsin planeheight y, rowStep view view.viewcos planeheight y)) ∧
      dr.ds_xfrac = wrap32 (view.viewx + view.FixedMul view.viewcos dr.distance +
        (x1 - view.centerx) * dr.ds_xstep) ∧
      dr.ds_yfrac = wrap32 (-view.viewy - view.FixedMul view.viewsin dr.distance +
        (x1 - view.centerx) * dr.ds_ystep) ∧
      dr.ds_colormap0 =
        (match view.fixedcolormap with
          | some c => c
          | none => planezlight (lightIndex view dr.distance)) ∧
      dr.ds_colormap1 =
        (match view.fixedcolormap with
          | some c => c
          | none => view.cm_zlight (view.LIGHTLEVELS - 1) (view.MAXLIGHTZ - 1)) := by
  have hrc : ¬ ((view.RANGECHECK && (decide (x2 < x1) || decide (x1 < 0) ||
      decide (x2 ≥ env.viewwidth) || decide (y > env.viewheight))) = true) := by
    rcases hok with h | ⟨h1, h2, h3, h4⟩
    · rw [h]; simp
    · simp only [Bool.and_eq_true, Bool.or_eq_true, decide_eq_true_eq, not_and, not_or]
      intro _
      omega
  have hdy : ¬ |view.centery - y| = 0 := by
    intro h
    apply hy
    have := abs_eq_zero.mp h
    omega
  unfold R_MapPlane
  dsimp only
  rw [if_neg hrc, if_neg hdy]
  refine ⟨_, _, rfl, rfl, rfl, rfl, ?_, rfl, rfl, rfl, rfl⟩
  intro hmiss
  simp only [SpanDraw.geometry, if_pos hmiss, rowStep]

theorem R_MapPlane_error_iff (env : Env) (view : View) (planeheight : Int)
    (planezlight : Nat → Int) (st : PlaneState) (y x1 x2 : Int) :
    (∃ e, R_MapPlane env view planeheight planezlight st y x1 x2 = .error e) ↔
      (view.RANGECHECK = true ∧ (x2 < x1 ∨ x1 < 0 ∨ x2 ≥ env.viewwidth ∨ y > env.viewheight)) := by
  unfold R_MapPlane
  dsimp only
  by_cases hrc : (view.RANGECHECK && (decide (x2 < x1) || decide (x1 < 0) ||
      decide (x2 ≥ env.viewwidth) || decide (y > env.viewheight))) = true
  · rw [if_pos hrc]
    simp only [Bool.and_eq_true, Bool.or_eq_true, decide_eq_true_eq] at hrc
    refine ⟨fun _ => ⟨hrc.1, ?_⟩, fun _ => ⟨_, rfl⟩⟩
    tauto
  · rw [if_neg hrc]
    simp only [Bool.and_eq_true, Bool.or_eq_true, decide_eq_true_eq] at hrc
    constructor
    · rintro ⟨e, he⟩
      split_ifs at he
    · intro h
      exact absurd ⟨h.1, by tauto⟩ hrc

/-! ## The diagnostic range check -/

/-- C21 fails on two kinds of rows: with the diagnostic checks compiled in,
a 320x200 view and valid columns `0 .. 10`, `R_MapPlane` does not take the
`I_Error` path for the row `y = 200 = viewheight` nor for the row `y = -1`,
both outside `[0, viewheight)`: it calls `spanfunc` with `ds_y = 200` and with
`ds_y = -1`. -/
theorem rangeCheck_misses_rows :
    viewCheck.RANGECHECK = true ∧ envW.viewheight = 200 ∧
    (∃ st1 dr, R_MapPlane envW viewCheck 2686976 (viewCheck.cm_zlight 3) initialState 200 0 10 =
      .ok (st1, some dr) ∧ dr.ds_y = 200 ∧ st1.cachedheight 200 = 2686976) ∧
    (∃ st1 dr, R_MapPlane envW viewCheck 2686976 (viewCheck.cm_zlight 3) initialState (-1) 0 10 =
      .ok (st1, some dr) ∧ dr.ds_y = -1 ∧ st1.cachedheight (-1) = 2686976) :=
  ⟨rfl, rfl, ⟨_, _, rfl, by decide, by decide⟩, ⟨_, _, rfl, by decide, by decide⟩⟩

/-! ## Delegation to `spanfunc` -/

/-- C23 as stated fails on the centre row: row 100 and the columns `10 ..
80` are inside the 320x200 view, and `R_MapPlane (100, 10, 80)` returns without
calling `spanfunc`, because `dy = abs (centery - y)` is 0. -/
theorem rasterizer_centre_row_counterexample :
    insideView envW 100 10 80 ∧
    ∃ st1, R_MapPlane envW viewW 2686976 (viewW.cm_zlight 3) initialState 100 10 80 =
      .ok (st1, none) :=
  ⟨⟨by decide, by decide, by decide, by decide, by decide⟩, _, rfl⟩

/-- C23, amended (rasterizer delegation).  For every row `y` other than
`centery` and columns `x1 <= x2` inside the view, one `R_MapPlane (y, x1, x2)`
call returns after calling `spanfunc` exactly once, with `ds_y = y`, `ds_x1 =
x1` and `ds_x2 = x2`, whether or not the diagnostic checks are compiled in; on
the row `y = centery` it returns without drawing and leaves the state as it
was. -/
theorem rasterizer_delegation (env : Env) (view : View) (planeheight : Int)
    (planezlight : Nat → Int) (st : PlaneState) (y x1 x2 : Int)
    (hin : insideView env y x1 x2) :
    (y ≠ view.centery →
      ∃ st1 dr, R_MapPlane env view planeheight planezlight st y x1 x2 = .ok (st1, some dr) ∧
        dr.ds_y = y ∧ dr.ds_x1 = x1 ∧ dr.ds_x2 = x2) ∧
    (y = view.centery →
      R_MapPlane env view planeheight planezlight st y x1 x2 = .ok (st, none)) := by
  obtain ⟨h1, h2, h3, h4, h5⟩ := hin
  constructor
  · intro hy
    obtain ⟨st1, dr, e, a, b, c, _⟩ := R_MapPlane_span env view planeheight planezlight st y x1 x2
      (Or.inr ⟨h4, h3, h5, by omega⟩) (fun h => hy h.symm)
    exact ⟨st1, dr, e, a, b, c⟩
  · intro hy
    have hrc : ¬ ((view.RANGECHECK && (decide (x2 < x1) || decide (x1 < 0) ||
        decide (x2 ≥ env.viewwidth) || decide (y > env.viewheight))) = true) := by
      simp only [Bool.and_eq_true, Bool.or_eq_true, decide_eq_true_eq, not_and, not_or]
      intro _
      omega
    unfold R_MapPlane
    dsimp only
    rw [if_neg hrc, if_pos (by rw [hy, sub_self, abs_zero])]

/-- Witness of C23 (amended): row 150, columns `10 .. 80` of the 320x200
view; the call hands `(150, 10, 80)` to `spanfunc`. -/
theorem rasterizer_delegation_witness :
    ∃ st1 dr, R_MapPlane envW viewCheck 2686976 (viewCheck.cm_zlight 3) initialState 150 10 80 =
      .ok (st1, some dr) ∧ dr.ds_y = 150 ∧ dr.ds_x1 = 10 ∧ dr.ds_x2 = 80 :=
  (rasterizer_delegation envW viewCheck 2686976 (viewCheck.cm_zlight 3) initialState 150 10 80
    ⟨by decide, by decide, by decide, by decide, by decide⟩).1 (by decide)

/-! ## The row recompute -/

/-- C24 as stated fails in low detail (`detailshift = 1`): on row 150 with
plane height 41.0 and an empty cache, `R_MapPlane` uses `ds_ystep = 107478`,
the quotient 53739 shifted left by one, not the quotient shifted right, which
is 26869. -/
theorem row_recompute_shift_counterexample :
    initialState.cachedheight 150 ≠ 2686976 ∧
    ∃ st1 dr, R_MapPlane envW viewLow 2686976 (viewLow.cm_zlight 3) initialState 150 10 80 =
        .ok (st1, some dr) ∧
      dr.ds_ystep = 107478 ∧ st1.cachedystep 150 = 107478 ∧
      rowStepShiftedRight viewLow viewLow.viewcos 2686976 150 = 26869 ∧
      dr.ds_ystep ≠ rowStepShiftedRight viewLow viewLow.viewcos 2686976 150 :=
  ⟨by decide, _, _, rfl, by decide, by decide, by decide, by decide⟩

/-- C24, amended (row recompute).  When `R_MapPlane` is called on a row `y`
other than `centery` whose cached height differs from `planeheight` (and the
call passes the diagnostic check, if compiled in), it stores `planeheight` as
the cached height of the row and computes `distance = FixedMul (planeheight,
yslope[y])`, `xstep = (FixedMul (viewsin, planeheight) / |centery - y|) <<
detailshift` and `ystep = (FixedMul (viewcos, planeheight) / |centery - y|) <<
detailshift`, shifted left as 32-bit values; it stores all three in the cache
entry of the row and leaves the entry of every other row unchanged. -/
theorem row_recompute (env : Env) (view : View) (planeheight : Int) (planezlight : Nat → Int)
    (st : PlaneState) (y x1 x2 : Int)
    (hok : view.RANGECHECK = false ∨
      (x1 ≤ x2 ∧ 0 ≤ x1 ∧ x2 < env.viewwidth ∧ y ≤ env.viewheight))
    (hy : y ≠ view.centery) (hmiss : st.cachedheight y ≠ planeheight) :
    ∃ st1 dr, R_MapPlane env view planeheight planezlight st y x1 x2 = .ok (st1, some dr) ∧
      dr.distance = view.FixedMul planeheight (view.yslope y) ∧
      dr.ds_xstep = wrap32 ((view.FixedMul view.viewsin planeheight).tdiv |view.centery - y| *
        2 ^ view.detailshift) ∧
      dr.ds_ystep = wrap32 ((view.FixedMul view.viewcos planeheight).tdiv |view.centery - y| *
        2 ^ view.detailshift) ∧
      st1.cachedheight y = planeheight ∧ st1.cacheddistance y = dr.distance ∧
      st1.cachedxstep y = dr.ds_xstep ∧ st1.cachedystep y = dr.ds_ystep ∧
      ∀ r, r ≠ y → cacheRow st1 r = cacheRow st r := by
  obtain ⟨st1, dr, e, _, _, _, g, _⟩ := R_MapPlane_span env view planeheight planezlight st y x1 x2
    hok (fun h => hy h.symm)
  obtain ⟨_, c2, c3⟩ := R_MapPlane_cache env view planeheight planezlight st st1 y x1 x2 _ e
  obtain ⟨dr1, e1, c4, _⟩ := c2 (fun h => hy h.symm)
  have e2 : dr1 = dr := (Option.some.inj e1).symm
  subst e2
  have hg := g (fun h => hmiss h.symm)
  simp only [SpanDraw.geometry, rowStep, Prod.mk.injEq] at hg
  simp only [cacheRow, Prod.mk.injEq] at c4
  exact ⟨st1, dr1, e, hg.1, hg.2.1, hg.2.2, c4.1, c4.2.1, c4.2.2.1, c4.2.2.2, c3⟩

/-- Witness of C24 (amended): the call of the counterexample gives
`distance = 8598315`, `xstep = 0` and `ystep = 107478` and stores them with the
height 41.0 in the cache entry of row 150. -/
theorem row_recompute_witness :
    ∃ st1 dr, R_MapPlane envW viewLow 2686976 (viewLow.cm_zlight 3) initialState 150 10 80 =
        .ok (st1, some dr) ∧
      dr.geometry = (8598315, 0, 107478) ∧
      cacheRow st1 150 = (2686976, 8598315, 0, 107478) := by
  obtain ⟨st1, dr, e, h1, h2, h3, h4, h5, h6, h7, _⟩ :=
    row_recompute envW viewLow 2686976 (viewLow.cm_zlight 3) initialState 150 10 80
      (Or.inl rfl) (by decide) (by decide)
  refine ⟨st1, dr, e, ?_, ?_⟩
  · simp only [SpanDraw.geometry, h1, h2, h3]
    decide
  · simp only [cacheRow, h4, h5, h6, h7, h1, h2, h3]
    decide

/-! ## Texture origin and light table -/

theorem R_MapPlane_some (env : Env) (view : View) (planeheight : Int) (planezlight : Nat → Int)
    (st st1 : PlaneState) (y x1 x2 : Int) (dr : SpanDraw)
    (h : R_MapPlane env view planeheight planezlight st y x1 x2 = .ok (st1, some dr)) :
    view.centery ≠ y ∧
    dr.ds_y = y ∧ dr.ds_x1 = x1 ∧ dr.ds_x2 = x2 ∧
    dr.ds_xfrac = wrap32 (view.viewx + view.FixedMul view.viewcos dr.distance +
      (x1 - view.centerx) * dr.ds_xstep) ∧
    dr.ds_yfrac = wrap32 (-view.viewy - view.FixedMul view.viewsin dr.distance +
      (x1 - view.centerx) * dr.ds_ystep) ∧
    dr.ds_colormap0 =
      (match view.fixedcolormap with
        | some c => c
        | none => planezlight (lightIndex view dr.distance)) ∧
    dr.ds_colormap1 =
      (match view.fixedcolormap with
        | some c => c
        | none => view.cm_zlight (view.LIGHTLEVELS - 1) (view.MAXLIGHTZ - 1)) := by
  have hy : view.centery ≠ y := by
    intro hc
    have := ((R_MapPlane_cache env view planeheight planezlight st st1 y x1 x2 _ h).1 hc).1
    exact Option.noConfusion this
  have hok : view.RANGECHECK = false ∨
      (x1 ≤ x2 ∧ 0 ≤ x1 ∧ x2 < env.viewwidth ∧ y ≤ env.viewheight) := by
    by_cases hr : view.RANGECHECK = false
    · exact Or.inl hr
    · right
      by_contra hb
      obtain ⟨e, he⟩ := (R_MapPlane_error_iff env view planeheight planezlight st y x1 x2).mpr
        ⟨by simpa using hr, by omega⟩
      rw [he] at h
      exact Except.noConfusion h
  obtain ⟨st2, dr2, e, a, b, c, _, d1, d2, d3, d4⟩ :=
    R_MapPlane_span env view planeheight planezlight st y x1 x2 hok hy
  rw [h] at e
  simp only [Except.ok.injEq, Prod.mk.injEq, Option.some.injEq] at e
  obtain ⟨_, rfl⟩ := e
  exact ⟨hy, a, b, c, d1, d2, d3, d4⟩

theorem wrap32_add_left (a b : Int) : wrap32 (wrap32 a + b) = wrap32 (a + b) := by
  unfold wrap32
  omega

theorem coordAt_eq (view : View) (dr : SpanDraw) (x1 : Int)
    (h1 : dr.ds_x1 = x1)
    (hx : dr.ds_xfrac = wrap32 (view.viewx + view.FixedMul view.viewcos dr.distance +
      (x1 - view.centerx) * dr.ds_xstep))
    (hy : dr.ds_yfrac = wrap32 (-view.viewy - view.FixedMul view.viewsin dr.distance +
      (x1 - view.centerx) * dr.ds_ystep)) (x : Int) :
    dr.coordAt x =
      (wrap32 (view.viewx + view.FixedMul view.viewcos dr.distance +
        (x - view.centerx) * dr.ds_xstep),
      wrap32 (-view.viewy - view.FixedMul view.viewsin dr.distance +
        (x - view.centerx) * dr.ds_ystep)) := by
  unfold SpanDraw.coordAt
  rw [hx, hy, h1, wrap32_add_left, wrap32_add_left]
  congr 2 <;> ring

/-- C26 (texture origin independent of the span start).  A `R_MapPlane (y,
x1, x2)` call that draws sets `ds_xfrac = viewx + FixedMul (viewcos, distance) +
(x1 - centerx) * xstep` and `ds_yfrac = -viewy - FixedMul (viewsin, distance) +
(x1 - centerx) * ystep` modulo `2^32`, so the coordinate that the span reaches
at a column `x` is the same expression with `x` in place of `x1`; and when a
second call with the same plane height and row follows (after any calls for
other rows), the two spans reach the same coordinate at every column `x`,
whatever their starts `x1` are. -/
theorem texture_origin (env : Env) (view : View) (st s1 s2 s3 : PlaneState)
    (h y a1 a2 b1 b2 : Int) (pz1 pz2 : Nat → Int) (between : List MapPlaneArgs)
    (dr1 dr2 : SpanDraw) (ds : List (Option SpanDraw))
    (hrows : ∀ a ∈ between, a.y ≠ y)
    (hfirst : R_MapPlane env view h pz1 st y a1 a2 = .ok (s1, some dr1))
    (hbetween : R_MapPlane_calls env view s1 between = .ok (s2, ds))
    (hsecond : R_MapPlane env view h pz2 s2 y b1 b2 = .ok (s3, some dr2)) :
    dr1.ds_xfrac = wrap32 (view.viewx + view.FixedMul view.viewcos dr1.distance +
      (a1 - view.centerx) * dr1.ds_xstep) ∧
    dr1.ds_yfrac = wrap32 (-view.viewy - view.FixedMul view.viewsin dr1.distance +
      (a1 - view.centerx) * dr1.ds_ystep) ∧
    (∀ x, dr1.coordAt x =
      (wrap32 (view.viewx + view.FixedMul view.viewcos dr1.distance +
        (x - view.centerx) * dr1.ds_xstep),
      wrap32 (-view.viewy - view.FixedMul view.viewsin dr1.distance +
        (x - view.centerx) * dr1.ds_ystep))) ∧
    ∀ x, dr1.coordAt x = dr2.coordAt x := by
  obtain ⟨hy, _, p1, _, p2, p3, _⟩ := R_MapPlane_some env view h pz1 st s1 y a1 a2 dr1 hfirst
  obtain ⟨_, _, q1, _, q2, q3, _⟩ := R_MapPlane_some env view h pz2 s2 s3 y b1 b2 dr2 hsecond
  obtain ⟨_, f2, _⟩ := R_MapPlane_cache env view h pz1 st s1 y a1 a2 _ hfirst
  obtain ⟨_, g2, _⟩ := R_MapPlane_cache env view h pz2 s2 s3 y b1 b2 _ hsecond
  have hk := R_MapPlane_calls_cache env view y between s1 s2 ds hrows hbetween
  obtain ⟨d1, e1, c1, _⟩ := f2 hy
  obtain ⟨d2, e2, _, c2⟩ := g2 hy
  have e1 : d1 = dr1 := (Option.some.inj e1).symm
  have e2 : d2 = dr2 := (Option.some.inj e2).symm
  subst e1 e2
  rw [c1] at hk
  simp only [cacheRow, Prod.mk.injEq] at hk
  have hg := c2 hk.1
  rw [hk.2.1, hk.2.2.1, hk.2.2.2] at hg
  simp only [SpanDraw.geometry, Prod.mk.injEq] at hg
  refine ⟨p2, p3, coordAt_eq view d1 a1 p1 p2 p3, ?_⟩
  intro x
  rw [coordAt_eq view d1 a1 p1 p2 p3 x, coordAt_eq view d2 b1 q1 q2 q3 x, hg.1, hg.2.1, hg.2.2]

/-- Witness of C26: on row 150 with plane height 41.0 the span `10 .. 80`
and, after calls for the rows 151 and 149, the span `40 .. 95` both reach the
texture coordinate `(8598315, -6448680)` at column 40. -/
theorem texture_origin_witness :
    ∃ s1 dr1 s2 ds s3 dr2,
      R_MapPlane envW viewW 2686976 (viewW.cm_zlight 3) initialState 150 10 80 =
        .ok (s1, some dr1) ∧
      R_MapPlane_calls envW viewW s1
        [⟨327680, viewW.cm_zlight 3, 151, 10, 80⟩, ⟨65536, viewW.cm_zlight 5, 149, 20, 30⟩] =
        .ok (s2, ds) ∧
      R_MapPlane envW viewW 2686976 (viewW.cm_zlight 4) s2 150 40 95 = .ok (s3, some dr2) ∧
      dr1.coordAt 40 = dr2.coordAt 40 ∧ dr2.coordAt 40 = (8598315, -6448680) :=
  ⟨_, _, _, _, _, _, rfl, rfl, rfl,
    (texture_origin envW viewW initialState _ _ _ 2686976 150 10 80 40 95
      (viewW.cm_zlight 3) (viewW.cm_zlight 4)
      [⟨327680, viewW.cm_zlight 3, 151, 10, 80⟩, ⟨65536, viewW.cm_zlight 5, 149, 20, 30⟩]
      _ _ _ (by decide) rfl rfl rfl).2.2.2 40, by decide⟩

/-- C27 (light-distance bucket).  For a `R_MapPlane` call that draws: when no
fixed colormap is active, `ds_colormap[0]` is `planezlight[i]` with `i = min
(distance >> LIGHTZSHIFT taken as unsigned 32-bit, MAXLIGHTZ - 1)`, an index
below `MAXLIGHTZ` for every `distance`, negative ones included, and
`ds_colormap[1]` is `cm_zlight[LIGHTLEVELS-1][MAXLIGHTZ-1]`; when a fixed
colormap is active both slots equal it, and the call gives the same result
for every `planezlight` table, so that no entry of it is used. -/
theorem light_bucket (env : Env) (view : View) (planeheight : Int) (planezlight : Nat → Int)
    (st st1 : PlaneState) (y x1 x2 : Int) (dr : SpanDraw) (hM : 0 < view.MAXLIGHTZ)
    (hcall : R_MapPlane env view planeheight planezlight st y x1 x2 = .ok (st1, some dr)) :
    lightIndex view dr.distance =
      min (toUInt32 (dr.distance >>> view.LIGHTZSHIFT)) (view.MAXLIGHTZ - 1) ∧
    lightIndex view dr.distance < view.MAXLIGHTZ ∧
    (view.fixedcolormap = none →
      dr.ds_colormap0 = planezlight (lightIndex view dr.distance) ∧
      dr.ds_colormap1 = view.cm_zlight (view.LIGHTLEVELS - 1) (view.MAXLIGHTZ - 1)) ∧
    (∀ c, view.fixedcolormap = some c →
      dr.ds_colormap0 = c ∧ dr.ds_colormap1 = c ∧
      ∀ table, R_MapPlane env view planeheight table st y x1 x2 = .ok (st1, some dr)) := by
  obtain ⟨_, _, _, _, _, _, c0, c1⟩ :=
    R_MapPlane_some env view planeheight planezlight st st1 y x1 x2 dr hcall
  refine ⟨?_, ?_, ?_, ?_⟩
  · unfold lightIndex
    split_ifs <;> omega
  · unfold lightIndex
    split_ifs <;> omega
  · intro hn
    rw [hn] at c0 c1
    exact ⟨c0, c1⟩
  · intro c hc
    rw [hc] at c0 c1
    refine ⟨c0, c1, ?_⟩
    intro table
    rw [← hcall]
    unfold R_MapPlane
    simp only [hc]

/-- Witness of C27: at distance `8598315` the index is `8598315 >> 20 = 8`,
so the call selects `planezlight[8]`, here the pointer 308; with the fixed
colormap 4242 active both slots hold 4242. -/
theorem light_bucket_witness :
    (∃ st1 dr, R_MapPlane envW viewW 2686976 (viewW.cm_zlight 3) initialState 150 10 80 =
        .ok (st1, some dr) ∧
      lightIndex viewW dr.distance = 8 ∧ dr.ds_colormap0 = 308) ∧
    (∃ st1 dr, R_MapPlane envW viewFixed 2686976 (viewFixed.cm_zlight 3) initialState 150 10 80 =
        .ok (st1, some dr) ∧
      dr.ds_colormap0 = 4242 ∧ dr.ds_colormap1 = 4242) :=
  ⟨⟨_, _, rfl, by decide,
      ((light_bucket envW viewW 2686976 (viewW.cm_zlight 3) initialState _ 150 10 80 _
        (by decide) rfl).2.2.1 rfl).1.trans (by decide)⟩,
    ⟨_, _, rfl,
      ((light_bucket envW viewFixed 2686976 (viewFixed.cm_zlight 3) initialState _ 150 10 80 _
        (by decide) rfl).2.2.2 4242 rfl).1,
      ((light_bucket envW viewFixed 2686976 (viewFixed.cm_zlight 3) initialState _ 150 10 80 _
        (by decide) rfl).2.2.2 4242 rfl).2.1⟩⟩

/-! ## The sweep step and the split branch -/

/-- C22 (sweep step).  For all unsigned 32-bit `t1, b1, t2, b2`, every column
`x` and every `spanstart` table, `R_MakeSpans (x, t1, b1, t2, b2)` returns
(given fuel above the lengths of the two intervals); its calls are `R_MapPlane
(row, spanstart[row], x-1)` for a list of rows in which each row of `[t1, b1]`
that is not in `[t2, b2]` occurs exactly once and no other row occurs; and the
new `spanstart[row]` is `x` exactly for each row of `[t2, b2]` that is not in
`[t1, b1]` and the old value for every other row. -/
theorem sweep_step (fuel : Nat) (x : Int) (t1 b1 t2 b2 : Nat) (spanstart : Nat → Int)
    (ht1 : t1 < 2 ^ 32) (hb1 : b1 < 2 ^ 32) (ht2 : t2 < 2 ^ 32) (hb2 : b2 < 2 ^ 32)
    (hf1 : b1 + 1 - t1 < fuel) (hf2 : b2 + 1 - t2 < fuel) :
    ∃ (ss1 : Nat → Int) (rows : List Nat),
      R_MakeSpans fuel x t1 b1 t2 b2 spanstart =
        some (ss1, rows.map fun r => ⟨toInt32 r, spanstart r, x - 1⟩) ∧
      (∀ r, rows.count r = if t1 ≤ r ∧ r ≤ b1 ∧ ¬(t2 ≤ r ∧ r ≤ b2) then 1 else 0) ∧
      ∀ r, ss1 r = if t2 ≤ r ∧ r ≤ b2 ∧ ¬(t1 ≤ r ∧ r ≤ b1) then x else spanstart r := by
  refine ⟨_, flushRows t1 b1 t2 b2,
    R_MakeSpans_eq fuel x t1 b1 t2 b2 spanstart ht1 hb1 ht2 hb2 hf1 hf2, ?_, fun _ => rfl⟩
  intro r
  exact flushRows_count t1 b1 t2 b2 r

/-- Witness of C22: from the interval `[2, 6]` to the interval `[4, 9]` at
column 20, the rows 2 and 3 are flushed and the rows 7, 8 and 9 are opened at
column 20. -/
theorem sweep_step_witness :
    (∃ (ss1 : Nat → Int) (rows : List Nat),
      R_MakeSpans 20 20 2 6 4 9 (fun r => (r : Int) + 10) =
        some (ss1, rows.map fun r => ⟨toInt32 r, (fun r => (r : Int) + 10) r, 20 - 1⟩) ∧
      (∀ r, rows.count r = if 2 ≤ r ∧ r ≤ 6 ∧ ¬(4 ≤ r ∧ r ≤ 9) then 1 else 0) ∧
      ∀ r, ss1 r = if 4 ≤ r ∧ r ≤ 9 ∧ ¬(2 ≤ r ∧ r ≤ 6) then 20 else (fun r => (r : Int) + 10) r) ∧
    (R_MakeSpans 20 20 2 6 4 9 (fun r => (r : Int) + 10)).map Prod.snd =
      some [⟨2, 12, 19⟩, ⟨3, 13, 19⟩] :=
  ⟨sweep_step 20 20 2 6 4 9 (fun r => (r : Int) + 10) (by decide) (by decide) (by decide)
    (by decide) (by decide) (by decide), by rfl⟩

theorem R_RaiseVisplanes_outside (st : PlaneState) (vp : Option Int) (nb : Int) :
    (R_RaiseVisplanes st vp nb).1.floorclip = st.floorclip ∧
    (R_RaiseVisplanes st vp nb).1.ceilingclip = st.ceilingclip ∧
    (R_RaiseVisplanes st vp nb).1.lastopening = st.lastopening ∧
    (R_RaiseVisplanes st vp nb).1.cachedheight = st.cachedheight ∧
    (R_RaiseVisplanes st vp nb).1.cacheddistance = st.cacheddistance ∧
    (R_RaiseVisplanes st vp nb).1.cachedxstep = st.cachedxstep ∧
    (R_RaiseVisplanes st vp nb).1.cachedystep = st.cachedystep := by
  unfold R_RaiseVisplanes
  split_ifs <;> exact ⟨rfl, rfl, rfl, rfl, rfl, rfl, rfl⟩

/-- What the split branch of `R_CheckPlane` leaves alone besides the live
entries: the flags and arrays outside the registry, and the handles of the
floor and ceiling planes. -/
theorem R_CheckPlane_split_frame (env : Env) (st : PlaneState) (pl start stop nb : Int)
    (h : ¬ intersectionFree st pl start stop ∨ samePlaneConfig st pl) :
    (R_CheckPlane env st pl start stop nb).1.markceiling = st.markceiling ∧
    handleOf (R_CheckPlane env st pl start stop nb).1
      (R_CheckPlane env st pl start stop nb).1.floorplane = handleOf st st.floorplane ∧
    handleOf (R_CheckPlane env st pl start stop nb).1
      (R_CheckPlane env st pl start stop nb).1.ceilingplane = handleOf st st.ceilingplane ∧
    (R_CheckPlane env st pl start stop nb).1.floorclip = st.floorclip ∧
    (R_CheckPlane env st pl start stop nb).1.ceilingclip = st.ceilingclip ∧
    (R_CheckPlane env st pl start stop nb).1.lastopening = st.lastopening ∧
    (∀ r, cacheRow (R_CheckPlane env st pl start stop nb).1 r = cacheRow st r) ∧
    (liveCount st ≠ st.numvisplanes →
      (R_CheckPlane env st pl start stop nb).1.numvisplanes = st.numvisplanes ∧
      (R_CheckPlane env st pl start stop nb).1.visplanes = st.visplanes ∧
      ∀ i, i ≠ liveCount st → (R_CheckPlane env st pl start stop nb).1.store i = st.store i) := by
  have hc : ((!(pl == st.floorplane && st.markceiling && st.floorplane == st.ceilingplane)) &&
      decide (R_CheckPlane_loop (deref st pl).top
        (if stop > (deref st pl).maxx then (deref st pl).maxx else stop)
        ((if stop > (deref st pl).maxx then (deref st pl).maxx else stop) + 1 -
          (if start < (deref st pl).minx then (deref st pl).minx else start)).toNat
        (if start < (deref st pl).minx then (deref st pl).minx else start) >
      (if stop > (deref st pl).maxx then (deref st pl).maxx else stop))) = false := by
    rcases h with h | h
    · have := mt (R_CheckPlane_scan st pl start stop).mp h
      simp only [decide_eq_false this, Bool.and_false]
    · obtain ⟨h1, h2, h3⟩ := h
      simp [← h3, ← h1, h2]
  obtain ⟨q, hq1, _⟩ := R_RaiseVisplanes_ptr st pl nb
  obtain ⟨g1, g2, g3⟩ := R_RaiseVisplanes_flags st (some pl) nb
  obtain ⟨o1, o2, o3, o4, o5, o6, o7⟩ := R_RaiseVisplanes_outside st (some pl) nb
  have hlast := R_RaiseVisplanes_last st (some pl) nb
  unfold R_CheckPlane
  simp only [hc, Bool.false_eq_true, if_false, hq1, Option.getD_some]
  refine ⟨?_, ?_, ?_, ?_, ?_, ?_, ?_, ?_⟩
  · simp only [assign]; exact g1
  · simp only [assign, handleOf]; exact g2
  · simp only [assign, handleOf]; exact g3
  · simp only [assign]; exact o1
  · simp only [assign]; exact o2
  · simp only [assign]; exact o3
  · intro r
    simp only [assign, cacheRow, o4, o5, o6, o7]
  · intro hne
    have e : (R_RaiseVisplanes st (some pl) nb).1 = st := by
      unfold R_RaiseVisplanes
      unfold liveCount at hne
      rw [if_neg hne]
    refine ⟨?_, ?_, ?_⟩
    · simp only [assign]; rw [e]
    · simp only [assign]; rw [e]
    · intro i hi
      simp only [assign]
      unfold liveCount at hi hlast
      rw [if_neg (by omega), if_neg (by omega), e]

/-- C30 (split leaves the original untouched).  When `R_CheckPlane` takes the
branch that makes a new visplane (some column of the intersection is taken,
or the floor and ceiling planes are the same entry with `markceiling` set), the
entry passed in keeps every field, `minx`, `maxx`, `height`, `picnum`,
`lightlevel` and the whole `top[]` and `bottom[]`, and so does every other
entry that was live; the live count grows by one and the entry returned is the
one appended at the old live count.  Outside the registry nothing changes, the
floor and ceiling planes keep their handles, and unless the registry was full
the capacity, the block address and every slot but the appended one are as
before. -/
theorem split_leaves_original (env : Env) (st : PlaneState) (pl start stop nb : Int)
    (hlive : 0 ≤ handleOf st pl ∧ handleOf st pl < liveCount st)
    (hsplit : ¬ intersectionFree st pl start stop ∨ samePlaneConfig st pl) :
    (R_CheckPlane env st pl start stop nb).1.store (handleOf st pl) = deref st pl ∧
    (∀ i, i < liveCount st → (R_CheckPlane env st pl start stop nb).1.store i = st.store i) ∧
    liveCount (R_CheckPlane env st pl start stop nb).1 = liveCount st + 1 ∧
    handleOf (R_CheckPlane env st pl start stop nb).1 (R_CheckPlane env st pl start stop nb).2 =
      liveCount st ∧
    (R_CheckPlane env st pl start stop nb).1.markceiling = st.markceiling ∧
    handleOf (R_CheckPlane env st pl start stop nb).1
      (R_CheckPlane env st pl start stop nb).1.floorplane = handleOf st st.floorplane ∧
    handleOf (R_CheckPlane env st pl start stop nb).1
      (R_CheckPlane env st pl start stop nb).1.ceilingplane = handleOf st st.ceilingplane ∧
    (R_CheckPlane env st pl start stop nb).1.floorclip = st.floorclip ∧
    (R_CheckPlane env st pl start stop nb).1.ceilingclip = st.ceilingclip ∧
    (R_CheckPlane env st pl start stop nb).1.lastopening = st.lastopening ∧
    (∀ r, cacheRow (R_CheckPlane env st pl start stop nb).1 r = cacheRow st r) ∧
    (liveCount st ≠ st.numvisplanes →
      (R_CheckPlane env st pl start stop nb).1.numvisplanes = st.numvisplanes ∧
      (R_CheckPlane env st pl start stop nb).1.visplanes = st.visplanes ∧
      ∀ i, i ≠ liveCount st → (R_CheckPlane env st pl start stop nb).1.store i = st.store i) := by
  obtain ⟨s1, s2, _, s4, _⟩ := R_CheckPlane_split env st pl start stop nb hsplit
  obtain ⟨f1, f2, f3, f4, f5, f6, f7, f8⟩ :=
    R_CheckPlane_split_frame env st pl start stop nb hsplit
  exact ⟨s4 _ hlive.2, s4, s2, s1, f1, f2, f3, f4, f5, f6, f7, f8⟩

/-- Witness of C30: in the registry `drawState` (3 live entries, capacity
128) entry 0 holds the columns `10 .. 14` with every `top` taken; claiming `[12,
20]` on it appends entry 3 and leaves entry 0 and the capacity as they were. -/
theorem split_leaves_original_witness :
    (R_CheckPlane envW drawState 1000 12 20 5000).1.store 0 = drawState.store 0 ∧
    liveCount (R_CheckPlane envW drawState 1000 12 20 5000).1 = 4 ∧
    handleOf (R_CheckPlane envW drawState 1000 12 20 5000).1
      (R_CheckPlane envW drawState 1000 12 20 5000).2 = 3 ∧
    (R_CheckPlane envW drawState 1000 12 20 5000).1.numvisplanes = 128 := by
  have h := split_leaves_original envW drawState 1000 12 20 5000 (by decide)
    (Or.inl fun hf => absurd (hf 12 (by decide) (by decide)) (by decide))
  exact ⟨h.1, h.2.2.1, h.2.2.2.1, (h.2.2.2.2.2.2.2.2.2.2.2 (by decide)).1⟩

/-! ## The row cache across frames -/

theorem R_ClearPlanes_cacheFresh (env : Env) (view : View) (st : PlaneState) :
    cacheFresh view (R_ClearPlanes env st) := by
  intro r h
  exact absurd rfl h

theorem R_MapPlane_distance (env : Env) (view : View) (planeheight : Int)
    (planezlight : Nat → Int) (st st1 : PlaneState) (y x1 x2 : Int) (dr : SpanDraw)
    (h : R_MapPlane env view planeheight planezlight st y x1 x2 = .ok (st1, some dr)) :
    st1.cachedheight y = planeheight ∧ st1.cacheddistance y = dr.distance ∧
    (planeheight ≠ st.cachedheight y → dr.distance = view.FixedMul planeheight (view.yslope y)) ∧
    (planeheight = st.cachedheight y → dr.distance = st.cacheddistance y) := by
  obtain ⟨hy, _⟩ := R_MapPlane_some env view planeheight planezlight st st1 y x1 x2 dr h
  have hok : view.RANGECHECK = false ∨
      (x1 ≤ x2 ∧ 0 ≤ x1 ∧ x2 < env.viewwidth ∧ y ≤ env.viewheight) := by
    by_cases hr : view.RANGECHECK = false
    · exact Or.inl hr
    · right
      by_contra hb
      obtain ⟨e, he⟩ := (R_MapPlane_error_iff env view planeheight planezlight st y x1 x2).mpr
        ⟨by simpa using hr, by omega⟩
      rw [he] at h
      exact Except.noConfusion h
  obtain ⟨st2, dr2, e, _, _, _, g, _⟩ :=
    R_MapPlane_span env view planeheight planezlight st y x1 x2 hok hy
  rw [h] at e
  simp only [Except.ok.injEq, Prod.mk.injEq, Option.some.injEq] at e
  obtain ⟨_, rfl⟩ := e
  obtain ⟨_, c2, _⟩ := R_MapPlane_cache env view planeheight planezlight st st1 y x1 x2 _ h
  obtain ⟨d, e1, c4, c5⟩ := c2 hy
  have e2 : d = dr := (Option.some.inj e1).symm
  subst e2
  simp only [cacheRow, Prod.mk.injEq] at c4
  refine ⟨c4.1, c4.2.1, ?_, ?_⟩
  · intro hm
    have := g hm
    simp only [SpanDraw.geometry, Prod.mk.injEq] at this
    exact this.1
  · intro hh
    have := c5 hh.symm
    simp only [SpanDraw.geometry, Prod.mk.injEq] at this
    exact this.1

theorem R_MapPlane_cacheFresh (env : Env) (view : View) (planeheight : Int)
    (planezlight : Nat → Int) (st st1 : PlaneState) (y x1 x2 : Int) (d : Option SpanDraw)
    (hf : cacheFresh view st)
    (h : R_MapPlane env view planeheight planezlight st y x1 x2 = .ok (st1, d)) :
    cacheFresh view st1 := by
  obtain ⟨c1, c2, c3⟩ := R_MapPlane_cache env view planeheight planezlight st st1 y x1 x2 d h
  by_cases hy : view.centery = y
  · rw [(c1 hy).2]; exact hf
  · obtain ⟨dr, e1, _, _⟩ := c2 hy
    subst e1
    obtain ⟨k1, k2, k3, k4⟩ :=
      R_MapPlane_distance env view planeheight planezlight st st1 y x1 x2 dr h
    intro r hr
    by_cases hry : r = y
    · subst hry
      rw [k1] at hr ⊢
      rw [k2]
      by_cases hm : planeheight = st.cachedheight r
      · rw [k4 hm]
        have := hf r (by rw [← hm]; exact hr)
        rw [this, hm]
      · exact k3 hm
    · have := c3 r hry
      simp only [cacheRow, Prod.mk.injEq] at this
      rw [this.1] at hr ⊢
      rw [this.2.1]
      exact hf r hr

theorem R_MapPlane_calls_cacheFresh (env : Env) (view : View) :
    ∀ (calls : List MapPlaneArgs) (st st1 : PlaneState) (ds : List (Option SpanDraw)),
      cacheFresh view st → R_MapPlane_calls env view st calls = .ok (st1, ds) →
      cacheFresh view st1 := by
  intro calls
  induction calls with
  | nil =>
    intro st st1 ds hf h
    simp only [R_MapPlane_calls, Except.ok.injEq, Prod.mk.injEq] at h
    rw [← h.1]; exact hf
  | cons a rest ih =>
    intro st st1 ds hf h
    simp only [R_MapPlane_calls] at h
    split at h
    · exact Except.noConfusion h
    · rename_i st2 d heq
      split at h
      · exact Except.noConfusion h
      · rename_i st3 ds3 heq2
        simp only [Except.ok.injEq, Prod.mk.injEq] at h
        obtain ⟨rfl, _⟩ := h
        exact ih st2 st3 ds3 (R_MapPlane_cacheFresh env view _ _ st st2 a.y a.x1 a.x2 d hf heq) heq2

/-- Within a frame the distance of a plane height other than 0 is never
stale: after `R_ClearPlanes` on any state and any `R_MapPlane` calls of the
frame, a call with `planeheight != 0` that draws uses `FixedMul (planeheight,
yslope[y])`. -/
theorem R_MapPlane_distance_in_frame (env : Env) (view : View) (st0 st st1 : PlaneState)
    (calls : List MapPlaneArgs) (ds : List (Option SpanDraw))
    (planeheight : Int) (planezlight : Nat → Int) (y x1 x2 : Int) (dr : SpanDraw)
    (hcalls : R_MapPlane_calls env view (R_ClearPlanes env st0) calls = .ok (st, ds))
    (hne : planeheight ≠ 0)
    (h : R_MapPlane env view planeheight planezlight st y x1 x2 = .ok (st1, some dr)) :
    dr.distance = view.FixedMul planeheight (view.yslope y) := by
  have hf := R_MapPlane_calls_cacheFresh env view calls _ st ds
    (R_ClearPlanes_cacheFresh env view st0) hcalls
  obtain ⟨_, _, k3, k4⟩ :=
    R_MapPlane_distance env view planeheight planezlight st st1 y x1 x2 dr h
  by_cases hm : planeheight = st.cachedheight y
  · rw [k4 hm, hf y (by rw [← hm]; exact hne), hm]
  · exact k3 hm

/-- C25 fails for the plane height 0: the first frame draws row 150 with the
plane height 41.0, which leaves `cacheddistance[150] = 8598315`; the second
frame starts with `R_ClearPlanes`, which zeroes `cachedheight[]` only, and its
call `R_MapPlane (150, 10, 80)` with `planeheight = 0` finds `cachedheight[150]
== planeheight` and uses the distance 8598315 of the first frame, where
`FixedMul (0, yslope[150])` is 0. -/
theorem stale_cache_planeheight_zero :
    ∃ s1 d1 s2 dr,
      R_MapPlane envW viewW 2686976 (viewW.cm_zlight 3) (R_ClearPlanes envW initialState)
        150 10 80 = .ok (s1, d1) ∧
      R_MapPlane envW viewW 0 (viewW.cm_zlight 3) (R_ClearPlanes envW s1) 150 10 80 =
        .ok (s2, some dr) ∧
      viewW.centery ≠ 150 ∧
      dr.distance = 8598315 ∧
      viewW.FixedMul 0 (viewW.yslope 150) = 0 :=
  ⟨_, _, _, _, rfl, rfl, by decide, by decide, by decide⟩

/-! ## `R_DistortedFlat` -/

theorem R_DistortedFlat_loopY_eq (se : SwirlEnv) (leveltime : Int) (x : Nat) (hx : x < 64) :
    ∀ (k y : Nat) (offset : Nat → Int),
      R_DistortedFlat_loopY se leveltime x k y offset =
        fun i => if i % 64 = x ∧ y ≤ i / 64 ∧ i / 64 < y + k then swirlEntry se leveltime i
          else offset i := by
  intro k
  induction k with
  | zero =>
    intro y offset
    funext i
    simp only [R_DistortedFlat_loopY]
    rw [if_neg (by omega)]
  | succ k ih =>
    intro y offset
    funext i
    simp only [R_DistortedFlat_loopY, ih, Nat.shiftLeft_eq]
    by_cases h1 : i % 64 = x ∧ y + 1 ≤ i / 64 ∧ i / 64 < y + 1 + k
    · rw [if_pos h1, if_pos (by omega)]
    · rw [if_neg h1]
      by_cases h2 : i = y * 2 ^ 6 + x
      · have h3 : i % 64 = x := by omega
        have h4 : i / 64 = y := by omega
        rw [if_pos h2, if_pos (by omega)]
        simp only [swirlEntry, h3, h4, Nat.shiftLeft_eq]
      · rw [if_neg h2, if_neg (by omega)]

theorem R_DistortedFlat_loopX_eq (se : SwirlEnv) (leveltime : Int) :
    ∀ (k x : Nat) (offset : Nat → Int), x + k ≤ 64 →
      R_DistortedFlat_loopX se leveltime k x offset =
        fun i => if x ≤ i % 64 ∧ i % 64 < x + k ∧ i / 64 < 64 then swirlEntry se leveltime i
          else offset i := by
  intro k
  induction k with
  | zero =>
    intro x offset _
    funext i
    simp only [R_DistortedFlat_loopX]
    rw [if_neg (by omega)]
  | succ k ih =>
    intro x offset hk
    funext i
    simp only [R_DistortedFlat_loopX, ih (x + 1) _ (by omega),
      R_DistortedFlat_loopY_eq se leveltime x (by omega)]
    by_cases h1 : x + 1 ≤ i % 64 ∧ i % 64 < x + 1 + k ∧ i / 64 < 64
    · rw [if_pos h1, if_pos (by omega)]
    · rw [if_neg h1]
      by_cases h2 : i % 64 = x ∧ 0 ≤ i / 64 ∧ i / 64 < 0 + 64
      · rw [if_pos h2, if_pos (by omega)]
      · rw [if_neg h2, if_neg (by omega)]

theorem R_DistortedFlat_copy_eq (normalflat : Int → Int) (offset : Nat → Int) :
    ∀ (k i : Nat) (d : Nat → Int),
      R_DistortedFlat_copy normalflat offset k i d =
        fun j => if i ≤ j ∧ j < i + k then normalflat (offset j) else d j := by
  intro k
  induction k with
  | zero =>
    intro i d
    funext j
    simp only [R_DistortedFlat_copy]
    rw [if_neg (by omega)]
  | succ k ih =>
    intro i d
    funext j
    simp only [R_DistortedFlat_copy, ih]
    by_cases h1 : i + 1 ≤ j ∧ j < i + 1 + k
    · rw [if_pos h1, if_pos (by omega)]
    · rw [if_neg h1]
      by_cases h2 : j = i
      · subst h2
        rw [if_pos rfl, if_pos (by omega)]
      · rw [if_neg h2, if_neg (by omega)]

theorem swirlX1_le (se : SwirlEnv) (leveltime : Int) (x y : Nat) :
    swirlX1 se leveltime x y ≤ 63 := by
  unfold swirlX1
  exact Nat.and_le_right

theorem swirlY1_le (se : SwirlEnv) (leveltime : Int) (x y : Nat) :
    swirlY1 se leveltime x y ≤ 63 := by
  unfold swirlY1
  exact Nat.and_le_right

theorem swirlEntry_range (se : SwirlEnv) (leveltime : Int) (i : Nat) :
    0 ≤ swirlEntry se leveltime i ∧ swirlEntry se leveltime i < 4096 := by
  have h1 := swirlX1_le se leveltime (i % 64) (i / 64)
  have h2 := swirlY1_le se leveltime (i % 64) (i / 64)
  unfold swirlEntry
  rw [Nat.shiftLeft_eq]
  omega

/-- A call of `R_DistortedFlat` with `swirltic != gametic`: the table is
computed from the formula at `leveltime`, `swirltic` becomes `gametic`, and the
buffer returned is the flat read through the table. -/
theorem R_DistortedFlat_recompute (se : SwirlEnv) (gametic leveltime : Int) (st : SwirlState)
    (flatnum : Int) (h : st.swirltic ≠ gametic) :
    (R_DistortedFlat se gametic leveltime st flatnum).2 = true ∧
    (R_DistortedFlat se gametic leveltime st flatnum).1.swirltic = gametic ∧
    (∀ i, (R_DistortedFlat se gametic leveltime st flatnum).1.offset i =
      if i < 4096 then swirlEntry se leveltime i else st.offset i) ∧
    ∀ i, (R_DistortedFlat se gametic leveltime st flatnum).1.distortedflat i =
      if i < 4096 then se.W_CacheLumpNum flatnum (swirlEntry se leveltime i)
      else st.distortedflat i := by
  unfold R_DistortedFlat
  simp only [if_pos h, decide_eq_true h, R_DistortedFlat_loopX_eq se leveltime 64 0 _ (le_refl _),
    R_DistortedFlat_copy_eq, true_and]
  constructor
  · intro i
    by_cases hi : i < 4096
    · rw [if_pos hi, if_pos (by omega)]
    · rw [if_neg hi, if_neg (by omega)]
  · intro i
    by_cases hi : i < 4096
    · rw [if_pos hi, if_pos (by omega), if_pos (by omega)]
    · rw [if_neg hi, if_neg (by omega)]

/-- A call of `R_DistortedFlat` with `swirltic == gametic`: the table and
`swirltic` stay as they are, and the buffer returned is the flat read through
the table. -/
theorem R_DistortedFlat_reuse (se : SwirlEnv) (gametic leveltime : Int) (st : SwirlState)
    (flatnum : Int) (h : st.swirltic = gametic) :
    (R_DistortedFlat se gametic leveltime st flatnum).2 = false ∧
    (R_DistortedFlat se gametic leveltime st flatnum).1.swirltic = gametic ∧
    (R_DistortedFlat se gametic leveltime st flatnum).1.offset = st.offset ∧
    ∀ i, (R_DistortedFlat se gametic leveltime st flatnum).1.distortedflat i =
      if i < 4096 then se.W_CacheLumpNum flatnum (st.offset i) else st.distortedflat i := by
  unfold R_DistortedFlat
  simp only [h, ne_eq, not_true_eq_false, if_false, decide_False, R_DistortedFlat_copy_eq,
    true_and]
  intro i
  by_cases hi : i < 4096
  · rw [if_pos hi, if_pos (by omega)]
  · rw [if_neg hi, if_neg (by omega)]

theorem R_DistortedFlat_calls_reuse (se : SwirlEnv) (gametic leveltime : Int) :
    ∀ (flats : List Int) (st : SwirlState), st.swirltic = gametic →
      (R_DistortedFlat_calls se gametic leveltime st flats).2 = List.replicate flats.length false ∧
      (R_DistortedFlat_calls se gametic leveltime st flats).1.swirltic = gametic ∧
      (R_DistortedFlat_calls se gametic leveltime st flats).1.offset = st.offset := by
  intro flats
  induction flats with
  | nil => intro st h; exact ⟨rfl, h, rfl⟩
  | cons f rest ih =>
    intro st h
    obtain ⟨r1, r2, r3, _⟩ := R_DistortedFlat_reuse se gametic leveltime st f h
    obtain ⟨i1, i2, i3⟩ := ih (R_DistortedFlat se gametic leveltime st f).1 r2
    simp only [R_DistortedFlat_calls, List.length_cons, List.replicate_succ]
    exact ⟨by rw [r1, i1], i2, by rw [i3, r3]⟩

/-- Memoisation in a tick whose number differs from the stored `swirltic`:
of the calls made in the tick the first computes the table from the formula at
`leveltime` and no later one computes it again, so the table after the last
call is still the one of the first. -/
theorem R_DistortedFlat_calls_tick (se : SwirlEnv) (gametic leveltime : Int) (st : SwirlState)
    (flatnum : Int) (rest : List Int) (h : st.swirltic ≠ gametic) :
    (R_DistortedFlat_calls se gametic leveltime st (flatnum :: rest)).2 =
      true :: List.replicate rest.length false ∧
    ∀ i, i < 4096 →
      (R_DistortedFlat_calls se gametic leveltime st (flatnum :: rest)).1.offset i =
        swirlEntry se leveltime i := by
  obtain ⟨r1, r2, r3, _⟩ := R_DistortedFlat_recompute se gametic leveltime st flatnum h
  obtain ⟨i1, _, i3⟩ := R_DistortedFlat_calls_reuse se gametic leveltime rest
    (R_DistortedFlat se gametic leveltime st flatnum).1 r2
  simp only [R_DistortedFlat_calls]
  refine ⟨by rw [r1, i1], ?_⟩
  intro i hi
  rw [i3, r3, if_pos hi]

/-- C28 fails in the first tick of a run: the static `swirltic` starts at 0
and so does `gametic`, so the calls of tick 0 find `swirltic == gametic` and
none of them computes the remap table.  `offset[]` keeps its initial zeros,
where the formula gives for instance 325 at index 65, and the flat returned is
byte 0 of the source in all 4096 places. -/
theorem first_tick_no_recompute :
    swirlInitial.swirltic = 0 ∧
    (R_DistortedFlat_calls swirlEnvW 0 0 swirlInitial [3, 4]).2 = [false, false] ∧
    (∀ i, (R_DistortedFlat swirlEnvW 0 0 swirlInitial 3).1.offset i = 0) ∧
    swirlEntry swirlEnvW 0 65 = 325 ∧
    ∀ i, i < 4096 → (R_DistortedFlat swirlEnvW 0 0 swirlInitial 3).1.distortedflat i = 3000 := by
  refine ⟨rfl, by decide, fun _ => rfl, by decide, ?_⟩
  intro i hi
  rw [(R_DistortedFlat_reuse swirlEnvW 0 0 swirlInitial 3 rfl).2.2.2 i, if_pos hi]
  rfl

/-- C29 (distortion wraparound).  For every level time and every content of
the sine table: a call of `R_DistortedFlat` that computes the remap table
stores in each of the 4096 entries `offset[(y << 6) + x]`, `x` and `y` in `[0,
63]`, the value `(y1 << 6) + x1` with `x1` and `y1` in `[0, 63]`; after every
call, computing or not, each entry lies in `[0, 4096)` provided the entries
did before (as the initial zeros do), and the flat returned satisfies
`distortedflat[i] = normalflat[offset[i]]` for every `i` in `[0, 4096)`. -/
theorem distortion_wraparound (se : SwirlEnv) (gametic leveltime : Int) (st : SwirlState)
    (flatnum : Int) :
    (st.swirltic ≠ gametic → ∀ x y : Nat, x < 64 → y < 64 →
      (R_DistortedFlat se gametic leveltime st flatnum).1.offset ((y <<< 6) + x) =
        (((swirlY1 se leveltime x y <<< 6) + swirlX1 se leveltime x y : Nat) : Int) ∧
      swirlX1 se leveltime x y ≤ 63 ∧ swirlY1 se leveltime x y ≤ 63) ∧
    ((st.swirltic ≠ gametic ∨ ∀ i, i < 4096 → 0 ≤ st.offset i ∧ st.offset i < 4096) →
      ∀ i, i < 4096 →
        0 ≤ (R_DistortedFlat se gametic leveltime st flatnum).1.offset i ∧
        (R_DistortedFlat se gametic leveltime st flatnum).1.offset i < 4096) ∧
    ∀ i, i < 4096 →
      (R_DistortedFlat se gametic leveltime st flatnum).1.distortedflat i =
        se.W_CacheLumpNum flatnum ((R_DistortedFlat se gametic leveltime st flatnum).1.offset i) := by
  by_cases h : st.swirltic ≠ gametic
  · obtain ⟨_, _, r3, r4⟩ := R_DistortedFlat_recompute se gametic leveltime st flatnum h
    refine ⟨?_, ?_, ?_⟩
    · intro _ x y hx hy
      have hi : (y <<< 6) + x < 4096 := by rw [Nat.shiftLeft_eq]; omega
      have h3 : ((y <<< 6) + x) % 64 = x := by rw [Nat.shiftLeft_eq]; omega
      have h4 : ((y <<< 6) + x) / 64 = y := by rw [Nat.shiftLeft_eq]; omega
      rw [r3, if_pos hi]
      simp only [swirlEntry, h3, h4]
      exact ⟨trivial, swirlX1_le se leveltime x y, swirlY1_le se leveltime x y⟩
    · intro _ i hi
      rw [r3, if_pos hi]
      exact swirlEntry_range se leveltime i
    · intro i hi
      rw [r4, r3, if_pos hi, if_pos hi]
  · have h1 : st.swirltic = gametic := not_not.mp h
    obtain ⟨_, _, r3, r4⟩ := R_DistortedFlat_reuse se gametic leveltime st flatnum h1
    refine ⟨fun hne => absurd hne h, ?_, ?_⟩
    · intro hor i hi
      rw [r3]
      rcases hor with hne | hr
      · exact absurd hne h
      · exact hr i hi
    · intro i hi
      rw [r4, r3, if_pos hi]

/-- Witness of C29: the first call of tick 5 at level time 7, with a sine
table that holds negative values, stores `(5 << 6) + 5 = 325` in `offset[65]`,
and byte 65 of the flat returned is byte 325 of lump 3. -/
theorem distortion_wraparound_witness :
    (R_DistortedFlat swirlEnvW 5 7 swirlInitial 3).1.offset ((1 <<< 6) + 1) = 325 ∧
    swirlX1 swirlEnvW 7 1 1 = 5 ∧ swirlY1 swirlEnvW 7 1 1 = 5 ∧
    (0 ≤ (R_DistortedFlat swirlEnvW 5 7 swirlInitial 3).1.offset 65 ∧
      (R_DistortedFlat swirlEnvW 5 7 swirlInitial 3).1.offset 65 < 4096) ∧
    (R_DistortedFlat swirlEnvW 5 7 swirlInitial 3).1.distortedflat 65 =
      swirlEnvW.W_CacheLumpNum 3 ((R_DistortedFlat swirlEnvW 5 7 swirlInitial 3).1.offset 65) := by
  have h := distortion_wraparound swirlEnvW 5 7 swirlInitial 3
  refine ⟨((h.1 (by decide) 1 1 (by decide) (by decide)).1).trans (by decide), by decide,
    by decide, h.2.1 (Or.inl (by decide)) 65 (by decide), h.2.2 65 (by decide)⟩

/-! ## Range validity -/

theorem apply_rangesValid (env : Env) (st : PlaneState) (c : PlaneCall)
    (h : rangesValid env st) (ha : argsValid env c) : rangesValid env (c.apply env st) := by
  obtain ⟨h0, hv⟩ := h
  cases c with
  | clear =>
    simp only [PlaneCall.apply]
    obtain ⟨c1, _⟩ := R_ClearPlanes_counts env st
    refine ⟨by omega, ?_⟩
    intro i hi1 hi2
    omega
  | find height picnum lightlevel nb =>
    simp only [PlaneCall.apply]
    rcases firstMatch_or_noMatch st (canonHeight env picnum height) picnum
      (canonLight env picnum lightlevel) with ⟨i, hi⟩ | hno
    · rw [R_FindPlane_hit env st height picnum lightlevel nb i hi]
      exact ⟨h0, hv⟩
    · obtain ⟨_, m2, _, m4, m5⟩ := R_FindPlane_miss env st height picnum lightlevel nb h0 hno
      refine ⟨by omega, ?_⟩
      intro i hi1 hi2
      by_cases hlt : i < liveCount st
      · rw [m4 i hlt]; exact hv i hi1 hlt
      · have : i = liveCount st := by omega
        rw [this, m5]
        exact Or.inl ⟨rfl, rfl⟩
  | check hd start stop nb =>
    simp only [PlaneCall.apply]
    obtain ⟨a1, a2, a3⟩ := ha
    rcases R_CheckPlane_merge_or_split st (st.visplanes + hd) start stop with ⟨m1, m2⟩ | hs
    · rw [R_CheckPlane_merge env st (st.visplanes + hd) start stop nb m1 m2]
      refine ⟨h0, ?_⟩
      intro i hi1 hi2
      have hl : liveCount (assign st (st.visplanes + hd)
          { deref st (st.visplanes + hd) with
            minx := min (deref st (st.visplanes + hd)).minx start
            maxx := max (deref st (st.visplanes + hd)).maxx stop }) = liveCount st := rfl
      rw [hl] at hi2
      simp only [assign, deref]
      split_ifs with hih
      · have hi3 : i = hd := by omega
        subst hi3
        have hold := hv i hi1 hi2
        have e : st.visplanes + i - st.visplanes = i := by omega
        rw [e]
        unfold rangeValid at hold ⊢
        simp only
        rcases hold with ⟨o1, o2⟩ | ⟨o1, o2, o3⟩
        · right; omega
        · right; omega
      · exact hv i hi1 hi2
    · obtain ⟨_, s2, _, s4, s5⟩ := R_CheckPlane_split env st (st.visplanes + hd) start stop nb hs
      refine ⟨by omega, ?_⟩
      intro i hi1 hi2
      by_cases hlt : i < liveCount st
      · rw [s4 i hlt]; exact hv i hi1 hlt
      · have : i = liveCount st := by omega
        rw [this, s5]
        exact Or.inr ⟨a1, a2, a3⟩

theorem runCalls_rangesValid (env : Env) (calls : List PlaneCall) :
    ∀ st, rangesValid env st → (∀ c ∈ calls, argsValid env c) →
      rangesValid env (runCalls env st calls) := by
  induction calls with
  | nil => intro st h _; exact h
  | cons c cs ih =>
    intro st h ha
    have h1 := apply_rangesValid env st c h (ha c (List.mem_cons_self c cs))
    have h2 := ih (c.apply env st) h1 (fun d hd => ha d (List.mem_cons_of_mem c hd))
    simpa only [runCalls, List.foldl_cons] using h2

/-- C31 (range validity invariant).  With `SCREENWIDTH >= 0`, in every state
reached from `R_ClearPlanes` (on any state) by `R_FindPlane` calls and by
`R_CheckPlane` calls with `0 <= start <= stop < SCREENWIDTH`, every live entry
has the empty range `minx = SCREENWIDTH`, `maxx = -1` or a range with `0 <=
minx <= maxx < SCREENWIDTH`.  Hence the boundary columns `minx-1` and `maxx+1` that
`R_DrawPlanes` writes for an entry with `minx <= maxx` lie in `[-1,
SCREENWIDTH]`, and the columns that a further `R_CheckPlane` call scans on the
entry, those of `[max(minx, start), min(maxx, stop)]`, lie in `[0,
SCREENWIDTH)`. -/
theorem range_validity (env : Env) (st0 : PlaneState) (calls : List PlaneCall)
    (hsw : 0 ≤ env.SCREENWIDTH) (hargs : ∀ c ∈ calls, argsValid env c) (i : Int)
    (hi0 : 0 ≤ i) (hi1 : i < liveCount (runCalls env (R_ClearPlanes env st0) calls)) :
    rangeValid env ((runCalls env (R_ClearPlanes env st0) calls).store i) ∧
    (((runCalls env (R_ClearPlanes env st0) calls).store i).minx ≤
        ((runCalls env (R_ClearPlanes env st0) calls).store i).maxx →
      -1 ≤ ((runCalls env (R_ClearPlanes env st0) calls).store i).minx - 1 ∧
      ((runCalls env (R_ClearPlanes env st0) calls).store i).maxx + 1 ≤ env.SCREENWIDTH) ∧
    ∀ start stop x,
      max ((runCalls env (R_ClearPlanes env st0) calls).store i).minx start ≤ x →
      x ≤ min ((runCalls env (R_ClearPlanes env st0) calls).store i).maxx stop →
      0 ≤ x ∧ x < env.SCREENWIDTH := by
  have hclear : rangesValid env (R_ClearPlanes env st0) := by
    obtain ⟨c1, _⟩ := R_ClearPlanes_counts env st0
    refine ⟨by omega, ?_⟩
    intro j hj1 hj2
    omega
  have hv := (runCalls_rangesValid env calls _ hclear hargs).2 i hi0 hi1
  refine ⟨hv, ?_, ?_⟩
  · intro hne
    unfold rangeValid at hv
    rcases hv with ⟨o1, o2⟩ | ⟨o1, o2, o3⟩ <;> omega
  · intro start stop x hx1 hx2
    unfold rangeValid at hv
    rcases hv with ⟨o1, o2⟩ | ⟨o1, o2, o3⟩ <;> omega

/-- Witness of C31: after `R_ClearPlanes`, `R_FindPlane (0, 5, 3)`, the
claims `[10, 50]` and `[60, 80]` on the entry and a second `R_FindPlane (1, 5,
3)`, entry 0 has the range `[10, 80]` and entry 1 the empty range `[320,
-1]`. -/
theorem range_validity_witness :
    rangeValid envW ((runCalls envW (R_ClearPlanes envW fullState)
      [.find 0 5 3 1000, .check 0 10 50 2000, .check 0 60 80 3000, .find 1 5 3 4000]).store 0) ∧
    ((runCalls envW (R_ClearPlanes envW fullState)
      [.find 0 5 3 1000, .check 0 10 50 2000, .check 0 60 80 3000, .find 1 5 3 4000]).store
        0).minx = 10 ∧
    ((runCalls envW (R_ClearPlanes envW fullState)
      [.find 0 5 3 1000, .check 0 10 50 2000, .check 0 60 80 3000, .find 1 5 3 4000]).store
        0).maxx = 80 ∧
    ((runCalls envW (R_ClearPlanes envW fullState)
      [.find 0 5 3 1000, .check 0 10 50 2000, .check 0 60 80 3000, .find 1 5 3 4000]).store
        1).minx = 320 :=
  ⟨(range_validity envW fullState
      [.find 0 5 3 1000, .check 0 10 50 2000, .check 0 60 80 3000, .find 1 5 3 4000]
      (by decide)
      (by
        intro c hc
        simp only [List.mem_cons, List.mem_singleton, List.not_mem_nil, or_false] at hc
        rcases hc with rfl | rfl | rfl | rfl
        · trivial
        · exact ⟨by decide, by decide, by decide⟩
        · exact ⟨by decide, by decide, by decide⟩
        · trivial)
      0 (by decide) (by decide)).1,
    by decide, by decide, by decide⟩

/-! ## The light index of a flat -/

/-- C37 (sweep termination and index bounds).  For all 32-bit unsigned `t1,
b1, t2, b2`, `R_MakeSpans` returns once the fuel exceeds `2^32`, and none of its
counters wraps around: each loop ends with its counter at the start value plus
(`t1`, `t2`) or minus (`b1`, `b2`) the number of its iterations, inside `[0,
2^32)`.  Every row passed to `R_MapPlane` lies in the original `[t1, b1]` and
`spanstart` changes only at indices in the original `[t2, b2]`; so when each
non-empty interval has its bottom below `MAXHEIGHT`, every `spanstart` index
read or written is below `MAXHEIGHT`, and an interval marked empty by `top =
0xffffffff` causes no access at all, whatever its bottom is. -/
theorem sweep_termination (fuel : Nat) (x : Int) (t1 b1 t2 b2 : Nat) (spanstart : Nat → Int)
    (MAXHEIGHT : Nat)
    (ht1 : t1 < 2 ^ 32) (hb1 : b1 < 2 ^ 32) (ht2 : t2 < 2 ^ 32) (hb2 : b2 < 2 ^ 32)
    (hfuel : 2 ^ 32 < fuel) :
    (∃ (k1 k2 k3 k4 : Nat) (c1 c2 : List MapPlaneCall) (s3 s4 : Nat → Int),
      R_MakeSpans_loop1 x spanstart b1 t2 fuel t1 = some (t1 + k1, c1) ∧
      c1.length = k1 ∧ t1 + k1 < 2 ^ 32 ∧
      R_MakeSpans_loop2 x spanstart (t1 + k1) b2 fuel b1 = some (b1 - k2, c2) ∧
      c2.length = k2 ∧ k2 ≤ b1 ∧
      R_MakeSpans_loop3 x (t1 + k1) b2 fuel t2 spanstart = some (t2 + k3, s3) ∧
      t2 + k3 < 2 ^ 32 ∧
      R_MakeSpans_loop4 x (b1 - k2) (t2 + k3) fuel b2 s3 = some (b2 - k4, s4) ∧ k4 ≤ b2 ∧
      R_MakeSpans fuel x t1 b1 t2 b2 spanstart = some (s4, c1 ++ c2)) ∧
    ∃ (ss1 : Nat → Int) (calls : List MapPlaneCall),
      R_MakeSpans fuel x t1 b1 t2 b2 spanstart = some (ss1, calls) ∧
      (∀ c ∈ calls, ∃ r : Nat, c = ⟨toInt32 r, spanstart r, x - 1⟩ ∧ t1 ≤ r ∧ r ≤ b1 ∧
        ((t1 ≤ b1 → b1 < MAXHEIGHT) → r < MAXHEIGHT)) ∧
      (∀ r, ss1 r ≠ spanstart r →
        t2 ≤ r ∧ r ≤ b2 ∧ ((t2 ≤ b2 → b2 < MAXHEIGHT) → r < MAXHEIGHT)) ∧
      (t1 = 0xffffffff → b1 < 0xffffffff → calls = []) ∧
      (t2 = 0xffffffff → b2 < 0xffffffff → ss1 = spanstart) := by
  have e1 := R_MakeSpans_loop1_eq x spanstart b1 t2 ht2 fuel t1 (by omega)
  have e2 := R_MakeSpans_loop2_eq x spanstart (t1 + (min t2 (b1 + 1) - t1)) b2 fuel b1 hb1
    (by omega)
  have e3 := R_MakeSpans_loop3_eq x (t1 + (min t2 (b1 + 1) - t1)) b2 (by omega) fuel t2
    spanstart (by omega)
  have e4 := R_MakeSpans_loop4_eq x
    (b1 - (b1 + 1 - max (b2 + 1) (t1 + (min t2 (b1 + 1) - t1))))
    (t2 + (min (t1 + (min t2 (b1 + 1) - t1)) (b2 + 1) - t2)) fuel b2
    (fun r => if t2 ≤ r ∧ r < t1 + (min t2 (b1 + 1) - t1) ∧ r ≤ b2 then x else spanstart r)
    hb2 (by omega)
  have em := R_MakeSpans_eq fuel x t1 b1 t2 b2 spanstart ht1 hb1 ht2 hb2 (by omega) (by omega)
  constructor
  · refine ⟨_, _, _, _, _, _, _, _, e1, ?_, by omega, e2, ?_, by omega, e3, by omega, e4,
      by omega, ?_⟩
    · simp only [List.length_map, List.length_range']
    · simp only [List.length_map, List.length_reverse, List.length_range']
    · unfold R_MakeSpans
      rw [e1]
      simp only
      rw [e2]
      simp only
      rw [e3]
      simp only
      rw [e4]
  · refine ⟨_, _, em, ?_, ?_, ?_, ?_⟩
    · intro c hc
      obtain ⟨r, hr, rfl⟩ := List.mem_map.mp hc
      obtain ⟨r1, r2, _⟩ := mem_flushRows hr
      exact ⟨r, rfl, r1, r2, fun h => by omega⟩
    · intro r hr
      by_cases hc : t2 ≤ r ∧ r ≤ b2 ∧ ¬(t1 ≤ r ∧ r ≤ b1)
      · exact ⟨hc.1, hc.2.1, fun h => by omega⟩
      · exact absurd (if_neg hc) hr
    · intro h1 h2
      rw [List.map_eq_nil_iff]
      apply List.eq_nil_iff_forall_not_mem.mpr
      intro r hr
      obtain ⟨r1, r2, _⟩ := mem_flushRows hr
      omega
    · intro h1 h2
      funext r
      rw [if_neg (by omega)]

/-- Witness of C37: with the previous column empty (`top = 0xffffffff`, stale
bottom 150) and the interval `[4, 9]` at column 20, `R_MakeSpans` returns,
makes no `R_MapPlane` call and sets `spanstart[4 .. 9]` to 20. -/
theorem sweep_termination_witness :
    (∃ (ss1 : Nat → Int) (calls : List MapPlaneCall),
      R_MakeSpans 4294967297 20 0xffffffff 150 4 9 (fun _ => 0) = some (ss1, calls) ∧
      calls = [] ∧ ss1 4 = 20 ∧ ss1 9 = 20 ∧ ss1 10 = 0 ∧
      ∀ r, ss1 r ≠ (fun _ => (0 : Int)) r → r < 200) := by
  obtain ⟨_, ss1, calls, e, h1, h2, h3, _⟩ :=
    sweep_termination 4294967297 20 0xffffffff 150 4 9 (fun _ => 0) 200
      (by decide) (by decide) (by decide) (by decide) (by decide)
  have em := R_MakeSpans_eq 4294967297 20 0xffffffff 150 4 9 (fun _ => 0)
    (by decide) (by decide) (by decide) (by decide) (by decide) (by decide)
  rw [e] at em
  simp only [Option.some.injEq, Prod.mk.injEq] at em
  refine ⟨ss1, calls, e, h3 rfl (by decide), ?_, ?_, ?_, fun r hr => (h2 r hr).2.2 (by decide)⟩
  · rw [em.1]; decide
  · rw [em.1]; decide
  · rw [em.1]; decide

/-! ## The index into `flattranslation[]` -/

/-- C32 fails for a sky-transfer plane: the registry holds one live entry
whose picnum is `PL_SKYFLAT | 5`, the `int` value `-2147483643`, so no live
entry is a non-sky one.  `R_DrawPlanes` reads `flattranslation[pl->picnum]` for
`swirling` at the top of the plane loop, before the sky test, and so uses the
index `-2147483643`, which is negative and in `[0, numflats)` for no
`numflats`; the plane is then drawn as a sky. -/
theorem flat_lookup_sky_transfer :
    liveCount transferState = 1 ∧
    isSky envW (transferState.store 0).picnum = true ∧
    (toUInt32 (transferState.store 0).picnum &&& envW.PL_SKYFLAT) = 0x80000000 ∧
    ∃ st1 ss1 visits,
      R_DrawPlanes envW viewW 300 transferState (fun _ => 0) = some (.ok (st1, ss1, visits)) ∧
      visits.map PlaneVisit.flatRead = [-2147483643] ∧
      visits.map (fun v => v.draw.columns) = [[5, 6, 7]] ∧
      visits.map (fun v => v.draw.mapCalls) = [[]] :=
  ⟨by decide, by decide, by decide, _, _, _, rfl, by rfl, by rfl, by rfl⟩

/-! ## The chat queue -/

theorem and_queue_mask (n : Nat) : n &&& (QUEUESIZE - 1) = n % 128 :=
  Nat.and_pow_two_sub_one_eq_mod n 7

theorem HU_queueChatChar_spec (M : Int) (q : ChatQueue) (c : Int) (h : q.inRange) :
    (HU_queueChatChar M q c).inRange ∧
    (HU_queueChatChar M q c).contents = listEnqueue q.contents c ∧
    (q.contents.length = 127 → HU_queueChatChar M q c = { q with message := M }) := by
  obtain ⟨h1, h2⟩ := h
  unfold QUEUESIZE at h1 h2
  have hlen : q.contents.length = (q.head + 128 - q.tail) % 128 := by
    simp [ChatQueue.contents, QUEUESIZE]
  unfold HU_queueChatChar
  rw [and_queue_mask]
  by_cases hfull : (q.head + 1) % 128 = q.tail
  · rw [if_pos hfull]
    refine ⟨⟨h1, h2⟩, ?_, fun _ => rfl⟩
    unfold listEnqueue
    rw [if_neg (by rw [hlen]; omega)]
    rfl
  · rw [if_neg hfull]
    refine ⟨⟨by show (q.head + 1) % 128 < 128; omega, h2⟩, ?_, ?_⟩
    · unfold listEnqueue
      rw [if_pos (by rw [hlen]; omega)]
      have hn : ((q.head + 1) % 128 + 128 - q.tail) % 128 = (q.head + 128 - q.tail) % 128 + 1 := by
        omega
      simp only [ChatQueue.contents, QUEUESIZE, hn, List.range_succ, List.map_append,
        List.map_cons, List.map_nil]
      congr 1
      · apply List.map_congr_left
        intro i hi
        rw [List.mem_range] at hi
        rw [if_neg (by omega)]
      · rw [if_pos (by omega)]
    · intro h127
      rw [hlen] at h127
      omega

theorem HU_dequeueChatChar_spec (q : ChatQueue) (h : q.inRange) :
    (HU_dequeueChatChar q).1.inRange ∧
    (HU_dequeueChatChar q).1.contents = (listDequeue q.contents).1 ∧
    (HU_dequeueChatChar q).2 = (listDequeue q.contents).2 := by
  obtain ⟨h1, h2⟩ := h
  unfold QUEUESIZE at h1 h2
  unfold HU_dequeueChatChar
  by_cases hne : q.head ≠ q.tail
  · rw [if_pos hne, and_queue_mask]
    obtain ⟨n, hn⟩ : ∃ n, (q.head + 128 - q.tail) % 128 = n + 1 :=
      ⟨(q.head + 128 - q.tail) % 128 - 1, by omega⟩
    have hn2 : (q.head + 128 - (q.tail + 1) % 128) % 128 = n := by omega
    have hc : q.contents = q.chatchars q.tail ::
        (List.range n).map fun i => q.chatchars (((q.tail + 1) % 128 + i) % 128) := by
      simp only [ChatQueue.contents, QUEUESIZE, hn, List.range_succ_eq_map, List.map_cons,
        List.map_map]
      congr 1
      · rw [Nat.add_zero, Nat.mod_eq_of_lt h2]
      · apply List.map_congr_left
        intro i _
        simp only [Function.comp]
        congr 1
        omega
    refine ⟨⟨h1, by show (q.tail + 1) % 128 < 128; omega⟩, ?_, ?_⟩
    · rw [hc]
      simp only [ChatQueue.contents, QUEUESIZE, hn2, listDequeue]
    · rw [hc]
      rfl
  · rw [if_neg hne]
    have he : q.head = q.tail := not_not.mp hne
    have hc : q.contents = [] := by
      simp [ChatQueue.contents, QUEUESIZE, he]
    rw [hc]
    exact ⟨⟨h1, h2⟩, rfl, rfl⟩

theorem runChat_spec (M : Int) :
    ∀ (calls : List ChatCall) (q : ChatQueue), q.inRange →
      (runChat M q calls).1.inRange ∧
      (runChat M q calls).1.contents = (runList q.contents calls).1 ∧
      (runChat M q calls).2 = (runList q.contents calls).2 := by
  intro calls
  induction calls with
  | nil => intro q h; exact ⟨h, rfl, rfl⟩
  | cons a rest ih =>
    intro q h
    cases a with
    | queue c =>
      obtain ⟨e1, e2, _⟩ := HU_queueChatChar_spec M q c h
      simp only [runChat, runList]
      rw [← e2]
      exact ih _ e1
    | dequeue =>
      obtain ⟨e1, e2, e3⟩ := HU_dequeueChatChar_spec q h
      obtain ⟨i1, i2, i3⟩ := ih _ e1
      simp only [runChat, runList]
      rw [← e2, ← e3]
      exact ⟨i1, i2, by rw [i3]⟩

/-- C36 (the chat queue is a bounded FIFO).  From the initial state, for
every sequence of `HU_queueChatChar` and `HU_dequeueChatChar` calls, the ring
buffer behaves as the list queue of capacity 127: the dequeues return the same
characters, in insertion order and 0 on the empty queue, and the buffer then
holds the characters of the list.  The buffer never holds more than 127
characters, and a `HU_queueChatChar` call on a buffer that holds 127 changes
nothing but `plr->message`. -/
theorem chat_queue_fifo (HUSTR_MSGU : Int) (calls : List ChatCall) :
    (runChat HUSTR_MSGU chatInitial calls).2 = (runList [] calls).2 ∧
    (runChat HUSTR_MSGU chatInitial calls).1.contents = (runList [] calls).1 ∧
    (runChat HUSTR_MSGU chatInitial calls).1.contents.length ≤ 127 ∧
    ∀ c, (runChat HUSTR_MSGU chatInitial calls).1.contents.length = 127 →
      HU_queueChatChar HUSTR_MSGU (runChat HUSTR_MSGU chatInitial calls).1 c =
        { (runChat HUSTR_MSGU chatInitial calls).1 with message := HUSTR_MSGU } := by
  have h0 : chatInitial.inRange := ⟨by decide, by decide⟩
  obtain ⟨r1, r2, r3⟩ := runChat_spec HUSTR_MSGU calls chatInitial h0
  have hc : chatInitial.contents = [] := rfl
  rw [hc] at r2 r3
  refine ⟨r3, r2, ?_, ?_⟩
  · simp only [ChatQueue.contents, QUEUESIZE, List.length_map, List.length_range]
    have := r1.2
    unfold QUEUESIZE at this
    omega
  · intro c h127
    exact (HU_queueChatChar_spec HUSTR_MSGU _ c r1).2.2 h127

/-- Witness of C36: two characters come back in insertion order and a
third dequeue returns 0; after 127 enqueues the buffer is full, and one more
enqueue only sets the message. -/
theorem chat_queue_fifo_witness :
    (runChat 99 chatInitial [.queue 65, .queue 66, .dequeue, .dequeue, .dequeue]).2 =
      [65, 66, 0] ∧
    (runChat 99 chatInitial chatFill).1.contents.length = 127 ∧
    HU_queueChatChar 99 (runChat 99 chatInitial chatFill).1 8 =
      { (runChat 99 chatInitial chatFill).1 with message := 99 } :=
  ⟨by decide, by decide, (chat_queue_fifo 99 chatFill).2.2.2 8 (by decide)⟩

/-! ## `WritePCXfile` -/

theorem WritePCXfile_pack_length (data : Nat → Nat) :
    ∀ k i, (WritePCXfile_pack data k i).length ≤ 2 * k := by
  intro k
  induction k with
  | zero => intro i; simp [WritePCXfile_pack]
  | succ k ih =>
    intro i
    have := ih (i + 1)
    simp only [WritePCXfile_pack, List.length_append]
    split_ifs <;> simp only [List.length_cons, List.length_nil] <;> omega

theorem pcxDecode_cons_literal (b : Nat) (rest : List Nat) (h : b &&& 0xc0 ≠ 0xc0) :
    pcxDecode (b :: rest) = b :: pcxDecode rest := by
  cases rest with
  | nil => simp [pcxDecode, h]
  | cons v r => simp [pcxDecode, h]

theorem pcxDecode_cons_run (b v : Nat) (rest : List Nat) (h : b &&& 0xc0 = 0xc0) :
    pcxDecode (b :: v :: rest) = List.replicate (b &&& 0x3f) v ++ pcxDecode rest := by
  simp [pcxDecode, h]

theorem pcxDecode_pack (data : Nat → Nat) :
    ∀ k i, pcxDecode (WritePCXfile_pack data k i) = (List.range' i k).map data := by
  intro k
  induction k with
  | zero => intro i; simp [WritePCXfile_pack, pcxDecode]
  | succ k ih =>
    intro i
    simp only [WritePCXfile_pack, List.range'_succ, List.map_cons]
    by_cases h : data i &&& 0xc0 ≠ 0xc0
    · rw [if_pos h, List.singleton_append, pcxDecode_cons_literal _ _ h, ih]
    · rw [if_neg h]
      show pcxDecode (0xc1 :: data i :: WritePCXfile_pack data k (i + 1)) = _
      rw [pcxDecode_cons_run _ _ _ (by decide), ih]
      rfl

/-- C34 (PCX packing round trip).  For every image of `width * height`
bytes, the file that `WritePCXfile` writes is the 128-byte header, the packed
data, the palette mark `0x0c` and the 768 palette bytes; the packed data, in
which a byte with both top bits set is stored as `0xc1` followed by the byte
and every other byte as it is, decodes under PCX run-length decoding to exactly
the image bytes in order; and the length of the file is `128 + packed + 769`,
never more than the `width * height * 2 + 1000` bytes allocated. -/
theorem pcx_round_trip (data : Nat → Nat) (width height : Int) (palette : Nat → Nat)
    (hsize : 0 ≤ width * height) :
    (WritePCXfile data width height palette).bytes =
      WritePCXfile_header width height ++
        WritePCXfile_pack data (width * height).toNat 0 ++ 0x0c :: (List.range 768).map palette ∧
    (WritePCXfile_header width height).length = 128 ∧
    pcxDecode (WritePCXfile_pack data (width * height).toNat 0) =
      (List.range (width * height).toNat).map data ∧
    (WritePCXfile data width height palette).bytes.length =
      128 + (WritePCXfile_pack data (width * height).toNat 0).length + 769 ∧
    ((WritePCXfile data width height palette).bytes.length : Int) ≤
      (WritePCXfile data width height palette).allocated := by
  have hl := WritePCXfile_pack_length data (width * height).toNat 0
  have hh : (WritePCXfile_header width height).length = 128 := by
    simp [WritePCXfile_header, shortBytes]
  have hlen : (WritePCXfile data width height palette).bytes.length =
      128 + (WritePCXfile_pack data (width * height).toNat 0).length + 769 := by
    simp only [WritePCXfile, List.length_append, hh, List.length_map, List.length_range,
      List.length_cons, List.length_nil]
  refine ⟨?_, hh, ?_, hlen, ?_⟩
  · simp only [WritePCXfile, List.append_assoc, List.singleton_append]
  · rw [pcxDecode_pack, List.range_eq_range']
  · rw [hlen]
    simp only [WritePCXfile]
    omega

/-- Witness of C34: a 2x2 image with the bytes `5, 0xc5, 0xff, 0x3f` is
packed as `5, 0xc1, 0xc5, 0xc1, 0xff, 0x3f`, which decodes to the image; the
file has `128 + 6 + 769 = 903` bytes of the 1008 allocated. -/
theorem pcx_round_trip_witness :
    WritePCXfile_pack (fun i => [5, 0xc5, 0xff, 0x3f].getD i 0) 4 0 =
      [5, 0xc1, 0xc5, 0xc1, 0xff, 0x3f] ∧
    pcxDecode (WritePCXfile_pack (fun i => [5, 0xc5, 0xff, 0x3f].getD i 0) ((2 : Int) * 2).toNat 0) =
      (List.range ((2 : Int) * 2).toNat).map (fun i => [5, 0xc5, 0xff, 0x3f].getD i 0) ∧
    (WritePCXfile (fun i => [5, 0xc5, 0xff, 0x3f].getD i 0) 2 2 (fun _ => 0)).bytes.length = 903 ∧
    (WritePCXfile (fun i => [5, 0xc5, 0xff, 0x3f].getD i 0) 2 2 (fun _ => 0)).allocated = 1008 :=
  ⟨by decide,
    (pcx_round_trip (fun i => [5, 0xc5, 0xff, 0x3f].getD i 0) 2 2 (fun _ => 0) (by decide)).2.2.1,
    by rfl, by decide⟩

/-! ## `V_DrawPatch` -/

theorem V_DrawPatchCrispy_pixels_spec (ve : VideoEnv) (vs : VideoState) (patch : patch_t)
    (x col column topdelta source : Int) :
    ∀ (k : Nat) (top srccol dest dest2 : Int) (screen : Int → Nat),
      (∀ w ∈ (V_DrawPatchCrispy_pixels ve vs patch 0 x col column topdelta source k top srccol
          dest dest2 screen).2,
        ∃ j : Nat, j < k ∧ 0 ≤ top + j ∧ w.shadow = false ∧
          w.offset = dest + j * ve.SCREENWIDTH ∧ w.x = x ∧ w.col = col ∧ w.column = column ∧
          w.topdelta = topdelta ∧ w.top = top + j ∧ w.srccol = srccol + j ∧
          w.value = drawpatchpx vs w.old (patch.bytes (source + (srccol + j)))) ∧
      (∀ j : Nat, j < k → 0 ≤ top + j →
        ∃ w ∈ (V_DrawPatchCrispy_pixels ve vs patch 0 x col column topdelta source k top srccol
            dest dest2 screen).2,
          w.col = col ∧ w.column = column ∧ w.topdelta = topdelta ∧ w.srccol = srccol + j) := by
  intro k
  induction k with
  | zero =>
    intro top srccol dest dest2 screen
    refine ⟨?_, ?_⟩
    · intro w hw
      simp only [V_DrawPatchCrispy_pixels] at hw
      exact absurd hw (List.not_mem_nil w)
    · intro j hj
      omega
  | succ k ih =>
    intro top srccol dest dest2 screen
    simp only [V_DrawPatchCrispy_pixels, ne_eq, not_true_eq_false, if_false, List.nil_append]
    by_cases ht : top ≥ 0
    · simp only [if_pos ht]
      obtain ⟨i1, i2⟩ := ih (top + 1) (srccol + 1) (dest + ve.SCREENWIDTH) dest2
        (fun i => if i = dest then drawpatchpx vs (screen dest) (patch.bytes (source + srccol))
          else screen i)
      refine ⟨?_, ?_⟩
      · intro w hw
        rcases List.mem_append.mp hw with h1 | h1
        · rw [List.mem_singleton] at h1
          subst h1
          exact ⟨0, by omega, by simpa using ht, rfl, by simp, rfl, rfl, rfl, rfl, by simp,
            by simp, by simp⟩
        · obtain ⟨j, j1, j2, j3, j4, j5, j6, j7, j8, j9, j10, j11⟩ := i1 w h1
          refine ⟨j + 1, by omega, by push_cast; omega, j3, ?_, j5, j6, j7, j8, ?_, ?_, ?_⟩
          · rw [j4]; push_cast; ring
          · rw [j9]; push_cast; ring
          · rw [j10]; push_cast; ring
          · rw [j11]
            congr 2
            push_cast; ring
      · intro j hj1 hj2
        cases j with
        | zero =>
          refine ⟨_, List.mem_append_left _ (List.mem_singleton_self _), rfl, rfl, rfl, ?_⟩
          simp
        | succ j =>
          obtain ⟨w, hw, w1, w2, w3, w4⟩ := i2 j (by omega) (by push_cast at hj2 ⊢; omega)
          refine ⟨w, List.mem_append_right _ hw, w1, w2, w3, ?_⟩
          rw [w4]; push_cast; ring
    · simp only [if_neg ht, List.nil_append]
      obtain ⟨i1, i2⟩ := ih (top + 1) (srccol + 1) (dest + ve.SCREENWIDTH) dest2 screen
      refine ⟨?_, ?_⟩
      · intro w hw
        obtain ⟨j, j1, j2, j3, j4, j5, j6, j7, j8, j9, j10, j11⟩ := i1 w hw
        refine ⟨j + 1, by omega, by push_cast; omega, j3, ?_, j5, j6, j7, j8, ?_, ?_, ?_⟩
        · rw [j4]; push_cast; ring
        · rw [j9]; push_cast; ring
        · rw [j10]; push_cast; ring
        · rw [j11]
          congr 2
          push_cast; ring
      · intro j hj1 hj2
        cases j with
        | zero => exact absurd (by simpa using hj2) ht
        | succ j =>
          obtain ⟨w, hw, w1, w2, w3, w4⟩ := i2 j (by omega) (by push_cast at hj2 ⊢; omega)
          refine ⟨w, hw, w1, w2, w3, ?_⟩
          rw [w4]; push_cast; ring

theorem V_DrawPatchCrispy_posts_sound (ve : VideoEnv) (vs : VideoState) (patch : patch_t)
    (x y col desttop desttop2 : Int) :
    ∀ (fuel : Nat) (column topdelta : Int) (screen : Int → Nat)
      (res : (Int → Nat) × List PatchWrite),
      V_DrawPatchCrispy_posts ve vs patch 0 x y col desttop desttop2 fuel column topdelta
        screen = some res →
      ∀ w ∈ res.2, w.shadow = false ∧ w.x = x ∧ w.col = col ∧
        (w.column, w.topdelta) ∈ patchPosts patch fuel column topdelta ∧
        0 ≤ w.srccol ∧ w.srccol < patch.bytes (w.column + 1) ∧
        w.top = y + w.topdelta + w.srccol ∧ 0 ≤ w.top ∧ w.top < ve.SCREENHEIGHT ∧
        w.offset = desttop + (w.topdelta + w.srccol) * ve.SCREENWIDTH ∧
        w.value = drawpatchpx vs w.old (patch.bytes (w.column + 3 + w.srccol)) := by
  intro fuel
  induction fuel with
  | zero =>
    intro column topdelta screen res h
    simp only [V_DrawPatchCrispy_posts] at h
    exact Option.noConfusion h
  | succ fuel ih =>
    intro column topdelta screen res h w hw
    unfold V_DrawPatchCrispy_posts at h
    dsimp only at h
    by_cases hb : patch.bytes column ≠ 0xff
    · rw [if_pos hb] at h
      by_cases hc : (if y + nextTopdelta topdelta (patch.bytes column) +
          (patch.bytes (column + 1) : Int) > ve.SCREENHEIGHT
          then ve.SCREENHEIGHT - (y + nextTopdelta topdelta (patch.bytes column))
          else (patch.bytes (column + 1) : Int)) < 1
      · rw [if_pos hc] at h
        simp only [Option.some.injEq] at h
        rw [← h] at hw
        exact absurd hw (List.not_mem_nil w)
      · rw [if_neg hc] at h
        split at h
        · exact Option.noConfusion h
        · rename_i rest hrest
          simp only [Option.some.injEq] at h
          rw [← h] at hw
          simp only at hw
          rcases List.mem_append.mp hw with h1 | h1
          · obtain ⟨j, j1, j2, j3, j4, j5, j6, j7, j8, j9, j10, j11⟩ :=
              (V_DrawPatchCrispy_pixels_spec ve vs patch x col column _ _ _ _ _ _ _ _).1 w h1
            rw [Int.zero_add] at j10
            refine ⟨j3, j5, j6, ?_, by omega, ?_, ?_, ?_, ?_, ?_, ?_⟩
            · rw [j7, j8]
              simp only [patchPosts, if_pos hb]
              exact List.mem_cons_self _ _
            · rw [j7, j10]
              split_ifs at j1 hc <;> omega
            · rw [j9, j8, j10]
            · rw [j9]; exact j2
            · rw [j9]
              split_ifs at j1 hc <;> omega
            · rw [j4, j8, j10]; ring
            · rw [j11, j7, j10, Int.zero_add]
          · obtain ⟨k1, k2, k3, k4, k5⟩ := ih _ _ _ rest hrest w h1
            refine ⟨k1, k2, k3, ?_, k5⟩
            simp only [patchPosts, if_pos hb]
            exact List.mem_cons_of_mem _ k4
    · rw [if_neg hb] at h
      simp only [Option.some.injEq] at h
      rw [← h] at hw
      exact absurd hw (List.not_mem_nil w)

theorem nextTopdelta_ge (topdelta : Int) (b : Nat) : topdelta ≤ nextTopdelta topdelta b := by
  unfold nextTopdelta
  split_ifs <;> omega

theorem patchPosts_topdelta_le (patch : patch_t) :
    ∀ (n : Nat) (column topdelta : Int) (p : Int × Int),
      p ∈ patchPosts patch n column topdelta → topdelta ≤ p.2 := by
  intro n
  induction n with
  | zero =>
    intro column topdelta p hp
    simp only [patchPosts] at hp
    exact absurd hp (List.not_mem_nil p)
  | succ n ih =>
    intro column topdelta p hp
    simp only [patchPosts] at hp
    split_ifs at hp with hb
    · have hge := nextTopdelta_ge topdelta (patch.bytes column)
      rcases List.mem_cons.mp hp with h1 | h1
      · rw [h1]; exact hge
      · exact le_trans hge (ih _ _ p h1)
    · exact absurd hp (List.not_mem_nil p)

theorem V_DrawPatchCrispy_posts_complete (ve : VideoEnv) (vs : VideoState) (patch : patch_t)
    (x y col desttop desttop2 : Int) :
    ∀ (n fuel : Nat) (column topdelta : Int) (screen : Int → Nat),
      columnEnds patch n column = true → n < fuel →
      (∀ q ∈ patchPosts patch n column topdelta, 1 ≤ patch.bytes (q.1 + 1)) →
      ∃ res, V_DrawPatchCrispy_posts ve vs patch 0 x y col desttop desttop2 fuel column topdelta
          screen = some res ∧
        ∀ p ∈ patchPosts patch n column topdelta, ∀ k : Int, 0 ≤ k →
          k < patch.bytes (p.1 + 1) → 0 ≤ y + p.2 + k → y + p.2 + k < ve.SCREENHEIGHT →
          ∃ w ∈ res.2, w.col = col ∧ w.column = p.1 ∧ w.topdelta = p.2 ∧ w.srccol = k := by
  intro n
  induction n with
  | zero =>
    intro fuel column topdelta screen hend hfuel _
    obtain ⟨f, rfl⟩ : ∃ f, fuel = f + 1 := ⟨fuel - 1, by omega⟩
    simp only [columnEnds, beq_iff_eq] at hend
    refine ⟨(screen, []), ?_, ?_⟩
    · unfold V_DrawPatchCrispy_posts
      rw [if_neg (by simpa using hend)]
    · intro p hp
      simp only [patchPosts] at hp
      exact absurd hp (List.not_mem_nil p)
  | succ n ih =>
    intro fuel column topdelta screen hend hfuel hlen
    obtain ⟨f, rfl⟩ : ∃ f, fuel = f + 1 := ⟨fuel - 1, by omega⟩
    by_cases hb : patch.bytes column ≠ 0xff
    · have hend2 : columnEnds patch n (column + patch.bytes (column + 1) + 4) = true := by
        simp only [columnEnds, Bool.or_eq_true, beq_iff_eq] at hend
        rcases hend with h | h
        · exact absurd h hb
        · exact h
      have hposts : patchPosts patch (n + 1) column topdelta =
          (column, nextTopdelta topdelta (patch.bytes column)) ::
            patchPosts patch n (column + patch.bytes (column + 1) + 4)
              (nextTopdelta topdelta (patch.bytes column)) := by
        simp only [patchPosts, if_pos hb]
      rw [hposts] at hlen ⊢
      have hlen0 : 1 ≤ patch.bytes (column + 1) := hlen _ (List.mem_cons_self _ _)
      unfold V_DrawPatchCrispy_posts
      dsimp only
      rw [if_pos hb]
      by_cases hc : (if y + nextTopdelta topdelta (patch.bytes column) +
          (patch.bytes (column + 1) : Int) > ve.SCREENHEIGHT
          then ve.SCREENHEIGHT - (y + nextTopdelta topdelta (patch.bytes column))
          else (patch.bytes (column + 1) : Int)) < 1
      · rw [if_pos hc]
        refine ⟨_, rfl, ?_⟩
        intro p hp k hk1 hk2 hk3 hk4
        have hge : nextTopdelta topdelta (patch.bytes column) ≤ p.2 := by
          rcases List.mem_cons.mp hp with h1 | h1
          · rw [h1]
          · exact patchPosts_topdelta_le patch _ _ _ p h1
        split_ifs at hc <;> omega
      · rw [if_neg hc]
        obtain ⟨res2, e2, c2⟩ := ih f (column + patch.bytes (column + 1) + 4)
          (nextTopdelta topdelta (patch.bytes column))
          (V_DrawPatchCrispy_pixels ve vs patch 0 x col column
            (nextTopdelta topdelta (patch.bytes column)) (column + 3)
            (if y + nextTopdelta topdelta (patch.bytes column) +
                (patch.bytes (column + 1) : Int) > ve.SCREENHEIGHT
              then ve.SCREENHEIGHT - (y + nextTopdelta topdelta (patch.bytes column))
              else (patch.bytes (column + 1) : Int)).toNat
            (y + nextTopdelta topdelta (patch.bytes column)) 0
            (desttop + nextTopdelta topdelta (patch.bytes column) * ve.SCREENWIDTH)
            (desttop2 + nextTopdelta topdelta (patch.bytes column) * ve.SCREENWIDTH) screen).1
          hend2 (by omega) (fun q hq => hlen q (List.mem_cons_of_mem _ hq))
        rw [e2]
        refine ⟨_, rfl, ?_⟩
        intro p hp k hk1 hk2 hk3 hk4
        rcases List.mem_cons.mp hp with h1 | h1
        · subst h1
          obtain ⟨w, hw, w1, w2, w3, w4⟩ :=
            (V_DrawPatchCrispy_pixels_spec ve vs patch x col column
              (nextTopdelta topdelta (patch.bytes column)) (column + 3)
              (if y + nextTopdelta topdelta (patch.bytes column) +
                  (patch.bytes (column + 1) : Int) > ve.SCREENHEIGHT
                then ve.SCREENHEIGHT - (y + nextTopdelta topdelta (patch.bytes column))
                else (patch.bytes (column + 1) : Int)).toNat
              (y + nextTopdelta topdelta (patch.bytes column)) 0
              (desttop + nextTopdelta topdelta (patch.bytes column) * ve.SCREENWIDTH)
              (desttop2 + nextTopdelta topdelta (patch.bytes column) * ve.SCREENWIDTH) screen).2
              k.toNat (by simp only at hk2 hk4; split_ifs <;> omega)
              (by simp only at hk3; omega)
          refine ⟨w, List.mem_append_left _ hw, w1, w2, w3, ?_⟩
          rw [w4]; omega
        · obtain ⟨w, hw, hrest⟩ := c2 p h1 k hk1 hk2 hk3 hk4
          exact ⟨w, List.mem_append_right _ hw, hrest⟩
    · have hposts : patchPosts patch (n + 1) column topdelta = [] := by
        simp only [patchPosts, if_neg hb]
      rw [hposts]
      refine ⟨(screen, []), ?_, ?_⟩
      · unfold V_DrawPatchCrispy_posts
        rw [if_neg hb]
      · intro p hp
        exact absurd hp (List.not_mem_nil p)

theorem V_DrawPatchCrispy_columns_sound (ve : VideoEnv) (vs : VideoState) (patch : patch_t)
    (x0 y0 : Int) (fuel : Nat) :
    ∀ (k : Nat) (col x desttop desttop2 : Int) (screen : Int → Nat)
      (res : (Int → Nat) × List PatchWrite),
      x = x0 + col → desttop = y0 * ve.SCREENWIDTH + x → 0 ≤ col →
      V_DrawPatchCrispy_columns ve vs patch 0 y0 fuel k col x desttop desttop2 screen =
        some res →
      ∀ w ∈ res.2, w.isPixelOf ve vs patch x0 y0 ∧ w.onScreen ve ∧
        (w.column, w.topdelta) ∈ patchPosts patch fuel (patch.columnofs w.col) (-1) := by
  intro k
  induction k with
  | zero =>
    intro col x desttop desttop2 screen res _ _ _ h w hw
    simp only [V_DrawPatchCrispy_columns, Option.some.injEq] at h
    rw [← h] at hw
    exact absurd hw (List.not_mem_nil w)
  | succ k ih =>
    intro col x desttop desttop2 screen res hx hd hcol h w hw
    unfold V_DrawPatchCrispy_columns at h
    by_cases hw1 : col < patch.width
    · rw [if_pos hw1] at h
      by_cases hx1 : x < 0
      · rw [if_pos hx1] at h
        exact ih (col + 1) (x + 1) (desttop + 1) (desttop2 + 1) screen res (by omega)
          (by rw [hd]; ring) (by omega) h w hw
      · rw [if_neg hx1] at h
        by_cases hx2 : x ≥ ve.SCREENWIDTH
        · rw [if_pos hx2] at h
          simp only [Option.some.injEq] at h
          rw [← h] at hw
          exact absurd hw (List.not_mem_nil w)
        · rw [if_neg hx2] at h
          split at h
          · exact Option.noConfusion h
          · rename_i drawn hdrawn
            split at h
            · exact Option.noConfusion h
            · rename_i rest hrest
              simp only [Option.some.injEq] at h
              rw [← h] at hw
              simp only at hw
              rcases List.mem_append.mp hw with h1 | h1
              · obtain ⟨s1, s2, s3, s4, s5, s6, s7, s8, s9, s10, s11⟩ :=
                  V_DrawPatchCrispy_posts_sound ve vs patch x y0 col desttop desttop2 fuel _ _ _
                    drawn hdrawn w h1
                refine ⟨⟨s1, by omega, by omega, by omega, s5, s6, s7, ?_, s11⟩,
                  ⟨by omega, by omega, s8, s9⟩, ?_⟩
                · rw [s10, s7, s2, hd]; ring
                · rw [s3]; exact s4
              · exact ih (col + 1) (x + 1) (desttop + 1) (desttop2 + 1) drawn.1 rest (by omega)
                  (by rw [hd]; ring) (by omega) hrest w h1
    · rw [if_neg hw1] at h
      simp only [Option.some.injEq] at h
      rw [← h] at hw
      exact absurd hw (List.not_mem_nil w)

theorem V_DrawPatchCrispy_columns_complete (ve : VideoEnv) (vs : VideoState) (patch : patch_t)
    (x0 y0 : Int) (fuel n : Nat) (hwf : patchWellFormed patch n) (hfuel : n < fuel) :
    ∀ (k : Nat) (col x desttop desttop2 : Int) (screen : Int → Nat),
      x = x0 + col → 0 ≤ col →
      ∃ res, V_DrawPatchCrispy_columns ve vs patch 0 y0 fuel k col x desttop desttop2 screen =
          some res ∧
        ∀ c, col ≤ c → c < col + k → c < patch.width → 0 ≤ x0 + c → x0 + c < ve.SCREENWIDTH →
          ∀ p ∈ patchPosts patch n (patch.columnofs c) (-1), ∀ j : Int, 0 ≤ j →
            j < patch.bytes (p.1 + 1) → 0 ≤ y0 + p.2 + j → y0 + p.2 + j < ve.SCREENHEIGHT →
            ∃ w ∈ res.2, w.col = c ∧ w.column = p.1 ∧ w.topdelta = p.2 ∧ w.srccol = j := by
  intro k
  induction k with
  | zero =>
    intro col x desttop desttop2 screen _ _
    refine ⟨(screen, []), rfl, ?_⟩
    intro c hc1 hc2
    omega
  | succ k ih =>
    intro col x desttop desttop2 screen hx hcol
    unfold V_DrawPatchCrispy_columns
    by_cases hw1 : col < patch.width
    · rw [if_pos hw1]
      by_cases hx1 : x < 0
      · rw [if_pos hx1]
        obtain ⟨res, e, c1⟩ := ih (col + 1) (x + 1) (desttop + 1) (desttop2 + 1) screen
          (by omega) (by omega)
        refine ⟨res, e, ?_⟩
        intro c hc1 hc2 hc3 hc4 hc5
        exact c1 c (by omega) (by omega) hc3 hc4 hc5
      · rw [if_neg hx1]
        by_cases hx2 : x ≥ ve.SCREENWIDTH
        · rw [if_pos hx2]
          refine ⟨_, rfl, ?_⟩
          intro c hc1 hc2 hc3 hc4 hc5
          omega
        · rw [if_neg hx2]
          obtain ⟨hend, hlen⟩ := hwf col hcol hw1
          obtain ⟨drawn, e1, c1⟩ := V_DrawPatchCrispy_posts_complete ve vs patch x y0 col desttop
            desttop2 n fuel (patch.columnofs col) (-1) screen hend hfuel hlen
          obtain ⟨rest, e2, c2⟩ := ih (col + 1) (x + 1) (desttop + 1) (desttop2 + 1) drawn.1
            (by omega) (by omega)
          rw [e1]
          simp only
          rw [e2]
          refine ⟨_, rfl, ?_⟩
          intro c hc1 hc2 hc3 hc4 hc5 p hp j hj1 hj2 hj3 hj4
          by_cases hcc : c = col
          · subst hcc
            obtain ⟨w, hw, hrest⟩ := c1 p hp j hj1 hj2 hj3 hj4
            exact ⟨w, List.mem_append_left _ hw, hrest⟩
          · obtain ⟨w, hw, hrest⟩ := c2 c (by omega) (by omega) hc3 hc4 hc5 p hp j hj1 hj2 hj3 hj4
            exact ⟨w, List.mem_append_right _ hw, hrest⟩
    · rw [if_neg hw1]
      refine ⟨_, rfl, ?_⟩
      intro c hc1 hc2 hc3
      omega

theorem applyWrites_append (a b : List PatchWrite) :
    ∀ screen, applyWrites screen (a ++ b) = applyWrites (applyWrites screen a) b := by
  induction a with
  | nil => intro screen; rfl
  | cons w rest ih =>
    intro screen
    simp only [List.cons_append, applyWrites]
    exact ih _

theorem readsFrom_append (a b : List PatchWrite) :
    ∀ screen, readsFrom screen a → readsFrom (applyWrites screen a) b →
      readsFrom screen (a ++ b) := by
  induction a with
  | nil => intro screen _ h; exact h
  | cons w rest ih =>
    intro screen h1 h2
    simp only [List.cons_append, readsFrom, applyWrites] at h1 h2 ⊢
    exact ⟨h1.1, ih _ h1.2 h2⟩

theorem applyWrites_untouched (log : List PatchWrite) (i : Int) :
    ∀ screen, (∀ w ∈ log, w.offset ≠ i) → applyWrites screen log i = screen i := by
  induction log with
  | nil => intro screen _; rfl
  | cons w rest ih =>
    intro screen h
    simp only [applyWrites]
    rw [ih _ (fun u hu => h u (List.mem_cons_of_mem _ hu))]
    have := h w (List.mem_cons_self _ _)
    rw [if_neg (fun e => this e.symm)]

theorem applyWrites_last (l1 l2 : List PatchWrite) (w : PatchWrite) (screen : Int → Nat)
    (h : ∀ u ∈ l2, u.offset ≠ w.offset) :
    applyWrites screen (l1 ++ w :: l2) w.offset = w.value := by
  rw [applyWrites_append]
  simp only [applyWrites]
  rw [applyWrites_untouched l2 w.offset _ h]
  simp

theorem V_DrawPatchCrispy_pixels_screen (ve : VideoEnv) (vs : VideoState) (patch : patch_t)
    (r x col column topdelta source : Int) :
    ∀ (k : Nat) (top srccol dest dest2 : Int) (screen : Int → Nat),
      (V_DrawPatchCrispy_pixels ve vs patch r x col column topdelta source k top srccol dest
          dest2 screen).1 =
        applyWrites screen (V_DrawPatchCrispy_pixels ve vs patch r x col column topdelta source
          k top srccol dest dest2 screen).2 ∧
      readsFrom screen (V_DrawPatchCrispy_pixels ve vs patch r x col column topdelta source
        k top srccol dest dest2 screen).2 := by
  intro k
  induction k with
  | zero =>
    intro top srccol dest dest2 screen
    exact ⟨rfl, trivial⟩
  | succ k ih =>
    intro top srccol dest dest2 screen
    simp only [V_DrawPatchCrispy_pixels]
    by_cases hr : r ≠ 0
    · by_cases ht : top ≥ 0
      · simp only [if_pos hr, if_pos ht, List.singleton_append, List.cons_append,
          List.nil_append, applyWrites, readsFrom]
        obtain ⟨i1, i2⟩ := ih (top + 1) (srccol + 1) (dest + ve.SCREENWIDTH)
          (dest2 + ve.SCREENWIDTH)
          (fun i => if i = dest then
              drawpatchpx vs ((fun i => if i = dest2 then vs.tinttable (screen dest2)
                else screen i) dest) (patch.bytes (source + srccol))
            else (fun i => if i = dest2 then vs.tinttable (screen dest2) else screen i) i)
        exact ⟨i1, trivial, trivial, i2⟩
      · simp only [if_pos hr, if_neg ht, List.singleton_append, List.cons_append,
          List.nil_append, List.append_nil, applyWrites, readsFrom]
        obtain ⟨i1, i2⟩ := ih (top + 1) (srccol + 1) (dest + ve.SCREENWIDTH)
          (dest2 + ve.SCREENWIDTH)
          (fun i => if i = dest2 then vs.tinttable (screen dest2) else screen i)
        exact ⟨i1, trivial, i2⟩
    · by_cases ht : top ≥ 0
      · simp only [if_neg hr, if_pos ht, List.singleton_append, List.cons_append,
          List.nil_append, applyWrites, readsFrom]
        obtain ⟨i1, i2⟩ := ih (top + 1) (srccol + 1) (dest + ve.SCREENWIDTH) dest2
          (fun i => if i = dest then drawpatchpx vs (screen dest) (patch.bytes (source + srccol))
            else screen i)
        exact ⟨i1, trivial, i2⟩
      · simp only [if_neg hr, if_neg ht, List.nil_append]
        exact ih (top + 1) (srccol + 1) (dest + ve.SCREENWIDTH) dest2 screen

theorem V_DrawPatchCrispy_posts_screen (ve : VideoEnv) (vs : VideoState) (patch : patch_t)
    (r x y col desttop desttop2 : Int) :
    ∀ (fuel : Nat) (column topdelta : Int) (screen : Int → Nat)
      (res : (Int → Nat) × List PatchWrite),
      V_DrawPatchCrispy_posts ve vs patch r x y col desttop desttop2 fuel column topdelta
        screen = some res →
      res.1 = applyWrites screen res.2 ∧ readsFrom screen res.2 := by
  intro fuel
  induction fuel with
  | zero =>
    intro column topdelta screen res h
    simp only [V_DrawPatchCrispy_posts] at h
    exact Option.noConfusion h
  | succ fuel ih =>
    intro column topdelta screen res h
    unfold V_DrawPatchCrispy_posts at h
    dsimp only at h
    by_cases hb : patch.bytes column ≠ 0xff
    · rw [if_pos hb] at h
      by_cases hc : (if y + nextTopdelta topdelta (patch.bytes column) +
          (patch.bytes (column + 1) : Int) > ve.SCREENHEIGHT
          then ve.SCREENHEIGHT - (y + nextTopdelta topdelta (patch.bytes column))
          else (patch.bytes (column + 1) : Int)) < 1
      · rw [if_pos hc] at h
        simp only [Option.some.injEq] at h
        rw [← h]
        exact ⟨rfl, trivial⟩
      · rw [if_neg hc] at h
        split at h
        · exact Option.noConfusion h
        · rename_i rest hrest
          simp only [Option.some.injEq] at h
          rw [← h]
          obtain ⟨p1, p2⟩ := V_DrawPatchCrispy_pixels_screen ve vs patch r x col column
            (nextTopdelta topdelta (patch.bytes column)) (column + 3)
            (if y + nextTopdelta topdelta (patch.bytes column) +
                (patch.bytes (column + 1) : Int) > ve.SCREENHEIGHT
              then ve.SCREENHEIGHT - (y + nextTopdelta topdelta (patch.bytes column))
              else (patch.bytes (column + 1) : Int)).toNat
            (y + nextTopdelta topdelta (patch.bytes column)) 0
            (desttop + nextTopdelta topdelta (patch.bytes column) * ve.SCREENWIDTH)
            (desttop2 + nextTopdelta topdelta (patch.bytes column) * ve.SCREENWIDTH) screen
          obtain ⟨q1, q2⟩ := ih _ _ _ rest hrest
          rw [p1] at q1 q2
          exact ⟨by rw [applyWrites_append]; exact q1, readsFrom_append _ _ _ p2 q2⟩
    · rw [if_neg hb] at h
      simp only [Option.some.injEq] at h
      rw [← h]
      exact ⟨rfl, trivial⟩

theorem V_DrawPatchCrispy_columns_screen (ve : VideoEnv) (vs : VideoState) (patch : patch_t)
    (r y : Int) (fuel : Nat) :
    ∀ (k : Nat) (col x desttop desttop2 : Int) (screen : Int → Nat)
      (res : (Int → Nat) × List PatchWrite),
      V_DrawPatchCrispy_columns ve vs patch r y fuel k col x desttop desttop2 screen =
        some res →
      res.1 = applyWrites screen res.2 ∧ readsFrom screen res.2 := by
  intro k
  induction k with
  | zero =>
    intro col x desttop desttop2 screen res h
    simp only [V_DrawPatchCrispy_columns, Option.some.injEq] at h
    rw [← h]
    exact ⟨rfl, trivial⟩
  | succ k ih =>
    intro col x desttop desttop2 screen res h
    unfold V_DrawPatchCrispy_columns at h
    by_cases hw1 : col < patch.width
    · rw [if_pos hw1] at h
      by_cases hx1 : x < 0
      · rw [if_pos hx1] at h
        exact ih _ _ _ _ _ res h
      · rw [if_neg hx1] at h
        by_cases hx2 : x ≥ ve.SCREENWIDTH
        · rw [if_pos hx2] at h
          simp only [Option.some.injEq] at h
          rw [← h]
          exact ⟨rfl, trivial⟩
        · rw [if_neg hx2] at h
          split at h
          · exact Option.noConfusion h
          · rename_i drawn hdrawn
            split at h
            · exact Option.noConfusion h
            · rename_i rest hrest
              simp only [Option.some.injEq] at h
              rw [← h]
              obtain ⟨p1, p2⟩ := V_DrawPatchCrispy_posts_screen ve vs patch r x y col desttop
                desttop2 fuel _ _ _ drawn hdrawn
              obtain ⟨q1, q2⟩ := ih _ _ _ _ _ rest hrest
              rw [p1] at q1 q2
              exact ⟨by rw [applyWrites_append]; exact q1, readsFrom_append _ _ _ p2 q2⟩
    · rw [if_neg hw1] at h
      simp only [Option.some.injEq] at h
      rw [← h]
      exact ⟨rfl, trivial⟩

theorem V_DrawPatchCrispy_screen (ve : VideoEnv) (fuel : Nat) (vs vs1 : VideoState) (x y : Int)
    (patch : patch_t) (r : Int) (log : List PatchWrite)
    (h : V_DrawPatchCrispy ve fuel vs x y patch r = some (vs1, log)) :
    vs1 = { vs with dest_screen := applyWrites vs.dest_screen log } ∧
      readsFrom vs.dest_screen log := by
  unfold V_DrawPatchCrispy at h
  dsimp only at h
  split_ifs at h with hrej
  · simp only [Option.some.injEq, Prod.mk.injEq] at h
    rw [← h.1, ← h.2]
    exact ⟨rfl, trivial⟩
  · cases hcols : V_DrawPatchCrispy_columns ve vs patch r (y - patch.topoffset) fuel
        (patch.width - 0).toNat 0 (x - patch.leftoffset)
        ((y - patch.topoffset) * ve.SCREENWIDTH + (x - patch.leftoffset))
        ((y - patch.topoffset + r) * ve.SCREENWIDTH + (x - patch.leftoffset + r))
        vs.dest_screen with
    | none => rw [hcols] at h; exact Option.noConfusion h
    | some res =>
      rw [hcols] at h
      simp only [Option.map_some', Option.some.injEq, Prod.mk.injEq] at h
      obtain ⟨p1, p2⟩ := V_DrawPatchCrispy_columns_screen ve vs patch r _ fuel _ _ _ _ _ _ res
        hcols
      rw [← h.1, ← h.2, p1]
      exact ⟨rfl, p2⟩

/-- C35 as stated fails in three ways on the 320x200 screen.  A column whose
first post is empty is left at that post: the pixel 33 of its second post, which
falls on column 0, row 2 of the screen, is not stored and the buffer keeps 0
there.  With a translation table the pixel 11 of `patchW` is stored as its
translation 111, not as the source byte.  With a clip callback that rejects the
patch nothing is stored at all. -/
theorem patch_clipping_counterexample :
    (∃ vs1, V_DrawPatch videoEnvW 5 videoW 0 0 patchGap = some (vs1, []) ∧
      columnEnds patchGap 2 (patchGap.columnofs 0) = true ∧
      patchPosts patchGap 2 (patchGap.columnofs 0) (-1) = [(0, 0), (4, 2)] ∧
      patchGap.bytes (4 + 1) = 1 ∧ patchGap.bytes (4 + 3 + 0) = 33 ∧
      vs1.dest_screen (2 * 320 + 0) = 0) ∧
    (∃ vs1 log, V_DrawPatch videoEnvW 5 videoTranslated 0 0 patchW = some (vs1, log) ∧
      log.map (fun w => (w.x, w.top, w.column, w.srccol, w.value)) =
        [(0, 1, 0, 0, 111), (0, 2, 0, 1, 112), (1, 0, 10, 0, 121)] ∧
      patchW.bytes (0 + 3 + 0) = 11 ∧ vs1.dest_screen (1 * 320 + 0) = 111) ∧
    (∃ vs1, V_DrawPatch videoEnvW 5 videoRejecting 0 0 patchW = some (vs1, []) ∧
      (0, 1) ∈ patchPosts patchW 2 (patchW.columnofs 0) (-1) ∧
      vs1.dest_screen (1 * 320 + 0) = 0) :=
  ⟨⟨_, rfl, by decide, by decide, by decide, by decide, by rfl⟩,
    ⟨_, _, rfl, by rfl, by decide, by rfl⟩,
    ⟨_, rfl, by decide, by rfl⟩⟩

/-- C35 (patch clipping), amended.  For every patch and position `(x, y)`:
the state after `V_DrawPatch` is the state before it with the stores of the log
made in order on the screen buffer, each store having read the pixel that was
there; so a pixel that no store addresses keeps its value and the address of a
store holds the value of the last store made to it.  Each store goes to a
column in `[0, SCREENWIDTH)` and a row in `[0, SCREENHEIGHT)` of the screen,
at the address of that pixel; it is the pixel `srccol` of a post of the patch,
at the column and row where the patch drawn at `(x - leftoffset, y -
topoffset)` puts it, and stores `drawpatchpx` of the pixel read and the byte
`srccol` of the post, which is that byte itself when no translation table and
no translucency is active.  When the patch is well formed (every column ends
after at most `n` posts, every post holds a pixel), the fuel exceeds `n` and no
clip callback rejects the patch, the call returns and every pixel of the patch
that falls inside the screen is stored, at the address of its column and row;
the other pixels are skipped.  When the clip callback rejects the patch, the
call stores nothing and leaves the state as it is. -/
theorem patch_clipping (ve : VideoEnv) (vs : VideoState) (patch : patch_t) (x y : Int)
    (fuel : Nat) :
    (∀ vs1 log, V_DrawPatch ve fuel vs x y patch = some (vs1, log) →
      vs1 = { vs with dest_screen := applyWrites vs.dest_screen log } ∧
      readsFrom vs.dest_screen log ∧
      (∀ i, (∀ w ∈ log, w.offset ≠ i) → vs1.dest_screen i = vs.dest_screen i) ∧
      (∀ l1 w l2, log = l1 ++ w :: l2 → (∀ u ∈ l2, u.offset ≠ w.offset) →
        vs1.dest_screen w.offset = w.value) ∧
      ∀ w ∈ log, w.onScreen ve ∧
        w.isPixelOf ve vs patch (x - patch.leftoffset) (y - patch.topoffset) ∧
        (w.column, w.topdelta) ∈ patchPosts patch fuel (patch.columnofs w.col) (-1) ∧
        (vs.dp_translucent = false → vs.dp_translation = none →
          w.value = patch.bytes (w.column + 3 + w.srccol))) ∧
    (∀ n, patchWellFormed patch n → n < fuel →
      (∀ callback, vs.patchclip_callback = some callback →
        callback patch (x - patch.leftoffset) (y - patch.topoffset) = true) →
      ∃ vs1 log, V_DrawPatch ve fuel vs x y patch = some (vs1, log) ∧
        ∀ col, 0 ≤ col → col < patch.width →
          ∀ p ∈ patchPosts patch n (patch.columnofs col) (-1), ∀ j : Int, 0 ≤ j →
            j < patch.bytes (p.1 + 1) →
            0 ≤ x - patch.leftoffset + col → x - patch.leftoffset + col < ve.SCREENWIDTH →
            0 ≤ y - patch.topoffset + p.2 + j → y - patch.topoffset + p.2 + j < ve.SCREENHEIGHT →
            ∃ w ∈ log, w.col = col ∧ w.column = p.1 ∧ w.topdelta = p.2 ∧ w.srccol = j ∧
              w.offset = (y - patch.topoffset + p.2 + j) * ve.SCREENWIDTH +
                (x - patch.leftoffset + col)) ∧
    (∀ callback, vs.patchclip_callback = some callback →
      callback patch (x - patch.leftoffset) (y - patch.topoffset) = false →
      V_DrawPatch ve fuel vs x y patch = some (vs, [])) := by
  refine ⟨?_, ?_, ?_⟩
  · intro vs1 log h
    obtain ⟨e1, e2⟩ := V_DrawPatchCrispy_screen ve fuel vs vs1 x y patch 0 log h
    refine ⟨e1, e2, ?_, ?_, ?_⟩
    · intro i hi
      rw [e1]
      exact applyWrites_untouched log i _ hi
    · intro l1 w l2 hl hu
      rw [e1, hl]
      exact applyWrites_last l1 l2 w _ hu
    intro w hw
    unfold V_DrawPatch V_DrawPatchCrispy at h
    dsimp only at h
    split_ifs at h with hrej
    · simp only [Option.some.injEq, Prod.mk.injEq] at h
      rw [← h.2] at hw
      exact absurd hw (List.not_mem_nil w)
    · cases hcols : V_DrawPatchCrispy_columns ve vs patch 0 (y - patch.topoffset) fuel
          (patch.width - 0).toNat 0 (x - patch.leftoffset)
          ((y - patch.topoffset) * ve.SCREENWIDTH + (x - patch.leftoffset))
          ((y - patch.topoffset + 0) * ve.SCREENWIDTH + (x - patch.leftoffset + 0))
          vs.dest_screen with
      | none => rw [hcols] at h; exact Option.noConfusion h
      | some res =>
        rw [hcols] at h
        simp only [Option.map_some', Option.some.injEq, Prod.mk.injEq] at h
        rw [← h.2] at hw
        obtain ⟨s1, s2, s3⟩ := V_DrawPatchCrispy_columns_sound ve vs patch (x - patch.leftoffset)
          (y - patch.topoffset) fuel _ _ _ _ _ _ res (by omega) rfl (le_refl _) hcols w hw
        refine ⟨s2, s1, s3, ?_⟩
        intro ht hn
        rw [s1.2.2.2.2.2.2.2.2]
        simp only [drawpatchpx, ht, hn]
  · intro n hwf hfuel hclip
    obtain ⟨res, e, c⟩ := V_DrawPatchCrispy_columns_complete ve vs patch (x - patch.leftoffset)
      (y - patch.topoffset) fuel n hwf hfuel (patch.width - 0).toNat 0 (x - patch.leftoffset)
      ((y - patch.topoffset) * ve.SCREENWIDTH + (x - patch.leftoffset))
      ((y - patch.topoffset + 0) * ve.SCREENWIDTH + (x - patch.leftoffset + 0))
      vs.dest_screen (by omega) (le_refl _)
    unfold V_DrawPatch V_DrawPatchCrispy
    dsimp only
    rw [e]
    split_ifs with hrej
    · exfalso
      cases hcb : vs.patchclip_callback with
      | none =>
        rw [hcb] at hrej
        exact Bool.false_ne_true hrej
      | some callback =>
        rw [hcb] at hrej
        have hr : (!callback patch (x - patch.leftoffset) (y - patch.topoffset)) = true := hrej
        rw [hclip callback hcb] at hr
        exact Bool.false_ne_true hr
    refine ⟨_, _, rfl, ?_⟩
    intro col hc1 hc2 p hp j hj1 hj2 hx1 hx2 hy1 hy2
    obtain ⟨w, hw, w1, w2, w3, w4⟩ := c col hc1 (by omega) hc2 hx1 hx2 p hp j hj1 hj2 hy1 hy2
    obtain ⟨s1, _, _⟩ := V_DrawPatchCrispy_columns_sound ve vs patch (x - patch.leftoffset)
      (y - patch.topoffset) fuel _ _ _ _ _ _ res (by omega) rfl (le_refl _) e w hw
    refine ⟨w, hw, w1, w2, w3, w4, ?_⟩
    obtain ⟨_, _, _, t4, _, _, t7, t8, _⟩ := s1
    rw [t8, t7, t4, w1, w3, w4]
  · intro callback hcb hrej
    unfold V_DrawPatch V_DrawPatchCrispy
    dsimp only
    rw [hcb]
    dsimp only
    rw [hrej]
    rfl

/-- Witness of C35: the two-column patch drawn at `(319, -2)` on the 320x200
screen.  Column 0 lands on screen column 319 and its post on the rows -1 and 0:
the pixel of row -1 is skipped and row 0 gets the byte 12 of offset 1; column
1 would land on column 320 and is skipped.  The buffer after the call holds 12
at the address 319 and is unchanged elsewhere.  Under the rejecting callback
of `videoRejecting` the same call stores nothing. -/
theorem patch_clipping_witness :
    (∃ vs1 log, V_DrawPatch videoEnvW 5 videoW 319 (-2) patchW = some (vs1, log) ∧
      ∀ col, 0 ≤ col → col < patchW.width →
        ∀ p ∈ patchPosts patchW 2 (patchW.columnofs col) (-1), ∀ j : Int, 0 ≤ j →
          j < patchW.bytes (p.1 + 1) →
          0 ≤ 319 - patchW.leftoffset + col → 319 - patchW.leftoffset + col < videoEnvW.SCREENWIDTH →
          0 ≤ -2 - patchW.topoffset + p.2 + j →
          -2 - patchW.topoffset + p.2 + j < videoEnvW.SCREENHEIGHT →
          ∃ w ∈ log, w.col = col ∧ w.column = p.1 ∧ w.topdelta = p.2 ∧ w.srccol = j ∧
            w.offset = (-2 - patchW.topoffset + p.2 + j) * videoEnvW.SCREENWIDTH +
              (319 - patchW.leftoffset + col)) ∧
    (∃ vs1 log, V_DrawPatch videoEnvW 5 videoW 319 (-2) patchW = some (vs1, log) ∧
      log = [{ shadow := false, offset := 319, old := 0, value := 12, x := 319, col := 0,
               column := 0, topdelta := 1, top := 0, srccol := 1 }] ∧
      (vs1 = { videoW with dest_screen := applyWrites videoW.dest_screen log } ∧
        readsFrom videoW.dest_screen log ∧
        (∀ i, (∀ w ∈ log, w.offset ≠ i) → vs1.dest_screen i = videoW.dest_screen i) ∧
        (∀ l1 w l2, log = l1 ++ w :: l2 → (∀ u ∈ l2, u.offset ≠ w.offset) →
          vs1.dest_screen w.offset = w.value) ∧
        ∀ w ∈ log, w.onScreen videoEnvW ∧
          w.isPixelOf videoEnvW videoW patchW (319 - patchW.leftoffset)
            (-2 - patchW.topoffset) ∧
          (w.column, w.topdelta) ∈ patchPosts patchW 5 (patchW.columnofs w.col) (-1) ∧
          (videoW.dp_translucent = false → videoW.dp_translation = none →
            w.value = patchW.bytes (w.column + 3 + w.srccol))) ∧
      vs1.dest_screen 319 = 12 ∧ patchW.bytes (0 + 3 + 1) = 12 ∧ vs1.dest_screen (-1) = 0 ∧
      vs1.dest_screen 320 = 0 ∧ vs1.dest_screen 639 = 0) ∧
    V_DrawPatch videoEnvW 5 videoRejecting 319 (-2) patchW = some (videoRejecting, []) :=
  ⟨(patch_clipping videoEnvW videoW patchW 319 (-2) 5).2.1 2
      (by
        intro col h0 h1
        have hc : col = 0 ∨ col = 1 := by
          simp only [patchW] at h1
          omega
        rcases hc with rfl | rfl
        · exact ⟨by decide, by decide⟩
        · exact ⟨by decide, by decide⟩)
      (by decide)
      (fun callback hcb => Option.noConfusion hcb),
    ⟨_, _, rfl, rfl,
      (patch_clipping videoEnvW videoW patchW 319 (-2) 5).1 _ _ (by rfl),
      by rfl, by decide, by rfl, by rfl, by rfl⟩,
    (patch_clipping videoEnvW videoRejecting patchW 319 (-2) 5).2.2 _ rfl rfl⟩

end Doom
